import Mathlib

/-!
# The CSV adapter of vanilladbc-csv (`plugin.go`)

A shallow embedding of `plugin.go` and of the parts of the Go standard library it
delegates to (`strings.TrimSpace`, `strconv.ParseInt`, `strconv.ParseUint`, the `%v` verb
of `fmt`, and the reader and writer of `encoding/csv` with their default settings).

Conventions of the embedding

* A Go `string` is a `List Char`.  Every byte the code inspects by value (comma, quote,
  line feed, carriage return, sign, decimal digit) is ASCII, and a valid UTF-8 string is
  the same data as its list of code points, so byte-wise and rune-wise scans agree here.
* A Go pair `(value, error)` is a Lean pair whose second part is an `Option`; `none` is the
  `nil` error.
* A method that dereferences a `nil` pointer panics; such a call returns `none` at the
  outermost `Option`.
* A `map` is an association list read by first match; a `nil` map is `none`.
-/

namespace CsvPlugin

/-! ## Values, records and schemas (packages `dbc` and `dbd`) -/

/-- Go strings. -/
abbrev Str := List Char

/-- The dynamically typed slot `interface{}` of a `dbc.Record`, restricted to the kinds of
value the adapter produces, plus the `nil` interface that a map lookup of an absent key
yields.  `int32` carries a signed 32-bit integer, `uint32` an unsigned one, `float32` the
bit pattern of a single-precision number. -/
inductive Value where
  | nil
  | int32 (v : Int)
  | uint32 (v : Nat)
  | float32 (bits : Nat)
  | str (s : Str)
  deriving DecidableEq, Repr

/-- Modelled from the spec: the declared semantic type of a column (`dbd.ColumnType` with
the constants `TypeInt`, `TypeUInt`, `TypeFloat`, `TypeString`, `TypeLocString`); the
declaration lives in the `dbd` package.  `other` stands for any value of the type that is
none of the five constants. -/
inductive ColumnType where
  | TypeInt
  | TypeUInt
  | TypeFloat
  | TypeString
  | TypeLocString
  | other (tag : Nat)
  deriving DecidableEq, Repr

/-- Modelled from the spec: `dbd.ColumnDefinition`, of which the adapter reads the field
`Type` only (`Type_` here, as `Type` is reserved). -/
structure ColumnDefinition where
  Type_ : ColumnType
  deriving DecidableEq, Repr

/-- Modelled from the spec: one entry of `dbd.VersionDefinition.Definitions`, of which the
adapter reads the field `Column` only. -/
structure Definition where
  Column : Str
  deriving DecidableEq, Repr

/-- Modelled from the spec: `dbd.VersionDefinition`, the ordered column list of a schema. -/
structure VersionDefinition where
  Definitions : List Definition
  deriving DecidableEq, Repr

/-- The Go type `map[string]dbd.ColumnDefinition`. -/
abbrev ColumnMap := List (Str × ColumnDefinition)

/-- The Go type `dbc.Record`, a `map[string]interface{}`. -/
abbrev Record := List (Str × Value)

/-- The map read `record[k]`: the value bound to `k`, the `nil` interface if there is none. -/
def Record.get : Record → Str → Value
  | [], _ => Value.nil
  | (k', v) :: r, k => if k' = k then v else Record.get r k

/-- The map write `record[k] = v`: any earlier binding of `k` is replaced. -/
def Record.set (r : Record) (k : Str) (v : Value) : Record :=
  (k, v) :: r.filter (fun e => decide (e.1 ≠ k))

/-- The keys of a record. -/
def Record.keys (r : Record) : List Str := r.map Prod.fst

/-- The two-result map read `colDef, ok := columns[name]` on a map that is not `nil`. -/
def lookupEntry : ColumnMap → Str → Option ColumnDefinition
  | [], _ => none
  | (k, d) :: m, name => if k = name then some d else lookupEntry m name

/-- The two-result map read `colDef, ok := columns[name]`; a `nil` map has no entry. -/
def lookupColumn (columns : Option ColumnMap) (name : Str) : Option ColumnDefinition :=
  match columns with
  | none => none
  | some m => lookupEntry m name

/-! ## `strings.TrimSpace` -/

/-- The predicate `unicode.IsSpace`: the white-space code points of Unicode. -/
def isSpace (c : Char) : Bool :=
  let n := c.toNat
  (9 ≤ n && n ≤ 13) || n == 0x20 || n == 0x85 || n == 0xA0 || n == 0x1680 ||
  (0x2000 ≤ n && n ≤ 0x200A) || n == 0x2028 || n == 0x2029 || n == 0x202F ||
  n == 0x205F || n == 0x3000

/-- The function `strings.TrimSpace`: all leading and trailing white space removed. -/
def trimSpace (s : Str) : Str :=
  ((s.dropWhile isSpace).reverse.dropWhile isSpace).reverse

/-! ## `strconv.ParseUint` and `strconv.ParseInt` -/

/-- The error kinds of `strconv`: `ErrSyntax` and `ErrRange`. -/
inductive NumError where
  | errSyntax
  | errRange
  deriving DecidableEq, Repr

/-- The helper `lower` of `strconv`: `c | ('x' - 'X')` on the byte `c`. -/
def lowerByte (c : Nat) : Nat := c ||| 0x20

/-- The switch of the digit loop of `strconv.ParseUint`: the value of the byte `b` as a
digit (`0` to `9`, then the letters of either case from ten on), `none` for any other
byte.  A code point from 128 on is a sequence of bytes none of which is a digit. -/
def digitOf (b : Nat) : Option Nat :=
  if 48 ≤ b ∧ b ≤ 57 then some (b - 48)
  else if b < 128 ∧ 97 ≤ lowerByte b ∧ lowerByte b ≤ 122 then some (lowerByte b - 97 + 10)
  else none

/-- The digit loop of `strconv.ParseUint(s, base, bitSize)`, entered with the value `n`
read so far.  `cutoff` is `maxUint64/base + 1` and `maxVal` is `2^bitSize - 1`; the products
and sums are those of `uint64`. -/
def parseUintLoop (base cutoff maxVal : Nat) : Nat → Str → Nat × Option NumError
  | n, [] => (n, none)
  | n, c :: cs =>
    match digitOf c.toNat with
    | none => (0, some NumError.errSyntax)
    | some d =>
      if d ≥ base then (0, some NumError.errSyntax)
      else if n ≥ cutoff then (maxVal, some NumError.errRange)
      else if ((n * base) % 2 ^ 64 + d) % 2 ^ 64 < (n * base) % 2 ^ 64 ∨
          ((n * base) % 2 ^ 64 + d) % 2 ^ 64 > maxVal then (maxVal, some NumError.errRange)
      else parseUintLoop base cutoff maxVal (((n * base) % 2 ^ 64 + d) % 2 ^ 64) cs

/-- The call `strconv.ParseUint(s, 10, bitSize)`. -/
def ParseUint (s : Str) (bitSize : Nat) : Nat × Option NumError :=
  if s = [] then (0, some NumError.errSyntax)
  else parseUintLoop 10 ((2 ^ 64 - 1) / 10 + 1) (2 ^ bitSize - 1) 0 s

/-- The call `strconv.ParseInt(s, 10, bitSize)`. -/
def ParseInt (s : Str) (bitSize : Nat) : Int × Option NumError :=
  match s with
  | [] => (0, some NumError.errSyntax)
  | c :: cs =>
    let neg := decide (c = '-')
    let s1 := if c = '+' ∨ c = '-' then cs else s
    let r := ParseUint s1 bitSize
    if r.2 = some NumError.errSyntax then (0, r.2)
    else
      let un := r.1
      let cutoff := 2 ^ (bitSize - 1)
      if ¬ neg ∧ un ≥ cutoff then ((cutoff : Nat) - 1, some NumError.errRange)
      else if neg ∧ un > cutoff then (-(cutoff : Nat), some NumError.errRange)
      else (if neg then -(un : Int) else (un : Int), none)

/-- The conversion `int32(v)` of an `int64`: the low 32 bits, read as two's complement. -/
def toInt32 (v : Int) : Int := (v + 2 ^ 31) % 2 ^ 32 - 2 ^ 31

/-- The conversion `uint32(v)` of a `uint64`: the low 32 bits. -/
def toUInt32 (v : Nat) : Nat := v % 2 ^ 32

/-- Single-precision text conversions of the Go runtime, which the adapter calls and which
are kept abstract: `parse32 s` is `strconv.ParseFloat(s, 32)` followed by `float32(v)`, as
a bit pattern and an error; `format bits` is the `%v` rendering of a `float32`. -/
structure FloatConv where
  parse32 : Str → Nat × Option NumError
  format : Nat → Str

/-- The function `parseValue` of plugin.go. -/
def parseValue (fc : FloatConv) (value : Str) (colDef : ColumnDefinition) :
    Value × Option NumError :=
  let value := trimSpace value
  match colDef.Type_ with
  | ColumnType.TypeInt =>
    let r := ParseInt value 32
    (Value.int32 (toInt32 r.1), r.2)
  | ColumnType.TypeUInt =>
    let r := ParseUint value 32
    (Value.uint32 (toUInt32 r.1), r.2)
  | ColumnType.TypeFloat =>
    let r := fc.parse32 value
    (Value.float32 r.1, r.2)
  | ColumnType.TypeString => (Value.str value, none)
  | ColumnType.TypeLocString => (Value.str value, none)
  | ColumnType.other _ => (Value.str value, none)

/-! ## The `%v` verb of `fmt` -/

/-- The byte of the decimal digit `d`: `'0' + d`. -/
def digitChar (d : Nat) : Char := Char.ofNat (48 + d)

/-- The base-10 loop of `fmt.fmtInteger`, which fills the buffer from its end: while
`u >= 10` it stores the digit `u - (u/10)*10` and goes on with `u/10`, then it stores the
last digit.  `buf` is the part of the buffer already filled; the first argument bounds
the number of rounds, and `u` rounds always suffice. -/
def fmtDigits : Nat → Nat → Str → Str
  | 0, u, buf => digitChar u :: buf
  | fuel + 1, u, buf =>
    if u ≥ 10 then fmtDigits fuel (u / 10) (digitChar (u - (u / 10) * 10) :: buf)
    else digitChar u :: buf

/-- The `%v` rendering of an unsigned integer: its base-10 numeral. -/
def fmtUint (u : Nat) : Str := fmtDigits u u []

/-- The `%v` rendering of a signed integer: a minus sign before the numeral of the
magnitude when the value is negative. -/
def fmtInt (v : Int) : Str :=
  if v < 0 then '-' :: fmtUint (-v).toNat else fmtUint v.toNat

/-- The call `fmt.Sprintf("%v", value)` on the values a record holds; the `nil` interface
prints as `<nil>`. -/
def sprintV (fc : FloatConv) : Value → Str
  | Value.nil => ['<', 'n', 'i', 'l', '>']
  | Value.int32 v => fmtInt v
  | Value.uint32 v => fmtUint v
  | Value.float32 bits => fc.format bits
  | Value.str s => s

/-! ## The writer of `encoding/csv` (comma separator, `UseCRLF` off) -/

/-- The error a failed write to the underlying sink leaves in the buffered writer. -/
inductive SinkError where
  | failed
  deriving DecidableEq, Repr

/-- The state of a `csv.Writer` over a buffered sink: the text accepted so far, and the
sticky error of the buffer (once set, every later write returns it and adds nothing). -/
structure CsvWriter where
  out : Str
  err : Option SinkError
  deriving DecidableEq, Repr

/-- The method `fieldNeedsQuotes` of `csv.Writer`. -/
def fieldNeedsQuotes (field : Str) : Bool :=
  match field with
  | [] => false
  | c :: _ =>
    if field = ['\\', '.'] then true
    else if field.any (fun x => x == '\n' || x == '\r' || x == '"' || x == ',') then true
    else isSpace c

/-- The body of a quoted field as `csv.Writer.Write` emits it: a quote is written twice,
a carriage return and a line feed as they are, every other stretch verbatim. -/
def quoteBody : Str → Str
  | [] => []
  | c :: cs => if c = '"' then '"' :: '"' :: quoteBody cs else c :: quoteBody cs

/-- One field as `csv.Writer.Write` emits it. -/
def encodeField (field : Str) : Str :=
  if fieldNeedsQuotes field then '"' :: (quoteBody field ++ ['"']) else field

/-- The fields of a row with a comma before every field but the first. -/
def encodeFields : List Str → Str
  | [] => []
  | [f] => encodeField f
  | f :: fs => encodeField f ++ ',' :: encodeFields fs

/-- The text `csv.Writer.Write(record)` emits: the fields, then a line feed. -/
def encodeRecord (record : List Str) : Str := encodeFields record ++ ['\n']

/-- The method `csv.Writer.Write`. -/
def CsvWriter.Write (w : CsvWriter) (record : List Str) : CsvWriter × Option SinkError :=
  match w.err with
  | some e => (w, some e)
  | none => ({ w with out := w.out ++ encodeRecord record }, none)

/-! ## The reader of `encoding/csv` (comma separator, no comment character, `LazyQuotes`
and `TrimLeadingSpace` off, `FieldsPerRecord` zero at creation)

The source is an in-memory text, so the only read error is the end of input. -/

/-- The errors of `csv.Reader.Read`: `io.EOF`, `ErrBareQuote`, `ErrQuote`, `ErrFieldCount`. -/
inductive CsvError where
  | EOF
  | ErrBareQuote
  | ErrQuote
  | ErrFieldCount
  deriving DecidableEq, Repr

/-- The state of a `csv.Reader`: the text of the source not yet consumed, and the field
`FieldsPerRecord`. -/
structure CsvReader where
  src : Str
  FieldsPerRecord : Int
  deriving DecidableEq, Repr

/-- The call `bufio.Reader.ReadSlice('\n')`: the bytes up to and including the first line
feed, whether the end of input was hit before one was found, and the rest of the input. -/
def readSlice : Str → Str × Bool × Str
  | [] => ([], true, [])
  | c :: cs =>
    if c = '\n' then (['\n'], false, cs)
    else ((c :: (readSlice cs).1), (readSlice cs).2.1, (readSlice cs).2.2)

/-- The method `csv.Reader.readLine`: a last line without line feed is returned without
error and loses a trailing carriage return; a line ending in carriage return and line feed
has the pair replaced by a line feed.  The flag is `true` for the error `io.EOF`. -/
def readLine (src : Str) : Str × Bool × Str :=
  let r := readSlice src
  let line0 := r.1
  let atEnd := decide (line0 ≠ []) && r.2.1
  let line1 := if atEnd ∧ line0.getLast? = some '\r' then line0.dropLast else line0
  let err := if atEnd then false else r.2.1
  let n := line1.length
  let line2 :=
    if n ≥ 2 ∧ line1.get? (n - 2) = some '\r' ∧ line1.get? (n - 1) = some '\n'
    then line1.take (n - 2) ++ ['\n'] else line1
  (line2, err, r.2.2)

/-- The helper `lengthNL` of `encoding/csv`: one if the line ends in a line feed, else zero. -/
def lengthNL (b : Str) : Nat := if b.getLast? = some '\n' then 1 else 0

/-- The first loop of `csv.Reader.readRecord`: read lines, skipping the empty ones, until a
line with content or the end of input.  The first argument bounds the number of rounds. -/
def nextLine : Nat → Str → Option (Str × Bool × Str)
  | 0, _ => none
  | fuel + 1, src =>
    let r := readLine src
    if r.2.1 = false ∧ r.1.length = lengthNL r.1 then nextLine fuel r.2.2 else some r

/-- What the field loop of `readRecord` leaves: the fields completed, the parse error if
any, and the rest of the source. -/
structure Parsed where
  fields : List Str
  err : Option CsvError
  src : Str
  deriving DecidableEq, Repr

/-- The loop `parseField` of `csv.Reader.readRecord`.  The second argument is `none` at
the start of a field and `some buf` inside a quoted field of which `buf` has been read;
`line` is the unread part of the current line, `src` the source after it, `dst` the fields
completed.  The first argument bounds the number of rounds. -/
def parseRecord : Nat → Option Str → Str → Str → List Str → Option Parsed
  | 0, _, _, _, _ => none
  | fuel + 1, none, line, src, dst =>
    if line.head? ≠ some '"' then
      -- Non-quoted string field
      let sp := line.span (fun c => decide (c ≠ ','))
      let field := if sp.2 ≠ [] then sp.1 else line.take (line.length - lengthNL line)
      if '"' ∈ field then some { fields := dst, err := some CsvError.ErrBareQuote, src := src }
      else if sp.2 ≠ [] then parseRecord fuel none sp.2.tail src (dst ++ [field])
      else some { fields := dst ++ [field], err := none, src := src }
    else
      -- Quoted string field
      parseRecord fuel (some []) line.tail src dst
  | fuel + 1, some buf, line, src, dst =>
    let sp := line.span (fun c => decide (c ≠ '"'))
    if sp.2 ≠ [] then
      -- Hit next quote.
      let buf1 := buf ++ sp.1
      let line1 := sp.2.tail
      if line1.head? = some '"' then
        parseRecord fuel (some (buf1 ++ ['"'])) line1.tail src dst
      else if line1.head? = some ',' then
        parseRecord fuel none line1.tail src (dst ++ [buf1])
      else if lengthNL line1 = line1.length then
        some { fields := dst ++ [buf1], err := none, src := src }
      else
        some { fields := dst, err := some CsvError.ErrQuote, src := src }
    else if line ≠ [] then
      -- Hit end of line (copy all data so far).
      let r := readLine src
      parseRecord fuel (some (buf ++ line)) r.1 r.2.2 dst
    else
      -- Abrupt end of file.
      some { fields := dst, err := some CsvError.ErrQuote, src := src }

/-- The method `csv.Reader.Read`: the next record and the error, and the reader after the
call.  The result is `none` only if a loop ran out of rounds, which `Read_isSome` excludes. -/
def CsvReader.Read (r : CsvReader) : Option ((List Str × Option CsvError) × CsvReader) :=
  match nextLine (r.src.length + 1) r.src with
  | none => none
  | some (line, eof, src) =>
    if eof then some (([], some CsvError.EOF), { r with src := src })
    else
      match parseRecord (r.src.length + 1) none line src [] with
      | none => none
      | some p =>
        if r.FieldsPerRecord > 0 then
          if (p.fields.length : Int) ≠ r.FieldsPerRecord ∧ p.err = none then
            some ((p.fields, some CsvError.ErrFieldCount), { r with src := p.src })
          else some ((p.fields, p.err), { r with src := p.src })
        else if r.FieldsPerRecord = 0 then
          some ((p.fields, p.err), { src := p.src, FieldsPerRecord := p.fields.length })
        else some ((p.fields, p.err), { r with src := p.src })

/-! ## The adapter: `plugin.go` -/

/-- The errors the adapter returns: the error of the sink (returned as it is by the write
methods), and the three wrapped errors `failed to read CSV header`, `failed to read CSV
record` and `failed to parse value for column <name>`. -/
inductive PluginError where
  | sink (e : SinkError)
  | headerRead (e : CsvError)
  | recordRead (e : CsvError)
  | parseColumn (colName : Str) (e : NumError)
  deriving DecidableEq, Repr

/-- The struct `Plugin`.  The fields `reader` and `writer` are the source inside
`csvReader` and the sink inside `csvWriter`. -/
structure Plugin where
  csvReader : Option CsvReader
  csvWriter : Option CsvWriter
  columnOrder : List Str
  versionDef : Option VersionDefinition
  columns : Option ColumnMap
  headers : List Str
  index : Int
  deriving DecidableEq, Repr

/-- The constructor `New`, over a sink that holds nothing yet. -/
def New : Plugin :=
  { csvReader := none, csvWriter := some { out := [], err := none }, columnOrder := [],
    versionDef := none, columns := none, headers := [], index := 0 }

/-- The constructor `NewReader`, over a source holding the text `reader`. -/
def NewReader (reader : Str) : Plugin :=
  { csvReader := some { src := reader, FieldsPerRecord := 0 }, csvWriter := none,
    columnOrder := [], versionDef := none, columns := none, headers := [], index := 0 }

/-- The constructor `NewConverter`. -/
def NewConverter (reader : Str) : Plugin :=
  { csvReader := some { src := reader, FieldsPerRecord := 0 },
    csvWriter := some { out := [], err := none }, columnOrder := [],
    versionDef := none, columns := none, headers := [], index := 0 }

/-- The column order `WriteHeader` builds: the `Column` of every definition, appended in
turn to an empty slice. -/
def buildColumnOrder (defs : List Definition) : List Str :=
  defs.foldl (fun order d => order ++ [d.Column]) []

/-- The method `WriteHeader`.  The version definition is a pointer, `none` when `nil`. -/
def WriteHeader (p : Plugin) (versionDef : Option VersionDefinition)
    (columns : Option ColumnMap) : Option (Option PluginError × Plugin) :=
  match versionDef, p.csvWriter with
  | some vd, some w =>
    let columnOrder := buildColumnOrder vd.Definitions
    let r := w.Write columnOrder
    some (r.2.map PluginError.sink,
      { p with versionDef := versionDef, columns := columns, columnOrder := columnOrder,
               csvWriter := some r.1 })
  | _, _ => none

/-- The row `WriteRecord` builds: for the column at each position of the stored order,
the `%v` rendering of `record[colName]`. -/
def buildRow (fc : FloatConv) (columnOrder : List Str) (record : Record) : List Str :=
  columnOrder.map (fun colName => sprintV fc (record.get colName))

/-- The method `WriteRecord`. -/
def WriteRecord (fc : FloatConv) (p : Plugin) (record : Record) :
    Option (Option PluginError × Plugin) :=
  match p.csvWriter with
  | none => none
  | some w =>
    let r := w.Write (buildRow fc p.columnOrder record)
    some (r.2.map PluginError.sink, { p with csvWriter := some r.1 })

/-- The method `WriteFooter`: flush, then report the error of the writer. -/
def WriteFooter (p : Plugin) : Option (Option PluginError × Plugin) :=
  match p.csvWriter with
  | none => none
  | some w => some (w.err.map PluginError.sink, p)

/-- The method `SetSchema`. -/
def SetSchema (p : Plugin) (versionDef : Option VersionDefinition)
    (columns : Option ColumnMap) : Plugin :=
  { p with versionDef := versionDef, columns := columns }

/-- The method `ReadHeader`: the schema, the column mapping and the error it returns, and
the adapter after the call. -/
def ReadHeader (p : Plugin) :
    Option ((Option VersionDefinition × Option ColumnMap × Option PluginError) × Plugin) :=
  match p.csvReader with
  | none => none
  | some rd =>
    match rd.Read with
    | none => none
    | some ((headers, err), rd1) =>
      match err with
      | some e => some ((none, none, some (PluginError.headerRead e)), { p with csvReader := some rd1 })
      | none =>
        some ((p.versionDef, p.columns, none),
          { p with csvReader := some rd1, headers := headers, index := 0 })

/-- The loop of `ReadRecord` over the fields of a row, from position `i` on: it stops at
the first position that has no header; a field whose column has a descriptor is coerced by
`parseValue`, and a coercion error ends the loop with that error; a field whose column has
none is stored as it is.  `record` is the record filled so far. -/
def readFields (fc : FloatConv) (headers : List Str) (columns : Option ColumnMap) :
    Nat → List Str → Record → Option Record × Option PluginError
  | _, [], record => (some record, none)
  | i, value :: row, record =>
    match headers.get? i with
    | none => (some record, none)
    | some colName =>
      match lookupColumn columns colName with
      | some colDef =>
        let r := parseValue fc value colDef
        match r.2 with
        | some e => (none, some (PluginError.parseColumn colName e))
        | none => readFields fc headers columns (i + 1) row (record.set colName r.1)
      | none => readFields fc headers columns (i + 1) row (record.set colName (Value.str value))

/-- The method `ReadRecord`: the record and the error it returns, and the adapter after the
call.  The pair `(none, none)` is the result `nil, nil` that signals the end of input. -/
def ReadRecord (fc : FloatConv) (p : Plugin) :
    Option ((Option Record × Option PluginError) × Plugin) :=
  match p.csvReader with
  | none => none
  | some rd =>
    match rd.Read with
    | none => none
    | some ((row, err), rd1) =>
      let p1 := { p with csvReader := some rd1 }
      match err with
      | some CsvError.EOF => some ((none, none), p1)
      | some e => some ((none, some (PluginError.recordRead e)), p1)
      | none =>
        match readFields fc p.headers p.columns 0 row [] with
        | (some record, none) => some ((some record, none), { p1 with index := p.index + 1 })
        | (_, e) => some ((none, e), p1)

/-- The method `Close`. -/
def Close (p : Plugin) : Option PluginError × Plugin := (none, p)

/-! ## Vocabulary of the specification: base-10 numerals -/

/-- A decimal digit: one of the bytes `0` to `9`. -/
def isDecDigit (c : Char) : Bool := decide (48 ≤ c.toNat) && decide (c.toNat ≤ 57)

/-- The number a sequence of decimal digits denotes, read after the digits of `n`. -/
def decValue : Nat → Str → Nat
  | n, [] => n
  | n, c :: cs => decValue (n * 10 + (c.toNat - 48)) cs

/-- The digits of a numeral: the text after its leading sign, if it has one. -/
def numeralDigits (s : Str) : Str :=
  match s with
  | [] => []
  | c :: cs => if c = '+' ∨ c = '-' then cs else s

/-- Whether a numeral has a leading minus sign. -/
def numeralNegative (s : Str) : Bool := decide (s.head? = some '-')

/-- A non-empty sequence of decimal digits. -/
def isDigitSeq (s : Str) : Bool := decide (s ≠ []) && s.all isDecDigit

/-- A base-10 integer as the specification words it: an optional leading sign followed by
one or more decimal digits. -/
def isDecimalInteger (s : Str) : Bool := isDigitSeq (numeralDigits s)

/-- The integer a base-10 numeral denotes. -/
def integerValue (s : Str) : Int :=
  if numeralNegative s then -(decValue 0 (numeralDigits s) : Int)
  else (decValue 0 (numeralDigits s) : Int)

/-! ## Stand-ins for closed examples -/

/-- A conversion of single-precision numbers for closed examples on schemas that have no
floating-point column: it rejects every text and renders every number as the empty text. -/
def noFloat : FloatConv :=
  { parse32 := fun _ => (0, some NumError.errSyntax), format := fun _ => [] }

/-- A conversion of single-precision numbers for closed examples on schemas that have a
floating-point column: Go's conversions at the numbers 0, 1.5 and -2 (the bit patterns 0,
`0x3FC00000` and `0xC0000000`; the texts `0`, `1.5` and `-2`), in both directions.  As in
`noFloat`, every other text is rejected and every other number rendered as the empty
text. -/
def sampleFloat : FloatConv :=
  { parse32 := fun s =>
      if s = ['0'] then (0, none)
      else if s = ['1', '.', '5'] then (1069547520, none)
      else if s = ['-', '2'] then (3221225472, none)
      else (0, some NumError.errSyntax),
    format := fun bits =>
      if bits = 0 then ['0']
      else if bits = 1069547520 then ['1', '.', '5']
      else if bits = 3221225472 then ['-', '2']
      else [] }

/-! ## Vocabulary of the specification: texts that survive the CSV codec -/

/-- No carriage return of the text is directly followed by a line feed. -/
def noCRLF : Str → Bool
  | [] => true
  | c :: cs => !(decide (c = '\r') && decide (cs.head? = some '\n')) && noCRLF cs

/-- The value `ReadRecord` stores for the field `value` of the column `colName`: the
coerced value when the column has a descriptor, the field itself when it has none. -/
def cellValue (fc : FloatConv) (columns : Option ColumnMap) (colName : Str) (value : Str) :
    Value :=
  match lookupColumn columns colName with
  | some colDef => (parseValue fc value colDef).1
  | none => Value.str value

/-! ## Sessions: the call sequences of the write path and of the read path -/

/-- The column names of a schema, in declared order. -/
def columnNames (versionDef : VersionDefinition) : List Str :=
  versionDef.Definitions.map Definition.Column

/-- `WriteRecord` for each record in turn: the errors returned, in call order, and the
adapter after the last call. -/
def writeRecords (fc : FloatConv) : Plugin → List Record →
    Option (List (Option PluginError) × Plugin)
  | p, [] => some ([], p)
  | p, r :: rs =>
    match WriteRecord fc p r with
    | none => none
    | some (e, p1) =>
      match writeRecords fc p1 rs with
      | none => none
      | some (es, p2) => some (e :: es, p2)

/-- A write session on a fresh adapter: `WriteHeader`, `WriteRecord` for each record, then
`WriteFooter`.  The result is the errors the calls returned, in call order, and the text
the sink holds at the end. -/
def writeSession (fc : FloatConv) (versionDef : Option VersionDefinition)
    (columns : Option ColumnMap) (records : List Record) :
    Option (List (Option PluginError) × Str) :=
  match WriteHeader New versionDef columns with
  | none => none
  | some (e0, p1) =>
    match writeRecords fc p1 records with
    | none => none
    | some (es, p2) =>
      match WriteFooter p2 with
      | none => none
      | some (ef, p3) =>
        match p3.csvWriter with
        | none => none
        | some w => some (e0 :: es ++ [ef], w.out)

/-- `ReadRecord` called `n` times in a row: the results, in call order, and the adapter
after the last call. -/
def readRecords (fc : FloatConv) : Nat → Plugin →
    Option (List (Option Record × Option PluginError) × Plugin)
  | 0, p => some ([], p)
  | n + 1, p =>
    match ReadRecord fc p with
    | none => none
    | some (r, p1) =>
      match readRecords fc n p1 with
      | none => none
      | some (rs, p2) => some (r :: rs, p2)

/-- A read session over the text `text`: `NewReader`, `SetSchema`, `ReadHeader`, then
`ReadRecord` called `n` times.  The result is what `ReadHeader` returned and what the calls
of `ReadRecord` returned, in call order. -/
def readSession (fc : FloatConv) (text : Str) (versionDef : Option VersionDefinition)
    (columns : Option ColumnMap) (n : Nat) :
    Option ((Option VersionDefinition × Option ColumnMap × Option PluginError) ×
      List (Option Record × Option PluginError)) :=
  match ReadHeader (SetSchema (NewReader text) versionDef columns) with
  | none => none
  | some (h, p1) =>
    match readRecords fc n p1 with
    | none => none
    | some (rs, _) => some (h, rs)

/-! ## Vocabulary of the specification: records that satisfy a schema -/

/-- A string value that survives the codec: it holds no carriage return directly before a
line feed and, when `trimmed` is asked, has no leading or trailing white space. -/
def stringFits (trimmed : Bool) : Value → Bool
  | Value.str s => (!trimmed || decide (trimSpace s = s)) && noCRLF s
  | _ => false

/-- A value satisfies the declaration of its column and survives the codec: under a
signed-integer descriptor an `int32`, under an unsigned-integer descriptor a `uint32`,
under a floating-point descriptor a `float32`, under a descriptor of any other type a
string without leading or trailing white space, under no descriptor any string; a string
holds no carriage return directly before a line feed.  The conversions of floating-point
numbers are not modelled, so for a `float32` the predicate asks of them what the codec
needs: the text `%v` renders for the number is not empty, holds no carriage return directly
before a line feed, and is accepted by the float parser. -/
def valueFits (fc : FloatConv) (d : Option ColumnDefinition) (v : Value) : Bool :=
  match d with
  | none => stringFits false v
  | some colDef =>
    match colDef.Type_ with
    | ColumnType.TypeInt =>
      match v with
      | Value.int32 n => decide (-2147483648 ≤ n) && decide (n ≤ 2147483647)
      | _ => false
    | ColumnType.TypeUInt =>
      match v with
      | Value.uint32 n => decide (n ≤ 4294967295)
      | _ => false
    | ColumnType.TypeFloat =>
      match v with
      | Value.float32 bits =>
        decide ((fc.parse32 (trimSpace (fc.format bits))).2 = none) &&
          noCRLF (fc.format bits) && decide (fc.format bits ≠ [])
      | _ => false
    | ColumnType.TypeString => stringFits true v
    | ColumnType.TypeLocString => stringFits true v
    | ColumnType.other _ => stringFits true v

/-- A schema whose header row survives the codec: it has a column, it is not the single
column of empty name, and no name holds a carriage return directly before a line feed. -/
def schemaFits (names : List Str) : Bool :=
  decide (names ≠ []) && decide (names ≠ [[]]) && names.all noCRLF

/-- A record that satisfies a schema: its keys are columns of the schema, every column
holds a value that satisfies its declaration, and the record is not the single empty
string of a one-column schema. -/
def recordFits (fc : FloatConv) (columns : Option ColumnMap) (names : List Str)
    (r : Record) : Bool :=
  r.keys.all (fun k => decide (k ∈ names)) &&
  names.all (fun n => valueFits fc (lookupColumn columns n) (r.get n)) &&
  decide (names.map (fun n => r.get n) ≠ [Value.str []])

/-- The text a write session emits after the header row: the rows of the records in turn. -/
def rowsText (fc : FloatConv) (names : List Str) : List Record → Str
  | [] => []
  | r :: rs => encodeRecord (buildRow fc names r) ++ rowsText fc names rs

/-! ## Vocabulary of the specification: canonical numerals -/

/-- The base-10 numeral of `n` without leading zeros: a non-empty sequence of decimal
digits that denotes `n` and does not start with the digit zero, unless it is the single
digit zero. -/
def isCanonicalNumeral (s : Str) (n : Nat) : Bool :=
  isDigitSeq s && decide (decValue 0 s = n) &&
    (decide (s.head? ≠ some '0') || decide (s = ['0']))

/-! ## The states the adapter can be in -/

/-- The adapters a caller can hold: the fields of `Plugin` are unexported, so every adapter
is one a constructor returned, possibly after calls of its methods; a call that panics
yields no adapter. -/
inductive Reachable (fc : FloatConv) : Plugin → Prop where
  | new : Reachable fc New
  | newReader (reader : Str) : Reachable fc (NewReader reader)
  | newConverter (reader : Str) : Reachable fc (NewConverter reader)
  | setSchema (p : Plugin) (versionDef : Option VersionDefinition)
      (columns : Option ColumnMap) :
      Reachable fc p → Reachable fc (SetSchema p versionDef columns)
  | writeHeader (p : Plugin) (versionDef : Option VersionDefinition)
      (columns : Option ColumnMap) (e : Option PluginError) (p' : Plugin) :
      Reachable fc p → WriteHeader p versionDef columns = some (e, p') → Reachable fc p'
  | writeRecord (p : Plugin) (record : Record) (e : Option PluginError) (p' : Plugin) :
      Reachable fc p → WriteRecord fc p record = some (e, p') → Reachable fc p'
  | writeFooter (p : Plugin) (e : Option PluginError) (p' : Plugin) :
      Reachable fc p → WriteFooter p = some (e, p') → Reachable fc p'
  | readHeader (p : Plugin)
      (r : Option VersionDefinition × Option ColumnMap × Option PluginError) (p' : Plugin) :
      Reachable fc p → ReadHeader p = some (r, p') → Reachable fc p'
  | readRecord (p : Plugin) (r : Option Record × Option PluginError) (p' : Plugin) :
      Reachable fc p → ReadRecord fc p = some (r, p') → Reachable fc p'
  | close (p : Plugin) : Reachable fc p → Reachable fc (Close p).2

/-! ## Lemmas on `strings.TrimSpace` -/

theorem trimSpace_eq (s : Str) : trimSpace s = (s.dropWhile isSpace).rdropWhile isSpace := by
  simp [trimSpace, List.rdropWhile]

theorem dropWhile_rdropWhile_dropWhile (p : Char → Bool) (s : Str) :
    ((s.dropWhile p).rdropWhile p).dropWhile p = (s.dropWhile p).rdropWhile p := by
  rcases h : (s.dropWhile p).rdropWhile p with _ | ⟨y, b⟩
  · rfl
  · have hpre : (y :: b) <+: s.dropWhile p := h ▸ List.rdropWhile_prefix p _
    obtain ⟨t, ht⟩ := hpre
    have hy : p y = false := by
      have := List.head_dropWhile_not p s (by rw [← ht]; simp)
      simpa [← ht] using this
    simp [List.dropWhile_cons, hy]

theorem trimSpace_idem (s : Str) : trimSpace (trimSpace s) = trimSpace s := by
  rw [trimSpace_eq s, trimSpace_eq, dropWhile_rdropWhile_dropWhile, List.rdropWhile_idempotent]

theorem trimSpace_self_of (s : Str) (h1 : ∀ c, s.head? = some c → isSpace c = false)
    (h2 : ∀ c, s.getLast? = some c → isSpace c = false) : trimSpace s = s := by
  rw [trimSpace_eq]
  have hd : s.dropWhile isSpace = s := by
    cases s with
    | nil => rfl
    | cons c t => simp [List.dropWhile_cons, h1 c rfl]
  rw [hd]
  rcases List.eq_nil_or_concat s with rfl | ⟨t, c, rfl⟩
  · rfl
  · have := h2 c (by simp)
    simp [List.rdropWhile_concat, this]

/-! ## Lemmas on `strconv` and on the `%v` verb -/

theorem decValue_cons (n : Nat) (c : Char) (cs : Str) :
    decValue n (c :: cs) = decValue (n * 10 + (c.toNat - 48)) cs := rfl

theorem le_decValue (s : Str) : ∀ n, n ≤ decValue n s := by
  induction s with
  | nil => intro n; exact Nat.le_refl n
  | cons c cs ih =>
    intro n
    have := ih (n * 10 + (c.toNat - 48))
    rw [decValue_cons]
    omega

theorem isDecDigit_iff (c : Char) : isDecDigit c = true ↔ 48 ≤ c.toNat ∧ c.toNat ≤ 57 := by
  unfold isDecDigit
  rw [Bool.and_eq_true, decide_eq_true_iff, decide_eq_true_iff]

theorem digitOf_digit (b : Nat) (h : 48 ≤ b ∧ b ≤ 57) : digitOf b = some (b - 48) := by
  unfold digitOf; rw [if_pos h]

theorem digitOf_not_digit (b d : Nat) (h : ¬ (48 ≤ b ∧ b ≤ 57)) (hd : digitOf b = some d) :
    d ≥ 10 := by
  unfold digitOf at hd
  rw [if_neg h] at hd
  split_ifs at hd
  have := Option.some.inj hd
  omega

theorem parseUintLoop_cons (base cutoff maxVal n : Nat) (c : Char) (cs : Str) :
    parseUintLoop base cutoff maxVal n (c :: cs) =
      match digitOf c.toNat with
      | none => (0, some NumError.errSyntax)
      | some d =>
        if d ≥ base then (0, some NumError.errSyntax)
        else if n ≥ cutoff then (maxVal, some NumError.errRange)
        else if ((n * base) % 2 ^ 64 + d) % 2 ^ 64 < (n * base) % 2 ^ 64 ∨
            ((n * base) % 2 ^ 64 + d) % 2 ^ 64 > maxVal then (maxVal, some NumError.errRange)
        else parseUintLoop base cutoff maxVal (((n * base) % 2 ^ 64 + d) % 2 ^ 64) cs := rfl

theorem parseUintLoop_spec (cutoff maxVal : Nat) (hm : maxVal < cutoff)
    (hcut : maxVal * 10 + 10 ≤ 2 ^ 64) (s : Str) :
    ∀ n, n ≤ maxVal →
      ((parseUintLoop 10 cutoff maxVal n s).2 = none ↔
        (s.all isDecDigit = true ∧ decValue n s ≤ maxVal)) ∧
      ((parseUintLoop 10 cutoff maxVal n s).2 = none →
        (parseUintLoop 10 cutoff maxVal n s).1 = decValue n s) := by
  induction s with
  | nil =>
    intro n hn
    refine ⟨⟨fun _ => ⟨rfl, hn⟩, fun _ => rfl⟩, fun _ => rfl⟩
  | cons c cs ih =>
    intro n hn
    have h64 : (2 : Nat) ^ 64 = 18446744073709551616 := by norm_num
    rw [h64] at hcut
    rw [parseUintLoop_cons, decValue_cons, h64, List.all_cons, Bool.and_eq_true]
    by_cases hd : 48 ≤ c.toNat ∧ c.toNat ≤ 57
    · have hdig : isDecDigit c = true := (isDecDigit_iff c).2 hd
      have e1 : (n * 10) % 18446744073709551616 = n * 10 := by omega
      have e2 : (n * 10 + (c.toNat - 48)) % 18446744073709551616 = n * 10 + (c.toNat - 48) := by
        omega
      have hc : ¬ (n ≥ cutoff) := by omega
      have hlt : ¬ (c.toNat - 48 ≥ 10) := by omega
      rw [digitOf_digit _ hd]
      dsimp only
      rw [if_neg hlt, if_neg hc, e1, e2]
      by_cases hov : n * 10 + (c.toNat - 48) > maxVal
      · have hge := le_decValue cs (n * 10 + (c.toNat - 48))
        have : ¬ (decValue (n * 10 + (c.toNat - 48)) cs ≤ maxVal) := by omega
        rw [if_pos (Or.inr hov)]
        refine ⟨⟨fun h => (by cases h), fun h => absurd h.2 this⟩, fun h => (by cases h)⟩
      · have hle : n * 10 + (c.toNat - 48) ≤ maxVal := by omega
        have := ih _ hle
        have hnlt : ¬ (n * 10 + (c.toNat - 48) < n * 10 ∨ n * 10 + (c.toNat - 48) > maxVal) := by
          omega
        rw [if_neg hnlt]
        refine ⟨⟨fun h => ⟨⟨hdig, (this.1.1 h).1⟩, (this.1.1 h).2⟩,
          fun h => this.1.2 ⟨h.1.2, h.2⟩⟩, this.2⟩
    · have hdig : ¬ (isDecDigit c = true) := fun h => hd ((isDecDigit_iff c).1 h)
      have hsyn : (match digitOf c.toNat with
          | none => ((0 : Nat), some NumError.errSyntax)
          | some d =>
            if d ≥ 10 then (0, some NumError.errSyntax)
            else if n ≥ cutoff then (maxVal, some NumError.errRange)
            else if ((n * 10) % 18446744073709551616 + d) % 18446744073709551616
                  < (n * 10) % 18446744073709551616 ∨
                ((n * 10) % 18446744073709551616 + d) % 18446744073709551616 > maxVal
              then (maxVal, some NumError.errRange)
            else parseUintLoop 10 cutoff maxVal
              (((n * 10) % 18446744073709551616 + d) % 18446744073709551616) cs)
          = (0, some NumError.errSyntax) := by
        cases hdo : digitOf c.toNat with
        | none => rfl
        | some d =>
          have := digitOf_not_digit _ _ hd hdo
          dsimp only
          rw [if_pos this]
      rw [hsyn]
      refine ⟨⟨fun h => (by cases h), fun h => absurd h.1.1 hdig⟩, fun h => (by cases h)⟩

theorem parseUintLoop_range (base cutoff maxVal : Nat) (s : Str) :
    ∀ n, (parseUintLoop base cutoff maxVal n s).2 = some NumError.errRange →
      (parseUintLoop base cutoff maxVal n s).1 = maxVal := by
  induction s with
  | nil => intro n h; cases h
  | cons c cs ih =>
    intro n
    rw [parseUintLoop_cons]
    cases digitOf c.toNat with
    | none => intro h; cases h
    | some d =>
      dsimp only
      split_ifs
      · intro h; cases h
      · intro _; rfl
      · intro _; rfl
      · exact ih _

theorem ParseUint32_spec (s : Str) :
    ((ParseUint s 32).2 = none ↔ (isDigitSeq s = true ∧ decValue 0 s ≤ 4294967295)) ∧
    ((ParseUint s 32).2 = none → (ParseUint s 32).1 = decValue 0 s) ∧
    ((ParseUint s 32).2 = some NumError.errRange → (ParseUint s 32).1 = 4294967295) := by
  unfold ParseUint isDigitSeq
  by_cases hs : s = []
  · subst hs
    refine ⟨⟨fun h => (by cases h), fun h => ?_⟩, fun h => (by cases h), fun h => (by cases h)⟩
    simp at h
  · rw [if_neg hs]
    have hmax : (2 : Nat) ^ 32 - 1 = 4294967295 := by norm_num
    have hcut : ((2 : Nat) ^ 64 - 1) / 10 + 1 = 1844674407370955162 := by norm_num
    rw [hmax, hcut]
    have h := parseUintLoop_spec 1844674407370955162 4294967295 (by norm_num) (by norm_num) s
      0 (Nat.zero_le _)
    refine ⟨?_, h.2, parseUintLoop_range _ _ _ s 0⟩
    rw [h.1, Bool.and_eq_true, decide_eq_true_iff]
    exact ⟨fun h => ⟨⟨hs, h.1⟩, h.2⟩, fun h => ⟨h.1.2, h.2⟩⟩

theorem ParseUint_err_cases (s : Str) (b : Nat) :
    (ParseUint s b).2 = none ∨ (ParseUint s b).2 = some NumError.errSyntax ∨
      (ParseUint s b).2 = some NumError.errRange := by
  rcases h : (ParseUint s b).2 with _ | e
  · exact Or.inl rfl
  · cases e
    · exact Or.inr (Or.inl rfl)
    · exact Or.inr (Or.inr rfl)

theorem ParseInt_cons (c : Char) (cs : Str) (bitSize : Nat) :
    ParseInt (c :: cs) bitSize =
      if (ParseUint (if c = '+' ∨ c = '-' then cs else c :: cs) bitSize).2
          = some NumError.errSyntax
      then (0, (ParseUint (if c = '+' ∨ c = '-' then cs else c :: cs) bitSize).2)
      else if ¬ (decide (c = '-') = true) ∧
          (ParseUint (if c = '+' ∨ c = '-' then cs else c :: cs) bitSize).1 ≥ 2 ^ (bitSize - 1)
        then (((2 ^ (bitSize - 1) : Nat) : Int) - 1, some NumError.errRange)
      else if decide (c = '-') = true ∧
          (ParseUint (if c = '+' ∨ c = '-' then cs else c :: cs) bitSize).1 > 2 ^ (bitSize - 1)
        then (-((2 ^ (bitSize - 1) : Nat) : Int), some NumError.errRange)
      else (if decide (c = '-') = true
          then -((ParseUint (if c = '+' ∨ c = '-' then cs else c :: cs) bitSize).1 : Int)
          else ((ParseUint (if c = '+' ∨ c = '-' then cs else c :: cs) bitSize).1 : Int), none) :=
  rfl

theorem ParseInt32_spec (s : Str) :
    ((ParseInt s 32).2 = none ↔
      (isDecimalInteger s = true ∧ -2147483648 ≤ integerValue s ∧ integerValue s ≤ 2147483647)) ∧
    ((ParseInt s 32).2 = none → (ParseInt s 32).1 = integerValue s) := by
  cases s with
  | nil =>
    refine ⟨⟨fun h => (by cases h), fun h => ?_⟩, fun h => (by cases h)⟩
    exact absurd h.1 (by decide)
  | cons c cs =>
    rw [ParseInt_cons]
    have hnd : numeralDigits (c :: cs) = if c = '+' ∨ c = '-' then cs else c :: cs := rfl
    have hneg : numeralNegative (c :: cs) = decide (c = '-') := by
      unfold numeralNegative
      simp
    unfold isDecimalInteger integerValue
    rw [hnd, hneg]
    generalize (if c = '+' ∨ c = '-' then cs else c :: cs) = ds
    have hp : (2 : Nat) ^ (32 - 1) = 2147483648 := by norm_num
    rw [hp]
    obtain ⟨h1, h2, h3⟩ := ParseUint32_spec ds
    rcases ParseUint_err_cases ds 32 with he | he | he
    · have hv := h2 he
      have hd := h1.1 he
      rw [if_neg (by rw [he]; exact fun h => by cases h), hv]
      by_cases hc : c = '-'
      · simp only [hc, decide_True, not_true_eq_false, false_and, ↓reduceIte, true_and]
        split_ifs with hgt
        · refine ⟨⟨fun h => (by cases h), fun h => ?_⟩, fun h => (by cases h)⟩
          omega
        · refine ⟨⟨fun _ => ⟨hd.1, ?_, ?_⟩, fun _ => rfl⟩, fun _ => rfl⟩ <;> omega
      · simp only [hc, decide_False, not_false_eq_true, true_and, false_and, ↓reduceIte,
          Bool.false_eq_true]
        split_ifs with hgt
        · refine ⟨⟨fun h => (by cases h), fun h => ?_⟩, fun h => (by cases h)⟩
          omega
        · refine ⟨⟨fun _ => ⟨hd.1, ?_, ?_⟩, fun _ => rfl⟩, fun _ => rfl⟩ <;> omega
    · have hnd : ¬ (isDigitSeq ds = true ∧ decValue 0 ds ≤ 4294967295) := by
        rw [← h1, he]; exact fun h => by cases h
      rw [if_pos he, he]
      have hds : ∀ (hh : isDigitSeq ds = true), 4294967295 < decValue 0 ds :=
        fun hh => Nat.lt_of_not_le (fun hle => hnd ⟨hh, hle⟩)
      refine ⟨⟨fun h => (by cases h), fun h => ?_⟩, fun h => (by cases h)⟩
      have := hds h.1
      split_ifs at h <;> omega
    · have hv := h3 he
      have hnd : ¬ (isDigitSeq ds = true ∧ decValue 0 ds ≤ 4294967295) := by
        rw [← h1, he]; exact fun h => by cases h
      have hds : ∀ (hh : isDigitSeq ds = true), 4294967295 < decValue 0 ds :=
        fun hh => Nat.lt_of_not_le (fun hle => hnd ⟨hh, hle⟩)
      rw [if_neg (by rw [he]; exact fun h => by cases h), hv]
      have key : ¬ (isDigitSeq ds = true ∧
          -2147483648 ≤ (if decide (c = '-') = true then -(decValue 0 ds : Int)
            else (decValue 0 ds : Int)) ∧
          (if decide (c = '-') = true then -(decValue 0 ds : Int)
            else (decValue 0 ds : Int)) ≤ 2147483647) := by
        intro h
        have := hds h.1
        split_ifs at h <;> omega
      by_cases hc : c = '-'
      · simp only [hc, decide_True, not_true_eq_false, false_and, ↓reduceIte, true_and] at key ⊢
        rw [if_pos (by norm_num)]
        exact ⟨⟨fun h => (by cases h), fun h => absurd h key⟩, fun h => (by cases h)⟩
      · simp only [hc, decide_False, not_false_eq_true, true_and, false_and, ↓reduceIte,
          Bool.false_eq_true] at key ⊢
        rw [if_pos (by norm_num)]
        exact ⟨⟨fun h => (by cases h), fun h => absurd h key⟩, fun h => (by cases h)⟩

theorem digitChar_toNat (d : Nat) (h : d < 10) : (digitChar d).toNat = 48 + d := by
  unfold digitChar
  interval_cases d <;> rfl

theorem isDecDigit_digitChar (d : Nat) (h : d < 10) : isDecDigit (digitChar d) = true := by
  rw [isDecDigit_iff, digitChar_toNat d h]; omega

theorem fmtDigits_succ (fuel u : Nat) (buf : Str) :
    fmtDigits (fuel + 1) u buf =
      if u ≥ 10 then fmtDigits fuel (u / 10) (digitChar (u - (u / 10) * 10) :: buf)
      else digitChar u :: buf := rfl

theorem fmtDigits_spec (fuel : Nat) : ∀ (u : Nat) (buf : Str), u ≤ fuel →
    (∀ c ∈ buf, isDecDigit c = true) →
    (∀ c ∈ fmtDigits fuel u buf, isDecDigit c = true) ∧
    fmtDigits fuel u buf ≠ [] ∧
    decValue 0 (fmtDigits fuel u buf) = decValue u buf := by
  induction fuel with
  | zero =>
    intro u buf hu hb
    have hu0 : u = 0 := by omega
    subst hu0
    refine ⟨?_, List.cons_ne_nil _ _, ?_⟩
    · intro c hc
      rcases List.mem_cons.1 hc with rfl | hc
      · exact isDecDigit_digitChar 0 (by omega)
      · exact hb c hc
    · show decValue 0 (digitChar 0 :: buf) = decValue 0 buf
      rw [decValue_cons, digitChar_toNat 0 (by omega)]
  | succ fuel ih =>
    intro u buf hu hb
    rw [fmtDigits_succ]
    by_cases h10 : u ≥ 10
    · rw [if_pos h10]
      have hd : u - u / 10 * 10 < 10 := by omega
      have hb1 : ∀ c ∈ digitChar (u - u / 10 * 10) :: buf, isDecDigit c = true := by
        intro c hc
        rcases List.mem_cons.1 hc with rfl | hc
        · exact isDecDigit_digitChar _ hd
        · exact hb c hc
      obtain ⟨i1, i2, i3⟩ := ih (u / 10) _ (by omega) hb1
      refine ⟨i1, i2, ?_⟩
      rw [i3, decValue_cons, digitChar_toNat _ hd]
      congr 1
      omega
    · rw [if_neg h10]
      have hd : u < 10 := by omega
      refine ⟨?_, List.cons_ne_nil _ _, ?_⟩
      · intro c hc
        rcases List.mem_cons.1 hc with rfl | hc
        · exact isDecDigit_digitChar _ hd
        · exact hb c hc
      · rw [decValue_cons, digitChar_toNat _ hd]
        congr 1
        omega

theorem fmtUint_spec (u : Nat) :
    isDigitSeq (fmtUint u) = true ∧ decValue 0 (fmtUint u) = u := by
  obtain ⟨h1, h2, h3⟩ := fmtDigits_spec u u [] (Nat.le_refl u) (fun c hc => by cases hc)
  unfold isDigitSeq fmtUint
  refine ⟨?_, h3⟩
  rw [Bool.and_eq_true, decide_eq_true_iff, List.all_eq_true]
  exact ⟨h2, h1⟩

theorem isSpace_eq_false_of_digit (c : Char) (h : isDecDigit c = true) : isSpace c = false := by
  rw [isDecDigit_iff] at h
  unfold isSpace
  generalize c.toNat = n at h
  simp only [Bool.or_eq_false_iff, Bool.and_eq_false_imp, decide_eq_true_eq,
    decide_eq_false_iff_not, beq_eq_false_iff_ne, ne_eq]
  omega

theorem isDigitSeq_iff (s : Str) :
    isDigitSeq s = true ↔ s ≠ [] ∧ ∀ c ∈ s, isDecDigit c = true := by
  unfold isDigitSeq
  rw [Bool.and_eq_true, decide_eq_true_iff, List.all_eq_true]

theorem trimSpace_digitSeq (s : Str) (h : isDigitSeq s = true) : trimSpace s = s := by
  rw [isDigitSeq_iff] at h
  apply trimSpace_self_of
  · intro c hc
    exact isSpace_eq_false_of_digit c (h.2 c (List.mem_of_mem_head? hc))
  · intro c hc
    exact isSpace_eq_false_of_digit c (h.2 c (List.mem_of_getLast?_eq_some hc))

theorem trimSpace_minus_digitSeq (s : Str) (h : isDigitSeq s = true) :
    trimSpace ('-' :: s) = '-' :: s := by
  rw [isDigitSeq_iff] at h
  apply trimSpace_self_of
  · intro c hc
    cases Option.some.inj hc
    decide
  · intro c hc
    obtain ⟨a, t, rfl⟩ := List.exists_cons_of_ne_nil h.1
    rw [List.getLast?_cons_cons] at hc
    exact isSpace_eq_false_of_digit c (h.2 c (List.mem_of_getLast?_eq_some hc))

theorem numeralDigits_digitSeq (s : Str) (h : isDigitSeq s = true) :
    numeralDigits s = s ∧ numeralNegative s = false := by
  rw [isDigitSeq_iff] at h
  cases s with
  | nil => exact absurd rfl h.1
  | cons c cs =>
    have hc := (isDecDigit_iff c).1 (h.2 c (List.mem_cons_self _ _))
    have h1 : c ≠ '+' := by rintro rfl; revert hc; decide
    have h2 : c ≠ '-' := by rintro rfl; revert hc; decide
    constructor
    · show (if c = '+' ∨ c = '-' then cs else c :: cs) = c :: cs
      rw [if_neg (by simp [h1, h2])]
    · unfold numeralNegative
      simp [h2]

theorem numeralDigits_minus (ds : Str) : numeralDigits ('-' :: ds) = ds := by
  simp [numeralDigits]

theorem numeralNegative_minus (ds : Str) : numeralNegative ('-' :: ds) = true := by
  simp [numeralNegative]

/-! ## Lemmas on `parseValue` -/

theorem parseValue_string (fc : FloatConv) (t : Str) (d : ColumnDefinition)
    (hd : d.Type_ ≠ ColumnType.TypeInt ∧ d.Type_ ≠ ColumnType.TypeUInt ∧
      d.Type_ ≠ ColumnType.TypeFloat) :
    parseValue fc t d = (Value.str (trimSpace t), none) := by
  obtain ⟨ty⟩ := d
  cases ty with
  | TypeInt => exact absurd rfl hd.1
  | TypeUInt => exact absurd rfl hd.2.1
  | TypeFloat => exact absurd rfl hd.2.2
  | TypeString => rfl
  | TypeLocString => rfl
  | other n => rfl

theorem parseValue_int (fc : FloatConv) (t : Str) :
    parseValue fc t ⟨ColumnType.TypeInt⟩ =
      (Value.int32 (toInt32 (ParseInt (trimSpace t) 32).1), (ParseInt (trimSpace t) 32).2) := rfl

theorem parseValue_uint (fc : FloatConv) (t : Str) :
    parseValue fc t ⟨ColumnType.TypeUInt⟩ =
      (Value.uint32 (toUInt32 (ParseUint (trimSpace t) 32).1), (ParseUint (trimSpace t) 32).2) :=
  rfl

theorem toInt32_of_range (v : Int) (h1 : -2147483648 ≤ v) (h2 : v ≤ 2147483647) :
    toInt32 v = v := by
  unfold toInt32
  norm_num
  omega

theorem toUInt32_of_range (v : Nat) (h : v ≤ 4294967295) : toUInt32 v = v := by
  unfold toUInt32
  norm_num
  omega

theorem parseValue_int_fmtInt (fc : FloatConv) (v : Int)
    (hv : -2147483648 ≤ v ∧ v ≤ 2147483647) :
    parseValue fc (fmtInt v) ⟨ColumnType.TypeInt⟩ = (Value.int32 v, none) := by
  rw [parseValue_int]
  show (Value.int32 (toInt32 (ParseInt (trimSpace (fmtInt v)) 32).1),
    (ParseInt (trimSpace (fmtInt v)) 32).2) = _
  have key : trimSpace (fmtInt v) = fmtInt v ∧ isDecimalInteger (fmtInt v) = true ∧
      integerValue (fmtInt v) = v := by
    unfold fmtInt
    by_cases hneg : v < 0
    · rw [if_pos hneg]
      obtain ⟨h1, h2⟩ := fmtUint_spec (-v).toNat
      refine ⟨trimSpace_minus_digitSeq _ h1, ?_, ?_⟩
      · unfold isDecimalInteger; rw [numeralDigits_minus]; exact h1
      · unfold integerValue
        rw [numeralNegative_minus, numeralDigits_minus, if_pos rfl, h2]
        omega
    · rw [if_neg hneg]
      obtain ⟨h1, h2⟩ := fmtUint_spec v.toNat
      obtain ⟨h3, h4⟩ := numeralDigits_digitSeq _ h1
      refine ⟨trimSpace_digitSeq _ h1, ?_, ?_⟩
      · unfold isDecimalInteger; rw [h3]; exact h1
      · unfold integerValue
        rw [h4, h3, h2, if_neg (by decide)]
        omega
  obtain ⟨k1, k2, k3⟩ := key
  rw [k1]
  obtain ⟨p1, p2⟩ := ParseInt32_spec (fmtInt v)
  have hok : (ParseInt (fmtInt v) 32).2 = none := p1.2 ⟨k2, by rw [k3]; exact hv⟩
  rw [hok, p2 hok, k3, toInt32_of_range v hv.1 hv.2]

theorem parseValue_uint_fmtUint (fc : FloatConv) (u : Nat) (hu : u ≤ 4294967295) :
    parseValue fc (fmtUint u) ⟨ColumnType.TypeUInt⟩ = (Value.uint32 u, none) := by
  rw [parseValue_uint]
  show (Value.uint32 (toUInt32 (ParseUint (trimSpace (fmtUint u)) 32).1),
    (ParseUint (trimSpace (fmtUint u)) 32).2) = _
  obtain ⟨h1, h2⟩ := fmtUint_spec u
  rw [trimSpace_digitSeq _ h1]
  obtain ⟨p1, p2, _⟩ := ParseUint32_spec (fmtUint u)
  have hok : (ParseUint (fmtUint u) 32).2 = none := p1.2 ⟨h1, by rw [h2]; exact hu⟩
  rw [hok, p2 hok, h2, toUInt32_of_range u hu]

/-! ## Lemmas on the reader of `encoding/csv` -/

theorem readSlice_cons (c : Char) (cs : Str) (h : c ≠ '\n') :
    readSlice (c :: cs) = (c :: (readSlice cs).1, (readSlice cs).2.1, (readSlice cs).2.2) := by
  rw [readSlice, if_neg h]

theorem readSlice_newline (cs : Str) : readSlice ('\n' :: cs) = (['\n'], false, cs) := by
  rw [readSlice, if_pos rfl]

theorem noCRLF_cons (c : Char) (cs : Str) :
    noCRLF (c :: cs) = (!(decide (c = '\r') && decide (cs.head? = some '\n')) && noCRLF cs) :=
  rfl

theorem noCRLF_tail (c : Char) (cs : Str) (h : noCRLF (c :: cs) = true) : noCRLF cs = true := by
  rw [noCRLF_cons, Bool.and_eq_true] at h
  exact h.2

/-- The shape of `readSlice` on a text that holds a line feed: the line is a stretch
without line feed followed by the line feed. -/
theorem readSlice_split (T : Str) (h : '\n' ∈ T) :
    ∃ a, '\n' ∉ a ∧ readSlice T = (a ++ ['\n'], false, (readSlice T).2.2) ∧
      T = a ++ '\n' :: (readSlice T).2.2 := by
  induction T with
  | nil => cases h
  | cons c cs ih =>
    by_cases hc : c = '\n'
    · subst hc
      exact ⟨[], by simp, by rw [readSlice_newline]; rfl, by rw [readSlice_newline]; rfl⟩
    · have hmem : '\n' ∈ cs := by
        rcases List.mem_cons.1 h with h | h
        · exact absurd h.symm hc
        · exact h
      obtain ⟨a, ha, h1, h2⟩ := ih hmem
      refine ⟨c :: a, ?_, ?_, ?_⟩
      · intro hm
        rcases List.mem_cons.1 hm with h | h
        · exact hc h.symm
        · exact ha h
      · rw [readSlice_cons c cs hc, h1]; rfl
      · rw [readSlice_cons c cs hc]
        show c :: cs = c :: (a ++ '\n' :: (readSlice cs).2.2)
        rw [← h2]

theorem noCRLF_append_newline (a rest : Str) (h : noCRLF (a ++ '\n' :: rest) = true) :
    a.getLast? ≠ some '\r' := by
  induction a with
  | nil => simp
  | cons c cs ih =>
    have ht := noCRLF_tail _ _ h
    cases cs with
    | nil =>
      intro hl
      have hc : c = '\r' := by simpa using hl
      subst hc
      revert h
      simp [noCRLF_cons]
    | cons d ds =>
      rw [List.getLast?_cons_cons]
      exact ih ht

theorem readLine_of_line (a rest : Str) (ha : '\n' ∉ a) (hl : a.getLast? ≠ some '\r') :
    readLine (a ++ '\n' :: rest) = (a ++ ['\n'], false, rest) := by
  have hs : readSlice (a ++ '\n' :: rest) = (a ++ ['\n'], false, rest) := by
    clear hl
    induction a with
    | nil => exact readSlice_newline rest
    | cons c cs ih =>
      have hc : c ≠ '\n' := fun h => ha (by rw [h]; exact List.mem_cons_self _ _)
      have := ih (fun h => ha (List.mem_cons_of_mem _ h))
      show readSlice (c :: (cs ++ '\n' :: rest)) = _
      rw [readSlice_cons _ _ hc, this]
      rfl
  unfold readLine
  rw [hs]
  simp only [Bool.and_false, Bool.false_eq_true, false_and, ↓reduceIte]
  rw [if_neg]
  rintro ⟨h1, h2, -⟩
  rcases List.eq_nil_or_concat a with rfl | ⟨b, x, rfl⟩
  · simp at h1
  · rw [List.concat_eq_append] at hl h1 h2
    have hx : x ≠ '\r' := by simpa using hl
    apply hx
    have : (b ++ [x] ++ ['\n']).length - 2 = b.length := by simp
    rw [this, List.append_assoc, List.get?_eq_getElem?,
      List.getElem?_append_right (Nat.le_refl _), Nat.sub_self] at h2
    simpa using h2

theorem span_append_cons (p : Char → Bool) (f : Str) (x : Char) (l : Str)
    (hf : ∀ c ∈ f, p c = true) (hx : p x = false) :
    (f ++ x :: l).span p = (f, x :: l) := by
  rw [List.span_eq_take_drop]
  induction f with
  | nil => simp [List.takeWhile_cons, List.dropWhile_cons, hx]
  | cons c cs ih =>
    have hc := hf c (List.mem_cons_self _ _)
    have := ih (fun d hd => hf d (List.mem_cons_of_mem _ hd))
    simp only [List.cons_append, List.takeWhile_cons, List.dropWhile_cons, hc, ↓reduceIte]
    rw [Prod.mk.injEq] at this ⊢
    exact ⟨by rw [this.1], this.2⟩

theorem span_all (p : Char → Bool) (f : Str) (hf : ∀ c ∈ f, p c = true) :
    f.span p = (f, []) := by
  rw [List.span_eq_take_drop]
  induction f with
  | nil => rfl
  | cons c cs ih =>
    have hc := hf c (List.mem_cons_self _ _)
    have := ih (fun d hd => hf d (List.mem_cons_of_mem _ hd))
    simp only [List.takeWhile_cons, List.dropWhile_cons, hc, ↓reduceIte]
    rw [Prod.mk.injEq] at this ⊢
    exact ⟨by rw [this.1], this.2⟩

theorem span_cons_pos (p : Char → Bool) (c : Char) (l : Str) (hc : p c = true) :
    (c :: l).span p = (c :: (l.span p).1, (l.span p).2) := by
  rw [List.span_eq_take_drop, List.span_eq_take_drop]
  simp only [List.takeWhile_cons, List.dropWhile_cons, hc, ↓reduceIte]

theorem span_cons_neg (p : Char → Bool) (c : Char) (l : Str) (hc : p c = false) :
    (c :: l).span p = ([], c :: l) := by
  rw [List.span_eq_take_drop]
  simp [List.takeWhile_cons, List.dropWhile_cons, hc]

theorem parseRecord_field (fuel : Nat) (line src : Str) (dst : List Str) :
    parseRecord (fuel + 1) none line src dst =
      if line.head? ≠ some '"' then
        (if '"' ∈ (if (line.span (fun c => decide (c ≠ ','))).2 ≠ []
              then (line.span (fun c => decide (c ≠ ','))).1
              else line.take (line.length - lengthNL line))
          then some { fields := dst, err := some CsvError.ErrBareQuote, src := src }
          else if (line.span (fun c => decide (c ≠ ','))).2 ≠ [] then
            parseRecord fuel none (line.span (fun c => decide (c ≠ ','))).2.tail src
              (dst ++ [if (line.span (fun c => decide (c ≠ ','))).2 ≠ []
                then (line.span (fun c => decide (c ≠ ','))).1
                else line.take (line.length - lengthNL line)])
          else some { fields := dst ++ [if (line.span (fun c => decide (c ≠ ','))).2 ≠ []
                then (line.span (fun c => decide (c ≠ ','))).1
                else line.take (line.length - lengthNL line)], err := none, src := src })
      else parseRecord fuel (some []) line.tail src dst := rfl

theorem parseRecord_quoted (fuel : Nat) (buf line src : Str) (dst : List Str) :
    parseRecord (fuel + 1) (some buf) line src dst =
      if (line.span (fun c => decide (c ≠ '"'))).2 ≠ [] then
        (if (line.span (fun c => decide (c ≠ '"'))).2.tail.head? = some '"' then
          parseRecord fuel (some (buf ++ (line.span (fun c => decide (c ≠ '"'))).1 ++ ['"']))
            (line.span (fun c => decide (c ≠ '"'))).2.tail.tail src dst
        else if (line.span (fun c => decide (c ≠ '"'))).2.tail.head? = some ',' then
          parseRecord fuel none (line.span (fun c => decide (c ≠ '"'))).2.tail.tail src
            (dst ++ [buf ++ (line.span (fun c => decide (c ≠ '"'))).1])
        else if lengthNL (line.span (fun c => decide (c ≠ '"'))).2.tail
            = (line.span (fun c => decide (c ≠ '"'))).2.tail.length then
          some { fields := dst ++ [buf ++ (line.span (fun c => decide (c ≠ '"'))).1],
                 err := none, src := src }
        else some { fields := dst, err := some CsvError.ErrQuote, src := src })
      else if line ≠ [] then
        parseRecord fuel (some (buf ++ line)) (readLine src).1 (readLine src).2.2 dst
      else some { fields := dst, err := some CsvError.ErrQuote, src := src } := rfl

/-- Inside a quoted field, a byte that is not a quote and is followed by more of the line
is copied to the field. -/
theorem parseRecord_quoted_char (fuel : Nat) (buf : Str) (c : Char) (l src : Str)
    (dst : List Str) (hc : c ≠ '"') (hl : l ≠ []) :
    parseRecord (fuel + 1) (some buf) (c :: l) src dst =
      parseRecord (fuel + 1) (some (buf ++ [c])) l src dst := by
  rw [parseRecord_quoted, parseRecord_quoted]
  have hp : (fun c => decide (c ≠ '"')) c = true := by simpa using hc
  rw [span_cons_pos _ c l hp]
  dsimp only
  by_cases h2 : (l.span (fun c => decide (c ≠ '"'))).2 = []
  · simp only [h2, ne_eq, not_true_eq_false, ↓reduceIte, List.cons_ne_nil, not_false_eq_true,
      hl, List.append_assoc, List.singleton_append, List.cons_append, List.nil_append]
  · simp only [h2, ne_eq, not_false_eq_true, ↓reduceIte, List.append_assoc,
      List.singleton_append, List.cons_append, List.nil_append]

theorem parseRecord_quoted_dquote (fuel : Nat) (buf l src : Str) (dst : List Str) :
    parseRecord (fuel + 1) (some buf) ('"' :: '"' :: l) src dst =
      parseRecord fuel (some (buf ++ ['"'])) l src dst := by
  rw [parseRecord_quoted, span_cons_neg _ _ _ (by decide)]
  simp

theorem parseRecord_quoted_comma (fuel : Nat) (buf l src : Str) (dst : List Str) :
    parseRecord (fuel + 1) (some buf) ('"' :: ',' :: l) src dst =
      parseRecord fuel none l src (dst ++ [buf]) := by
  rw [parseRecord_quoted, span_cons_neg _ _ _ (by decide)]
  simp

theorem parseRecord_quoted_end (fuel : Nat) (buf src : Str) (dst : List Str) :
    parseRecord (fuel + 1) (some buf) ['"', '\n'] src dst =
      some { fields := dst ++ [buf], err := none, src := src } := by
  rw [parseRecord_quoted, span_cons_neg _ _ _ (by decide)]
  simp [lengthNL]

theorem parseRecord_quoted_newline (fuel : Nat) (buf src : Str) (dst : List Str) :
    parseRecord (fuel + 1) (some buf) ['\n'] src dst =
      parseRecord fuel (some (buf ++ ['\n'])) (readLine src).1 (readLine src).2.2 dst := by
  rw [parseRecord_quoted, span_cons_pos _ _ _ (by decide)]
  simp

theorem parseRecord_enter_quoted (fuel : Nat) (l src : Str) (dst : List Str) :
    parseRecord (fuel + 1) none ('"' :: l) src dst = parseRecord fuel (some []) l src dst := by
  rw [parseRecord_field]
  simp

theorem lengthNL_append_newline (f : Str) : lengthNL (f ++ ['\n']) = 1 := by
  simp [lengthNL]

theorem parseRecord_plain_comma (fuel : Nat) (f l src : Str) (dst : List Str)
    (hf : ∀ c ∈ f, c ≠ ',' ∧ c ≠ '"') :
    parseRecord (fuel + 1) none (f ++ ',' :: l) src dst =
      parseRecord fuel none l src (dst ++ [f]) := by
  rw [parseRecord_field]
  have hsp : (f ++ ',' :: l).span (fun c => decide (c ≠ ',')) = (f, ',' :: l) :=
    span_append_cons _ f ',' l (fun c hc => by simpa using (hf c hc).1) (by decide)
  have hh : (f ++ ',' :: l).head? ≠ some '"' := by
    cases f with
    | nil => simp
    | cons c cs =>
      have := (hf c (List.mem_cons_self _ _)).2
      simpa using this
  have hq : '"' ∉ f := fun h => (hf _ h).2 rfl
  rw [if_pos hh, hsp]
  simp [hq]

theorem parseRecord_plain_end (fuel : Nat) (f src : Str) (dst : List Str)
    (hf : ∀ c ∈ f, c ≠ ',' ∧ c ≠ '"') :
    parseRecord (fuel + 1) none (f ++ ['\n']) src dst =
      some { fields := dst ++ [f], err := none, src := src } := by
  rw [parseRecord_field]
  have hsp : (f ++ ['\n']).span (fun c => decide (c ≠ ',')) = (f ++ ['\n'], []) := by
    apply span_all
    intro c hc
    rcases List.mem_append.1 hc with h | h
    · simpa using (hf c h).1
    · have : c = '\n' := by simpa using h
      subst this
      decide
  have hh : (f ++ ['\n']).head? ≠ some '"' := by
    cases f with
    | nil => simp
    | cons c cs =>
      have := (hf c (List.mem_cons_self _ _)).2
      simpa using this
  have hq : '"' ∉ f := fun h => (hf _ h).2 rfl
  rw [if_pos hh, hsp]
  simp [lengthNL_append_newline, hq]

theorem readSlice_fst_ne_nil (T : Str) (h : T ≠ []) : (readSlice T).1 ≠ [] := by
  cases T with
  | nil => exact absurd rfl h
  | cons c cs =>
    by_cases hc : c = '\n'
    · subst hc; rw [readSlice_newline]; exact List.cons_ne_nil _ _
    · rw [readSlice_cons _ _ hc]; exact List.cons_ne_nil _ _

/-- On a text whose first line ends in a line feed that no carriage return precedes,
`readLine` is `readSlice`. -/
theorem readLine_good (U rest : Str) (h1 : noCRLF U = true) (h2 : '\n' ∈ U) :
    readLine (U ++ rest) =
      ((readSlice (U ++ rest)).1, false, (readSlice (U ++ rest)).2.2) := by
  obtain ⟨a, ha, -, hU⟩ := readSlice_split U h2
  generalize (readSlice U).2.2 = u2 at hU
  subst hU
  have hl := noCRLF_append_newline a u2 h1
  have e : a ++ '\n' :: u2 ++ rest = a ++ '\n' :: (u2 ++ rest) := by simp
  rw [e]
  have hr := readLine_of_line a (u2 ++ rest) ha hl
  obtain ⟨a', ha', hs, hT⟩ := readSlice_split (a ++ '\n' :: (u2 ++ rest)) (by simp)
  rw [hr]
  have hs' : readSlice (a ++ '\n' :: (u2 ++ rest)) = (a ++ ['\n'], false, u2 ++ rest) := by
    clear hr hs hT ha' hl e h1 h2
    induction a with
    | nil => exact readSlice_newline _
    | cons c cs ih =>
      have hc : c ≠ '\n' := fun h => ha (by rw [h]; exact List.mem_cons_self _ _)
      have := ih (fun h => ha (List.mem_cons_of_mem _ h))
      show readSlice (c :: (cs ++ '\n' :: (u2 ++ rest))) = _
      rw [readSlice_cons _ _ hc, this]
      rfl
  rw [hs']

theorem quoteBody_cons (c : Char) (cs : Str) :
    quoteBody (c :: cs) = if c = '"' then '"' :: '"' :: quoteBody cs else c :: quoteBody cs :=
  rfl

/-- Reading the body of a quoted field: from inside the quotes, the reader copies the field
`f` to its buffer and arrives at the closing quote. -/
theorem parseRecord_quoteBody (f : Str) :
    ∀ (buf : Str) (fuel : Nat) (V rest : Str) (dst : List Str),
      noCRLF (quoteBody f ++ '"' :: V) = true → '\n' ∈ V →
      fuel ≥ (quoteBody f).length + 1 →
      ∃ fuel', fuel' + (quoteBody f).length ≥ fuel ∧
        parseRecord fuel (some buf) (readSlice (quoteBody f ++ '"' :: V ++ rest)).1
            (readSlice (quoteBody f ++ '"' :: V ++ rest)).2.2 dst =
          parseRecord fuel' (some (buf ++ f)) (readSlice ('"' :: V ++ rest)).1
            (readSlice ('"' :: V ++ rest)).2.2 dst := by
  induction f with
  | nil =>
    intro buf fuel V rest dst _ _ _
    exact ⟨fuel, by simp [quoteBody], by simp [quoteBody]⟩
  | cons c cs ih =>
    intro buf fuel V rest dst hno hV hfuel
    rw [quoteBody_cons] at hno hfuel ⊢
    by_cases hq : c = '"'
    · subst hq
      rw [if_pos rfl] at hno hfuel ⊢
      obtain ⟨n, rfl⟩ : ∃ n, fuel = n + 1 := ⟨fuel - 1, by simp at hfuel; omega⟩
      have hno' : noCRLF (quoteBody cs ++ '"' :: V) = true :=
        noCRLF_tail _ _ (noCRLF_tail _ _ hno)
      obtain ⟨fuel', hf', heq⟩ := ih (buf ++ ['"']) n V rest dst hno' hV
        (by simp at hfuel ⊢; omega)
      refine ⟨fuel', by simp at hf' ⊢; omega, ?_⟩
      show parseRecord (n + 1) (some buf)
        (readSlice ('"' :: '"' :: (quoteBody cs ++ '"' :: V ++ rest))).1
        (readSlice ('"' :: '"' :: (quoteBody cs ++ '"' :: V ++ rest))).2.2 dst = _
      rw [readSlice_cons _ _ (by decide), readSlice_cons _ _ (by decide)]
      dsimp only
      rw [parseRecord_quoted_dquote, heq]
      simp
    · rw [if_neg hq] at hno hfuel ⊢
      have hno' : noCRLF (quoteBody cs ++ '"' :: V) = true := noCRLF_tail _ _ hno
      have hmem : '\n' ∈ quoteBody cs ++ '"' :: V :=
        List.mem_append_right _ (List.mem_cons_of_mem _ hV)
      by_cases hn : c = '\n'
      · subst hn
        obtain ⟨n, rfl⟩ : ∃ n, fuel = n + 1 := ⟨fuel - 1, by simp at hfuel; omega⟩
        obtain ⟨fuel', hf', heq⟩ := ih (buf ++ ['\n']) n V rest dst hno' hV
          (by simp at hfuel ⊢; omega)
        refine ⟨fuel', by simp at hf' ⊢; omega, ?_⟩
        show parseRecord (n + 1) (some buf)
          (readSlice ('\n' :: (quoteBody cs ++ '"' :: V ++ rest))).1
          (readSlice ('\n' :: (quoteBody cs ++ '"' :: V ++ rest))).2.2 dst = _
        rw [readSlice_newline]
        dsimp only
        rw [parseRecord_quoted_newline, readLine_good _ rest hno' hmem]
        dsimp only
        rw [heq]
        simp
      · obtain ⟨n, rfl⟩ : ∃ n, fuel = n + 1 := ⟨fuel - 1, by simp at hfuel; omega⟩
        obtain ⟨fuel', hf', heq⟩ := ih (buf ++ [c]) (n + 1) V rest dst hno' hV
          (by simp at hfuel ⊢; omega)
        refine ⟨fuel', by simp at hf' ⊢; omega, ?_⟩
        show parseRecord (n + 1) (some buf)
          (readSlice (c :: (quoteBody cs ++ '"' :: V ++ rest))).1
          (readSlice (c :: (quoteBody cs ++ '"' :: V ++ rest))).2.2 dst = _
        rw [readSlice_cons _ _ hn]
        dsimp only
        rw [parseRecord_quoted_char _ _ _ _ _ _ hq
          (readSlice_fst_ne_nil _ (by simp)), heq]
        simp

theorem readSlice_append (f T : Str) (hf : '\n' ∉ f) :
    readSlice (f ++ T) = (f ++ (readSlice T).1, (readSlice T).2.1, (readSlice T).2.2) := by
  induction f with
  | nil => rfl
  | cons c cs ih =>
    have hc : c ≠ '\n' := fun h => hf (by rw [h]; exact List.mem_cons_self _ _)
    have := ih (fun h => hf (List.mem_cons_of_mem _ h))
    show readSlice (c :: (cs ++ T)) = _
    rw [readSlice_cons _ _ hc, this]
    rfl

theorem noCRLF_of_append (A B : Str) (h : noCRLF (A ++ B) = true) : noCRLF B = true := by
  induction A with
  | nil => exact h
  | cons c cs ih => exact ih (noCRLF_tail _ _ h)

theorem plain_of_not_needsQuotes (f : Str) (h : fieldNeedsQuotes f = false) :
    ∀ c ∈ f, c ≠ ',' ∧ c ≠ '"' ∧ c ≠ '\n' ∧ c ≠ '\r' := by
  cases f with
  | nil => intro c hc; cases hc
  | cons a as =>
    unfold fieldNeedsQuotes at h
    dsimp only at h
    split_ifs at h with h1 h2
    intro c hc
    rw [List.any_eq_true] at h2
    refine ⟨?_, ?_, ?_, ?_⟩ <;> rintro rfl <;> exact h2 ⟨_, hc, by decide⟩

theorem encodeField_quoted (f : Str) (h : fieldNeedsQuotes f = true) :
    encodeField f = '"' :: (quoteBody f ++ ['"']) := by
  unfold encodeField; rw [if_pos h]

theorem encodeField_plain (f : Str) (h : fieldNeedsQuotes f = false) : encodeField f = f := by
  unfold encodeField; rw [if_neg (by rw [h]; decide)]

theorem encodeFields_cons_cons (f g : Str) (fs : List Str) :
    encodeFields (f :: g :: fs) = encodeField f ++ ',' :: encodeFields (g :: fs) := rfl

theorem encodeFields_single (f : Str) : encodeFields [f] = encodeField f := rfl

/-- The field loop of the reader on a row the writer has emitted: it returns the fields of
the row and stops after the line feed that ends the row. -/
theorem parseRecord_encodeFields (fs : List Str) :
    fs ≠ [] → ∀ (dst : List Str) (fuel : Nat) (rest : Str),
      noCRLF (encodeFields fs ++ ['\n']) = true →
      fuel ≥ (encodeFields fs).length + 2 →
      parseRecord fuel none (readSlice (encodeFields fs ++ '\n' :: rest)).1
          (readSlice (encodeFields fs ++ '\n' :: rest)).2.2 dst =
        some { fields := dst ++ fs, err := none, src := rest } := by
  induction fs with
  | nil => intro h; exact absurd rfl h
  | cons f fs ih =>
    intro _ dst fuel rest hno hfuel
    by_cases hq : fieldNeedsQuotes f = true
    · -- a quoted field
      cases fs with
      | nil =>
        rw [encodeFields_single, encodeField_quoted f hq] at hno hfuel ⊢
        have e : '"' :: (quoteBody f ++ ['"']) ++ '\n' :: rest
            = '"' :: (quoteBody f ++ '"' :: ['\n'] ++ rest) := by simp
        have hno' : noCRLF (quoteBody f ++ '"' :: ['\n']) = true := by
          have := noCRLF_tail _ _ hno
          simpa using this
        obtain ⟨n, rfl⟩ : ∃ n, fuel = n + 1 := ⟨fuel - 1, by omega⟩
        obtain ⟨fuel', hf', heq⟩ := parseRecord_quoteBody f [] n ['\n'] rest dst hno'
          (by simp) (by simp at hfuel ⊢; omega)
        obtain ⟨m, rfl⟩ : ∃ m, fuel' = m + 1 := ⟨fuel' - 1, by simp at hfuel; omega⟩
        rw [e, readSlice_cons _ _ (by decide)]
        dsimp only
        rw [parseRecord_enter_quoted, heq]
        show parseRecord (m + 1) (some ([] ++ f)) (readSlice ('"' :: '\n' :: rest)).1
          (readSlice ('"' :: '\n' :: rest)).2.2 dst = _
        rw [readSlice_cons _ _ (by decide), readSlice_newline]
        dsimp only
        rw [parseRecord_quoted_end]
        simp
      | cons g gs =>
        rw [encodeFields_cons_cons, encodeField_quoted f hq] at hno hfuel ⊢
        have e : '"' :: (quoteBody f ++ ['"']) ++ ',' :: encodeFields (g :: gs) ++ '\n' :: rest
            = '"' :: (quoteBody f ++ '"' :: (',' :: (encodeFields (g :: gs) ++ ['\n'])) ++ rest) := by
          simp
        have hno' : noCRLF (quoteBody f ++ '"' :: (',' :: (encodeFields (g :: gs) ++ ['\n'])))
            = true := by
          have := noCRLF_tail _ _ hno
          simpa using this
        obtain ⟨n, rfl⟩ : ∃ n, fuel = n + 1 := ⟨fuel - 1, by omega⟩
        obtain ⟨fuel', hf', heq⟩ := parseRecord_quoteBody f [] n
          (',' :: (encodeFields (g :: gs) ++ ['\n'])) rest dst hno'
          (by simp) (by simp at hfuel ⊢; omega)
        obtain ⟨m, rfl⟩ : ∃ m, fuel' = m + 1 := ⟨fuel' - 1, by simp at hfuel; omega⟩
        have hno2 : noCRLF (encodeFields (g :: gs) ++ ['\n']) = true :=
          noCRLF_tail _ _ (noCRLF_tail _ _ (noCRLF_of_append _ _ hno'))
        rw [e, readSlice_cons _ _ (by decide)]
        dsimp only
        rw [parseRecord_enter_quoted, heq]
        show parseRecord (m + 1) (some ([] ++ f))
          (readSlice ('"' :: ',' :: ((encodeFields (g :: gs) ++ ['\n']) ++ rest))).1
          (readSlice ('"' :: ',' :: ((encodeFields (g :: gs) ++ ['\n']) ++ rest))).2.2 dst = _
        rw [readSlice_cons _ _ (by decide), readSlice_cons _ _ (by decide)]
        dsimp only
        rw [parseRecord_quoted_comma]
        have e2 : encodeFields (g :: gs) ++ ['\n'] ++ rest
            = encodeFields (g :: gs) ++ '\n' :: rest := by simp
        rw [e2, ih (List.cons_ne_nil _ _) _ m rest hno2 (by simp at hfuel hf' ⊢; omega)]
        simp
    · -- a field written as it is
      have hq' : fieldNeedsQuotes f = false := by simpa using hq
      have hp := plain_of_not_needsQuotes f hq'
      have hnl : '\n' ∉ f := fun h => (hp _ h).2.2.1 rfl
      have hcq : ∀ c ∈ f, c ≠ ',' ∧ c ≠ '"' := fun c hc => ⟨(hp c hc).1, (hp c hc).2.1⟩
      obtain ⟨n, rfl⟩ : ∃ n, fuel = n + 1 := ⟨fuel - 1, by omega⟩
      cases fs with
      | nil =>
        rw [encodeFields_single, encodeField_plain f hq'] at hno hfuel ⊢
        rw [readSlice_append _ _ hnl, readSlice_newline]
        dsimp only
        rw [parseRecord_plain_end _ _ _ _ hcq]
      | cons g gs =>
        rw [encodeFields_cons_cons, encodeField_plain f hq'] at hno hfuel ⊢
        have e : f ++ ',' :: encodeFields (g :: gs) ++ '\n' :: rest
            = f ++ ',' :: (encodeFields (g :: gs) ++ '\n' :: rest) := by simp
        have hno2 : noCRLF (encodeFields (g :: gs) ++ ['\n']) = true := by
          have hno1 : noCRLF (f ++ ',' :: (encodeFields (g :: gs) ++ ['\n'])) = true := by
            simpa using hno
          exact noCRLF_tail _ _ (noCRLF_of_append _ _ hno1)
        rw [e, readSlice_append _ _ hnl, readSlice_cons _ _ (by decide)]
        dsimp only
        rw [parseRecord_plain_comma _ _ _ _ _ hcq,
          ih (List.cons_ne_nil _ _) _ n rest hno2 (by simp at hfuel ⊢; omega)]
        simp

theorem noCRLF_append (A B : Str) (hA : noCRLF A = true) (hB : noCRLF B = true)
    (h : A.getLast? ≠ some '\r' ∨ B.head? ≠ some '\n') : noCRLF (A ++ B) = true := by
  induction A with
  | nil => exact hB
  | cons c cs ih =>
    have hcs := noCRLF_tail _ _ hA
    rw [noCRLF_cons, Bool.and_eq_true] at hA
    cases cs with
    | nil =>
      show noCRLF (c :: B) = true
      rw [noCRLF_cons, Bool.and_eq_true]
      refine ⟨?_, hB⟩
      rcases h with h | h
      · have : c ≠ '\r' := by simpa using h
        simp [this]
      · simp [h]
    | cons d ds =>
      have hrec := ih hcs (by rw [List.getLast?_cons_cons] at h; exact h)
      show noCRLF (c :: (d :: ds ++ B)) = true
      rw [noCRLF_cons, Bool.and_eq_true]
      exact ⟨by simpa using hA.1, hrec⟩

theorem noCRLF_of_no_newline (A : Str) (h : '\n' ∉ A) : noCRLF A = true := by
  induction A with
  | nil => rfl
  | cons c cs ih =>
    rw [noCRLF_cons, Bool.and_eq_true]
    refine ⟨?_, ih (fun hm => h (List.mem_cons_of_mem _ hm))⟩
    have : cs.head? ≠ some '\n' := by
      intro hh
      exact h (List.mem_cons_of_mem _ (List.mem_of_mem_head? hh))
    simp [this]

theorem quoteBody_head (f : Str) : (quoteBody f).head? = some '\n' → f.head? = some '\n' := by
  cases f with
  | nil => intro h; cases h
  | cons c cs =>
    rw [quoteBody_cons]
    by_cases hc : c = '"'
    · subst hc; rw [if_pos rfl]; intro h; simp at h
    · rw [if_neg hc]; exact fun h => h

theorem noCRLF_quoteBody (f : Str) (h : noCRLF f = true) :
    noCRLF (quoteBody f) = true ∧ ((quoteBody f).getLast? = some '\r' → f.getLast? = some '\r') := by
  induction f with
  | nil => exact ⟨rfl, fun h => by cases h⟩
  | cons c cs ih =>
    obtain ⟨i1, i2⟩ := ih (noCRLF_tail _ _ h)
    rw [noCRLF_cons, Bool.and_eq_true] at h
    rw [quoteBody_cons]
    have hlast : ∀ (x : Char), (x :: quoteBody cs).getLast? = some '\r' →
        (x = '\r' ∧ cs = []) ∨ cs.getLast? = some '\r' := by
      intro x hx
      cases hqb : quoteBody cs with
      | nil =>
        left
        rw [hqb] at hx
        refine ⟨by simpa using hx, ?_⟩
        cases cs with
        | nil => rfl
        | cons d ds =>
          rw [quoteBody_cons] at hqb
          split_ifs at hqb
      | cons y ys =>
        right
        rw [hqb, List.getLast?_cons_cons, ← hqb] at hx
        exact i2 hx
    by_cases hc : c = '"'
    · subst hc
      rw [if_pos rfl]
      refine ⟨?_, ?_⟩
      · rw [noCRLF_cons, Bool.and_eq_true, noCRLF_cons, Bool.and_eq_true]
        exact ⟨by simp, by simp, i1⟩
      · intro hx
        rw [List.getLast?_cons_cons] at hx
        rcases hlast _ hx with ⟨h1, _⟩ | h1
        · exact absurd h1 (by decide)
        · cases cs with
          | nil => cases h1
          | cons d ds => rw [List.getLast?_cons_cons]; exact h1
    · rw [if_neg hc]
      refine ⟨?_, ?_⟩
      · rw [noCRLF_cons, Bool.and_eq_true]
        refine ⟨?_, i1⟩
        have h1 := h.1
        by_cases hr : c = '\r'
        · subst hr
          have : cs.head? ≠ some '\n' := by simpa using h1
          have : (quoteBody cs).head? ≠ some '\n' := fun hh => this (quoteBody_head cs hh)
          simp [this]
        · simp [hr]
      · intro hx
        rcases hlast _ hx with ⟨h1, h2⟩ | h1
        · subst h1; subst h2; rfl
        · cases cs with
          | nil => cases h1
          | cons d ds => rw [List.getLast?_cons_cons]; exact h1

theorem noCRLF_encodeField (f : Str) (h : noCRLF f = true) :
    noCRLF (encodeField f) = true ∧ (encodeField f).getLast? ≠ some '\r' ∧
      (encodeField f).head? ≠ some '\n' := by
  by_cases hq : fieldNeedsQuotes f = true
  · rw [encodeField_quoted f hq]
    obtain ⟨h1, _⟩ := noCRLF_quoteBody f h
    have h2 : noCRLF (quoteBody f ++ ['"']) = true :=
      noCRLF_append _ _ h1 (by decide) (Or.inr (by decide))
    refine ⟨?_, ?_, by simp⟩
    · rw [noCRLF_cons, Bool.and_eq_true]
      exact ⟨by simp, h2⟩
    · have : ('"' :: (quoteBody f ++ ['"'])) = ('"' :: quoteBody f) ++ ['"'] := by simp
      rw [this, List.getLast?_append]
      simp
  · have hq' : fieldNeedsQuotes f = false := by simpa using hq
    rw [encodeField_plain f hq']
    have hp := plain_of_not_needsQuotes f hq'
    refine ⟨h, ?_, ?_⟩
    · intro hl
      exact (hp _ (List.mem_of_getLast?_eq_some hl)).2.2.2 rfl
    · intro hl
      exact (hp _ (List.mem_of_mem_head? hl)).2.2.1 rfl

theorem noCRLF_encodeFields (fs : List Str) (h : ∀ f ∈ fs, noCRLF f = true) :
    noCRLF (encodeFields fs) = true ∧ (encodeFields fs).getLast? ≠ some '\r' := by
  induction fs with
  | nil => exact ⟨rfl, by simp [encodeFields]⟩
  | cons f fs ih =>
    obtain ⟨h1, h2, _⟩ := noCRLF_encodeField f (h f (List.mem_cons_self _ _))
    cases fs with
    | nil => rw [encodeFields_single]; exact ⟨h1, h2⟩
    | cons g gs =>
      obtain ⟨i1, i2⟩ := ih (fun x hx => h x (List.mem_cons_of_mem _ hx))
      rw [encodeFields_cons_cons]
      have hc : noCRLF (',' :: encodeFields (g :: gs)) = true := by
        rw [noCRLF_cons, Bool.and_eq_true]
        exact ⟨by simp, i1⟩
      refine ⟨noCRLF_append _ _ h1 hc (Or.inl h2), ?_⟩
      rw [List.getLast?_append]
      cases hl : (',' :: encodeFields (g :: gs)).getLast? with
      | none => simp at hl
      | some x =>
        show (some x : Option Char) ≠ some '\r'
        cases hg : encodeFields (g :: gs) with
        | nil =>
          rw [hg] at hl
          have : x = ',' := by simpa using hl.symm
          subst this
          decide
        | cons y ys =>
          rw [hg, List.getLast?_cons_cons, ← hg] at hl
          rw [← hl]
          exact i2

/-- A row whose fields hold no carriage return directly before a line feed is emitted as
a text with the same property, the closing line feed included. -/
theorem noCRLF_encodeRecord (fs : List Str) (h : ∀ f ∈ fs, noCRLF f = true) :
    noCRLF (encodeFields fs ++ ['\n']) = true := by
  obtain ⟨h1, h2⟩ := noCRLF_encodeFields fs h
  exact noCRLF_append _ _ h1 (by decide) (Or.inl h2)

theorem encodeFields_head (fs : List Str) (h1 : fs ≠ []) (h2 : fs ≠ [[]]) :
    ∃ c T, encodeFields fs = c :: T ∧ c ≠ '\n' := by
  cases fs with
  | nil => exact absurd rfl h1
  | cons f gs =>
    by_cases hq : fieldNeedsQuotes f = true
    · cases gs with
      | nil => exact ⟨'"', _, by rw [encodeFields_single, encodeField_quoted f hq], by decide⟩
      | cons g gs =>
        exact ⟨'"', _, by rw [encodeFields_cons_cons, encodeField_quoted f hq]; rfl, by decide⟩
    · have hq' : fieldNeedsQuotes f = false := by simpa using hq
      have hp := plain_of_not_needsQuotes f hq'
      cases f with
      | nil =>
        cases gs with
        | nil => exact absurd rfl h2
        | cons g gs =>
          exact ⟨',', _, by rw [encodeFields_cons_cons, encodeField_plain _ hq']; rfl, by decide⟩
      | cons c cs =>
        have hc := (hp c (List.mem_cons_self _ _)).2.2.1
        cases gs with
        | nil => exact ⟨c, cs, by rw [encodeFields_single, encodeField_plain _ hq'], hc⟩
        | cons g gs =>
          exact ⟨c, _, by rw [encodeFields_cons_cons, encodeField_plain _ hq']; rfl, hc⟩

theorem nextLine_succ (fuel : Nat) (src : Str) :
    nextLine (fuel + 1) src =
      if (readLine src).2.1 = false ∧ (readLine src).1.length = lengthNL (readLine src).1
      then nextLine fuel (readLine src).2.2 else some (readLine src) := rfl

theorem lengthNL_le_one (b : Str) : lengthNL b ≤ 1 := by
  unfold lengthNL; split_ifs <;> omega

/-- What `Read` returns once the line and the field loop are known. -/
theorem Read_of_parse (rd : CsvReader) (line src1 : Str) (p : Parsed)
    (h1 : nextLine (rd.src.length + 1) rd.src = some (line, false, src1))
    (h2 : parseRecord (rd.src.length + 1) none line src1 [] = some p) :
    rd.Read = some ((p.fields,
        if rd.FieldsPerRecord > 0 ∧ (p.fields.length : Int) ≠ rd.FieldsPerRecord ∧ p.err = none
        then some CsvError.ErrFieldCount else p.err),
      { src := p.src,
        FieldsPerRecord := if rd.FieldsPerRecord = 0 then (p.fields.length : Int)
          else rd.FieldsPerRecord }) := by
  unfold CsvReader.Read
  rw [h1]
  simp only [Bool.false_eq_true, ↓reduceIte, h2]
  by_cases hpos : rd.FieldsPerRecord > 0
  · have hne : rd.FieldsPerRecord ≠ 0 := by omega
    by_cases hc : (p.fields.length : Int) ≠ rd.FieldsPerRecord ∧ p.err = none
    · simp only [hpos, hne, hc, and_self, ↓reduceIte, ne_eq, not_false_eq_true]
    · simp only [hpos, hne, hc, and_false, ↓reduceIte, true_and]
  · by_cases h0 : rd.FieldsPerRecord = 0
    · simp only [hpos, h0, false_and, ↓reduceIte, lt_self_iff_false, gt_iff_lt]
    · simp only [hpos, h0, false_and, ↓reduceIte]

/-- The reader on a row the writer has emitted: `Read` returns the fields of the row and
consumes the text of the row and nothing more; the field count is checked against
`FieldsPerRecord`, or sets it when it is zero. -/
theorem Read_encodeRecord (rd : CsvReader) (fs : List Str) (rest : Str)
    (h1 : fs ≠ []) (h2 : fs ≠ [[]]) (h3 : ∀ f ∈ fs, noCRLF f = true)
    (hsrc : rd.src = encodeRecord fs ++ rest) :
    rd.Read = some ((fs,
        if rd.FieldsPerRecord > 0 ∧ (fs.length : Int) ≠ rd.FieldsPerRecord
        then some CsvError.ErrFieldCount else none),
      { src := rest,
        FieldsPerRecord := if rd.FieldsPerRecord = 0 then (fs.length : Int)
          else rd.FieldsPerRecord }) := by
  have hno := noCRLF_encodeRecord fs h3
  have hsrc' : rd.src = (encodeFields fs ++ ['\n']) ++ rest := by rw [hsrc]; rfl
  have hsrc2 : rd.src = encodeFields fs ++ '\n' :: rest := by rw [hsrc']; simp
  have hline := readLine_good (encodeFields fs ++ ['\n']) rest hno (by simp)
  rw [← hsrc'] at hline
  obtain ⟨c, T, hE, hc⟩ := encodeFields_head fs h1 h2
  have hlen : (readSlice rd.src).1.length ≥ 2 := by
    rw [hsrc2, hE]
    show (readSlice (c :: (T ++ '\n' :: rest))).1.length ≥ 2
    rw [readSlice_cons _ _ hc]
    have := readSlice_fst_ne_nil (T ++ '\n' :: rest) (by simp)
    have : (readSlice (T ++ '\n' :: rest)).1.length ≠ 0 := by
      rwa [Ne, List.length_eq_zero]
    show (readSlice (T ++ '\n' :: rest)).1.length + 1 ≥ 2
    omega
  have hnext : nextLine (rd.src.length + 1) rd.src
      = some ((readSlice rd.src).1, false, (readSlice rd.src).2.2) := by
    rw [nextLine_succ, hline]
    dsimp only
    have := lengthNL_le_one (readSlice rd.src).1
    rw [if_neg (by intro h; omega)]
  have hparse := parseRecord_encodeFields fs h1 [] (rd.src.length + 1) rest hno
    (by rw [hsrc2]; simp)
  rw [← hsrc2] at hparse
  rw [Read_of_parse rd _ _ _ hnext hparse]
  simp only [List.nil_append, and_true]

theorem Read_empty (rd : CsvReader) (h : rd.src = []) :
    rd.Read = some (([], some CsvError.EOF), rd) := by
  obtain ⟨s, f⟩ := rd
  subst h
  rfl

/-! ## Lemmas on records and on the field loop of `ReadRecord` -/

theorem Record.get_cons (k' : Str) (v : Value) (r : Record) (k : Str) :
    Record.get ((k', v) :: r) k = if k' = k then v else Record.get r k := rfl

theorem Record.get_filter_ne (r : Record) (k k' : Str) (h : k' ≠ k) :
    Record.get (r.filter (fun e => decide (e.1 ≠ k))) k' = Record.get r k' := by
  induction r with
  | nil => rfl
  | cons e r ih =>
    obtain ⟨a, v⟩ := e
    by_cases ha : a = k
    · subst ha
      rw [List.filter_cons_of_neg (by simp), Record.get_cons, if_neg (Ne.symm h), ih]
    · rw [List.filter_cons_of_pos (by simpa using ha), Record.get_cons, Record.get_cons, ih]

theorem Record.get_set_same (r : Record) (k : Str) (v : Value) : (r.set k v).get k = v := by
  unfold Record.set
  rw [Record.get_cons, if_pos rfl]

theorem Record.get_set_other (r : Record) (k k' : Str) (v : Value) (h : k' ≠ k) :
    (r.set k v).get k' = r.get k' := by
  unfold Record.set
  rw [Record.get_cons, if_neg (Ne.symm h), Record.get_filter_ne r k k' h]

theorem Record.mem_keys_set (r : Record) (k k' : Str) (v : Value) :
    k' ∈ (r.set k v).keys ↔ k' = k ∨ k' ∈ r.keys := by
  unfold Record.set Record.keys
  rw [List.map_cons, List.mem_cons]
  constructor
  · rintro (h | h)
    · exact Or.inl h
    · obtain ⟨e, he, rfl⟩ := List.mem_map.1 h
      exact Or.inr (List.mem_map.2 ⟨e, (List.mem_filter.1 he).1, rfl⟩)
  · rintro (h | h)
    · exact Or.inl h
    · by_cases hk : k' = k
      · exact Or.inl hk
      · obtain ⟨e, he, rfl⟩ := List.mem_map.1 h
        exact Or.inr (List.mem_map.2 ⟨e, List.mem_filter.2 ⟨he, by simpa using hk⟩, rfl⟩)

theorem Record.get_of_not_mem_keys (r : Record) (k : Str) (h : k ∉ r.keys) :
    r.get k = Value.nil := by
  induction r with
  | nil => rfl
  | cons e r ih =>
    obtain ⟨a, v⟩ := e
    have ha : a ≠ k := fun hh => h (by rw [hh]; exact List.mem_cons_self _ _)
    rw [Record.get_cons, if_neg ha]
    exact ih (fun hm => h (List.mem_cons_of_mem _ hm))

theorem readFields_nil (fc : FloatConv) (headers : List Str) (columns : Option ColumnMap)
    (i : Nat) (record : Record) :
    readFields fc headers columns i [] record = (some record, none) := by
  unfold readFields; rfl

theorem readFields_cons (fc : FloatConv) (headers : List Str) (columns : Option ColumnMap)
    (i : Nat) (value : Str) (row : List Str) (record : Record) :
    readFields fc headers columns i (value :: row) record =
      match headers.get? i with
      | none => (some record, none)
      | some colName =>
        match lookupColumn columns colName with
        | some colDef =>
          match (parseValue fc value colDef).2 with
          | some e => (none, some (PluginError.parseColumn colName e))
          | none => readFields fc headers columns (i + 1) row
              (record.set colName (parseValue fc value colDef).1)
        | none => readFields fc headers columns (i + 1) row (record.set colName (Value.str value)) :=
  by rw [readFields]

/-- One round of the loop on a field that is accepted. -/
theorem readFields_step (fc : FloatConv) (headers : List Str) (columns : Option ColumnMap)
    (i : Nat) (value : Str) (row : List Str) (record : Record) (colName : Str)
    (hh : headers.get? i = some colName)
    (hok : ∀ d, lookupColumn columns colName = some d → (parseValue fc value d).2 = none) :
    readFields fc headers columns i (value :: row) record =
      readFields fc headers columns (i + 1) row
        (record.set colName (cellValue fc columns colName value)) := by
  rw [readFields_cons, hh]
  unfold cellValue
  dsimp only
  cases hl : lookupColumn columns colName with
  | none => rfl
  | some d =>
    dsimp only
    rw [hok d hl]

/-- The loop returns either a record and no error, or no record and a coercion error that
names a column which has a descriptor. -/
theorem readFields_result (fc : FloatConv) (headers : List Str) (columns : Option ColumnMap)
    (row : List Str) : ∀ (i : Nat) (record : Record),
    (∃ rec, readFields fc headers columns i row record = (some rec, none)) ∨
    (∃ colName e d, readFields fc headers columns i row record
        = (none, some (PluginError.parseColumn colName e)) ∧
      lookupColumn columns colName = some d) := by
  induction row with
  | nil => intro i record; exact Or.inl ⟨record, readFields_nil _ _ _ _ _⟩
  | cons value row ih =>
    intro i record
    rw [readFields_cons]
    cases hh : headers.get? i with
    | none => exact Or.inl ⟨record, rfl⟩
    | some colName =>
      dsimp only
      cases hl : lookupColumn columns colName with
      | none => exact ih _ _
      | some d =>
        dsimp only
        cases he : (parseValue fc value d).2 with
        | none => exact ih _ _
        | some e => exact Or.inr ⟨colName, e, d, rfl, hl⟩

/-- The loop succeeds when every field that has a header and a descriptor is accepted by
`parseValue`. -/
theorem readFields_ok (fc : FloatConv) (headers : List Str) (columns : Option ColumnMap)
    (row : List Str) : ∀ (i : Nat) (record : Record),
    (∀ j value colName d, row.get? j = some value → headers.get? (i + j) = some colName →
      lookupColumn columns colName = some d → (parseValue fc value d).2 = none) →
    ∃ rec, readFields fc headers columns i row record = (some rec, none) := by
  induction row with
  | nil => intro i record _; exact ⟨record, readFields_nil _ _ _ _ _⟩
  | cons value row ih =>
    intro i record hok
    cases hh : headers.get? i with
    | none => exact ⟨record, by rw [readFields_cons, hh]⟩
    | some colName =>
      rw [readFields_step fc headers columns i value row record colName hh
        (fun d hd => hok 0 value colName d rfl hh hd)]
      apply ih
      intro j v c d h1 h2 h3
      exact hok (j + 1) v c d h1 (by rw [← h2]; congr 1; omega) h3

/-- What the record returned by the loop holds: its keys are the keys it started with and
the header names of the positions that have a field; a name that occurs at no such position
keeps its value; a name that occurs at one holds the value stored for the field at the last
such position. -/
theorem readFields_spec (fc : FloatConv) (headers : List Str) (columns : Option ColumnMap)
    (row : List Str) : ∀ (i : Nat) (record rec : Record),
    readFields fc headers columns i row record = (some rec, none) →
    ∀ k, (k ∈ rec.keys ↔ (k ∈ record.keys ∨ ∃ j, j < row.length ∧ headers.get? (i + j) = some k)) ∧
      ((∀ j, j < row.length → headers.get? (i + j) ≠ some k) → rec.get k = record.get k) ∧
      (∀ j value, row.get? j = some value → headers.get? (i + j) = some k →
        (∀ j', j < j' → j' < row.length → headers.get? (i + j') ≠ some k) →
        rec.get k = cellValue fc columns k value) := by
  induction row with
  | nil =>
    intro i record rec h k
    rw [readFields_nil] at h
    have : record = rec := by
      have := (Prod.mk.inj h).1
      exact Option.some.inj this
    subst this
    refine ⟨?_, fun _ => rfl, ?_⟩
    · constructor
      · exact fun hk => Or.inl hk
      · rintro (hk | ⟨j, hj, _⟩)
        · exact hk
        · cases hj
    · intro j value hj; cases hj
  | cons value row ih =>
    intro i record rec h k
    cases hh : headers.get? i with
    | none =>
      rw [readFields_cons, hh] at h
      have : record = rec := Option.some.inj (Prod.mk.inj h).1
      subst this
      have hnone : ∀ j, headers.get? (i + j) = none := by
        intro j
        rw [List.get?_eq_none] at hh ⊢
        omega
      refine ⟨?_, fun _ => rfl, ?_⟩
      · constructor
        · exact fun hk => Or.inl hk
        · rintro (hk | ⟨j, _, hj⟩)
          · exact hk
          · rw [hnone j] at hj; cases hj
      · intro j v _ hj
        rw [hnone j] at hj; cases hj
    | some colName =>
      have hstep : readFields fc headers columns (i + 1) row
          (record.set colName (cellValue fc columns colName value)) = (some rec, none) := by
        rw [readFields_cons, hh] at h
        unfold cellValue
        dsimp only at h
        cases hl : lookupColumn columns colName with
        | none => rw [hl] at h; exact h
        | some d =>
          rw [hl] at h
          dsimp only at h ⊢
          cases he : (parseValue fc value d).2 with
          | none => rw [he] at h; exact h
          | some e => rw [he] at h; cases (Prod.mk.inj h).1
      obtain ⟨i1, i2, i3⟩ := ih (i + 1) _ rec hstep k
      have shift : ∀ j, i + 1 + j = i + (j + 1) := fun j => by omega
      refine ⟨?_, ?_, ?_⟩
      · rw [i1, Record.mem_keys_set]
        constructor
        · rintro ((hk | hk) | ⟨j, hj, hjk⟩)
          · exact Or.inr ⟨0, by simp, by rw [hk]; exact hh⟩
          · exact Or.inl hk
          · exact Or.inr ⟨j + 1, by simp; omega, by rw [← shift]; exact hjk⟩
        · rintro (hk | ⟨j, hj, hjk⟩)
          · exact Or.inl (Or.inr hk)
          · cases j with
            | zero =>
              rw [Nat.add_zero, hh] at hjk
              exact Or.inl (Or.inl (Option.some.inj hjk).symm)
            | succ j =>
              exact Or.inr ⟨j, by simp at hj; omega, by rw [shift]; exact hjk⟩
      · intro hno
        have hne : k ≠ colName := by
          intro hk
          exact hno 0 (by simp) (by rw [hk]; exact hh)
        rw [i2 (fun j hj => by rw [shift]; exact hno (j + 1) (by simp; omega)),
          Record.get_set_other _ _ _ _ hne]
      · intro j v hj hjk hlast
        cases j with
        | zero =>
          have hv : value = v := by simpa using hj
          subst hv
          have hk : colName = k := by
            rw [Nat.add_zero, hh] at hjk
            exact Option.some.inj hjk
          subst hk
          rw [i2 (fun j' hj' => by
            rw [shift]; exact hlast (j' + 1) (by omega) (by simp; omega)),
            Record.get_set_same]
        | succ j =>
          exact i3 j v (by simpa using hj) (by rw [shift]; exact hjk)
            (fun j' h1 h2 => by rw [shift]; exact hlast (j' + 1) (by omega) (by simp; omega))

/-! ## Lemmas on the write path -/

theorem buildColumnOrder_eq (defs : List Definition) :
    buildColumnOrder defs = defs.map Definition.Column := by
  unfold buildColumnOrder
  have h : ∀ (acc : List Str),
      defs.foldl (fun order d => order ++ [d.Column]) acc = acc ++ defs.map Definition.Column := by
    induction defs with
    | nil => intro acc; simp
    | cons d ds ih => intro acc; rw [List.foldl_cons, ih]; simp
  rw [h []]
  rfl

theorem CsvWriter.Write_snd (w : CsvWriter) (record : List Str) :
    (w.Write record).2 = w.err := by
  unfold CsvWriter.Write
  cases h : w.err with
  | none => rfl
  | some e => rfl

theorem CsvWriter.Write_ok (out : Str) (record : List Str) :
    CsvWriter.Write { out := out, err := none } record
      = ({ out := out ++ encodeRecord record, err := none }, none) := rfl

theorem WriteHeader_eq (p : Plugin) (w : CsvWriter) (vd : VersionDefinition)
    (columns : Option ColumnMap) (hw : p.csvWriter = some w) :
    WriteHeader p (some vd) columns =
      some ((w.Write (columnNames vd)).2.map PluginError.sink,
        { p with versionDef := some vd, columns := columns, columnOrder := columnNames vd,
                 csvWriter := some (w.Write (columnNames vd)).1 }) := by
  unfold WriteHeader columnNames
  rw [hw]
  dsimp only
  rw [buildColumnOrder_eq]

theorem WriteRecord_eq (fc : FloatConv) (p : Plugin) (w : CsvWriter) (record : Record)
    (hw : p.csvWriter = some w) :
    WriteRecord fc p record =
      some ((w.Write (buildRow fc p.columnOrder record)).2.map PluginError.sink,
        { p with csvWriter := some (w.Write (buildRow fc p.columnOrder record)).1 }) := by
  unfold WriteRecord
  rw [hw]

theorem writeRecords_ok (fc : FloatConv) (records : List Record) :
    ∀ (p : Plugin) (out : Str), p.csvWriter = some { out := out, err := none } →
      writeRecords fc p records = some (List.replicate records.length none,
        { p with csvWriter := some { out := out ++ rowsText fc p.columnOrder records,
                                     err := none } }) := by
  induction records with
  | nil =>
    intro p out hw
    obtain ⟨a, b, c, d, e, f, g⟩ := p
    dsimp only at hw
    subst hw
    simp [writeRecords, rowsText]
  | cons r rs ih =>
    intro p out hw
    rw [writeRecords, WriteRecord_eq fc p _ r hw, CsvWriter.Write_ok]
    dsimp only
    rw [ih _ (out ++ encodeRecord (buildRow fc p.columnOrder r)) rfl]
    simp [rowsText, List.replicate_succ]

/-- A write session on a fresh adapter returns no error from any call and leaves in the
sink the header row followed by the rows of the records. -/
theorem writeSession_ok (fc : FloatConv) (vd : VersionDefinition) (columns : Option ColumnMap)
    (records : List Record) :
    writeSession fc (some vd) columns records =
      some (List.replicate (records.length + 2) none,
        encodeRecord (columnNames vd) ++ rowsText fc (columnNames vd) records) := by
  unfold writeSession
  rw [WriteHeader_eq New _ vd columns rfl, CsvWriter.Write_ok]
  dsimp only
  rw [writeRecords_ok fc records _ ([] ++ encodeRecord (columnNames vd)) rfl]
  dsimp only [WriteFooter]
  have h : ∀ (n : Nat), List.replicate n (none : Option PluginError) ++ [none]
      = none :: List.replicate n none := by
    intro n
    induction n with
    | zero => rfl
    | succ n ih => rw [List.replicate_succ, List.cons_append, ih]
  simp [List.replicate_succ, h]

/-! ## Lemmas on the read path -/

theorem schemaFits_iff (names : List Str) :
    schemaFits names = true ↔ names ≠ [] ∧ names ≠ [[]] ∧ ∀ n ∈ names, noCRLF n = true := by
  unfold schemaFits
  rw [Bool.and_eq_true, Bool.and_eq_true, decide_eq_true_iff, decide_eq_true_iff,
    List.all_eq_true, and_assoc]

/-- `ReadHeader` on a source that starts with an emitted header row. -/
theorem ReadHeader_encoded (p : Plugin) (names : List Str) (rest : Str)
    (hr : p.csvReader = some { src := encodeRecord names ++ rest, FieldsPerRecord := 0 })
    (hs : schemaFits names = true) :
    ReadHeader p = some ((p.versionDef, p.columns, none),
      { p with csvReader := some { src := rest, FieldsPerRecord := names.length },
               headers := names, index := 0 }) := by
  obtain ⟨h1, h2, h3⟩ := (schemaFits_iff names).1 hs
  unfold ReadHeader
  rw [hr]
  dsimp only
  rw [Read_encodeRecord _ names rest h1 h2 h3 rfl]
  simp

/-- `ReadRecord` on a source that starts with an emitted row of as many fields as the
reader expects. -/
theorem ReadRecord_encoded (fc : FloatConv) (p : Plugin) (row : List Str) (rest : Str)
    (rec : Record)
    (hr : p.csvReader = some { src := encodeRecord row ++ rest, FieldsPerRecord := row.length })
    (h1 : row ≠ []) (h2 : row ≠ [[]]) (h3 : ∀ f ∈ row, noCRLF f = true)
    (hf : readFields fc p.headers p.columns 0 row [] = (some rec, none)) :
    ReadRecord fc p = some ((some rec, none),
      { p with csvReader := some { src := rest, FieldsPerRecord := row.length },
               index := p.index + 1 }) := by
  unfold ReadRecord
  rw [hr]
  dsimp only
  rw [Read_encodeRecord _ row rest h1 h2 h3 rfl]
  have hlen : (row.length : Int) ≠ 0 := by
    have : row.length ≠ 0 := by rwa [Ne, List.length_eq_zero]
    omega
  simp [hf, hlen]

/-- `ReadRecord` on an exhausted source returns the end-of-input result and changes
nothing. -/
theorem ReadRecord_exhausted (fc : FloatConv) (p : Plugin) (n : Int)
    (hr : p.csvReader = some { src := [], FieldsPerRecord := n }) :
    ReadRecord fc p = some ((none, none), p) := by
  unfold ReadRecord
  rw [hr]
  dsimp only
  rw [Read_empty _ rfl]
  dsimp only
  rw [← hr]

/-! ## Lemmas on records that satisfy a schema -/

theorem fmtUint_no_newline (u : Nat) : '\n' ∉ fmtUint u ∧ fmtUint u ≠ [] := by
  obtain ⟨h1, _⟩ := fmtUint_spec u
  rw [isDigitSeq_iff] at h1
  refine ⟨fun h => ?_, h1.1⟩
  have := h1.2 _ h
  revert this
  decide

theorem fmtInt_no_newline (v : Int) : '\n' ∉ fmtInt v ∧ fmtInt v ≠ [] := by
  unfold fmtInt
  split_ifs
  · refine ⟨fun h => ?_, List.cons_ne_nil _ _⟩
    rcases List.mem_cons.1 h with h | h
    · revert h; decide
    · exact (fmtUint_no_newline _).1 h
  · exact fmtUint_no_newline _

/-- A value that satisfies the declaration of its column is read back without error from
the cell written for it, as the same value, or for a `float32` as the number the float
parser gives for its text; its cell holds no carriage return directly before a line feed,
and is empty only for the empty string. -/
theorem valueFits_spec (fc : FloatConv) (columns : Option ColumnMap) (k : Str) (v : Value)
    (h : valueFits fc (lookupColumn columns k) v = true) :
    ((∀ bits, v ≠ Value.float32 bits) → cellValue fc columns k (sprintV fc v) = v) ∧
    (∀ bits, v = Value.float32 bits → cellValue fc columns k (sprintV fc v)
      = Value.float32 (fc.parse32 (trimSpace (fc.format bits))).1) ∧
    (∀ d, lookupColumn columns k = some d → (parseValue fc (sprintV fc v) d).2 = none) ∧
    noCRLF (sprintV fc v) = true ∧ v ≠ Value.nil ∧
    (sprintV fc v = [] → v = Value.str []) := by
  have hstr : ∀ (t : Bool), stringFits t v = true →
      ∃ s, v = Value.str s ∧ noCRLF s = true ∧ (t = true → trimSpace s = s) := by
    intro t ht
    cases v with
    | str s =>
      have ht' : ((!t || decide (trimSpace s = s)) && noCRLF s) = true := ht
      rw [Bool.and_eq_true, Bool.or_eq_true, decide_eq_true_iff] at ht'
      refine ⟨s, rfl, ht'.2, fun h1 => ?_⟩
      rcases ht'.1 with h2 | h2
      · rw [h1] at h2; cases h2
      · exact h2
    | nil => cases ht
    | int32 n => cases ht
    | uint32 n => cases ht
    | float32 b => cases ht
  have hsome : ∀ (ty : ColumnType), ty ≠ ColumnType.TypeInt → ty ≠ ColumnType.TypeUInt →
      ty ≠ ColumnType.TypeFloat → lookupColumn columns k = some ⟨ty⟩ →
      stringFits true v = true →
      ((∀ bits, v ≠ Value.float32 bits) → cellValue fc columns k (sprintV fc v) = v) ∧
      (∀ bits, v = Value.float32 bits → cellValue fc columns k (sprintV fc v)
        = Value.float32 (fc.parse32 (trimSpace (fc.format bits))).1) ∧
      (∀ d, lookupColumn columns k = some d → (parseValue fc (sprintV fc v) d).2 = none) ∧
      noCRLF (sprintV fc v) = true ∧ v ≠ Value.nil ∧
      (sprintV fc v = [] → v = Value.str []) := by
    intro ty h1 h2 h3 hl hv
    obtain ⟨s, rfl, hs1, hs2⟩ := hstr true hv
    have hp := parseValue_string fc s ⟨ty⟩ ⟨h1, h2, h3⟩
    refine ⟨fun _ => ?_, fun bits hb => (by cases hb), ?_, hs1, fun hh => (by cases hh),
      fun hh => ?_⟩
    · unfold cellValue
      rw [hl]
      show (parseValue fc s ⟨ty⟩).1 = _
      rw [hp, hs2 rfl]
    · intro d' hd'
      rw [hl] at hd'
      cases hd'
      show (parseValue fc s ⟨ty⟩).2 = none
      rw [hp]
    · have : s = [] := hh
      rw [this]
  cases hl : lookupColumn columns k with
  | none =>
    rw [hl] at h
    obtain ⟨s, rfl, hs1, _⟩ := hstr false h
    refine ⟨fun _ => ?_, fun bits hb => (by cases hb), fun d hd => (by cases hd), hs1,
      fun hh => (by cases hh), fun hh => ?_⟩
    · unfold cellValue
      rw [hl]
      rfl
    · have : s = [] := hh
      rw [this]
  | some d =>
    rw [hl] at h
    obtain ⟨ty⟩ := d
    cases ty with
    | TypeInt =>
      cases v with
      | int32 n =>
        have hr : -2147483648 ≤ n ∧ n ≤ 2147483647 := by
          have : (decide (-2147483648 ≤ n) && decide (n ≤ 2147483647)) = true := h
          rw [Bool.and_eq_true, decide_eq_true_iff, decide_eq_true_iff] at this
          exact this
        have hp := parseValue_int_fmtInt fc n hr
        refine ⟨fun _ => ?_, fun bits hb => (by cases hb), ?_,
          noCRLF_of_no_newline _ (fmtInt_no_newline n).1,
          fun hh => (by cases hh), fun hh => absurd hh (fmtInt_no_newline n).2⟩
        · unfold cellValue
          rw [hl]
          show (parseValue fc (fmtInt n) ⟨ColumnType.TypeInt⟩).1 = _
          rw [hp]
        · intro d' hd'
          cases hd'
          show (parseValue fc (fmtInt n) ⟨ColumnType.TypeInt⟩).2 = none
          rw [hp]
      | nil => cases h
      | str s => cases h
      | uint32 n => cases h
      | float32 b => cases h
    | TypeUInt =>
      cases v with
      | uint32 n =>
        have hr : n ≤ 4294967295 := by
          have : decide (n ≤ 4294967295) = true := h
          rwa [decide_eq_true_iff] at this
        have hp := parseValue_uint_fmtUint fc n hr
        refine ⟨fun _ => ?_, fun bits hb => (by cases hb), ?_,
          noCRLF_of_no_newline _ (fmtUint_no_newline n).1,
          fun hh => (by cases hh), fun hh => absurd hh (fmtUint_no_newline n).2⟩
        · unfold cellValue
          rw [hl]
          show (parseValue fc (fmtUint n) ⟨ColumnType.TypeUInt⟩).1 = _
          rw [hp]
        · intro d' hd'
          cases hd'
          show (parseValue fc (fmtUint n) ⟨ColumnType.TypeUInt⟩).2 = none
          rw [hp]
      | nil => cases h
      | str s => cases h
      | int32 n => cases h
      | float32 b => cases h
    | TypeFloat =>
      cases v with
      | float32 b =>
        have hb : (decide ((fc.parse32 (trimSpace (fc.format b))).2 = none) &&
            noCRLF (fc.format b) && decide (fc.format b ≠ [])) = true := h
        rw [Bool.and_eq_true, Bool.and_eq_true, decide_eq_true_iff, decide_eq_true_iff] at hb
        obtain ⟨⟨hb1, hb2⟩, hb3⟩ := hb
        refine ⟨fun hnf => absurd rfl (hnf b), ?_, ?_, hb2, fun hh => (by cases hh),
          fun hh => absurd hh hb3⟩
        · intro bits hbits
          cases hbits
          unfold cellValue
          rw [hl]
          rfl
        · intro d' hd'
          cases hd'
          exact hb1
      | nil => cases h
      | str s => cases h
      | int32 n => cases h
      | uint32 n => cases h
    | TypeString =>
      have := hsome _ (by decide) (by decide) (by decide) hl h
      rw [hl] at this
      exact this
    | TypeLocString =>
      have := hsome _ (by decide) (by decide) (by decide) hl h
      rw [hl] at this
      exact this
    | other t =>
      have := hsome _ (by simp) (by simp) (by simp) hl h
      rw [hl] at this
      exact this

theorem recordFits_iff (fc : FloatConv) (columns : Option ColumnMap) (names : List Str)
    (r : Record) :
    recordFits fc columns names r = true ↔
      (∀ k ∈ r.keys, k ∈ names) ∧
      (∀ n ∈ names, valueFits fc (lookupColumn columns n) (r.get n) = true) ∧
      names.map (fun n => r.get n) ≠ [Value.str []] := by
  unfold recordFits
  rw [Bool.and_eq_true, Bool.and_eq_true, List.all_eq_true, List.all_eq_true,
    decide_eq_true_iff, and_assoc]
  constructor
  · rintro ⟨h1, h2, h3⟩
    exact ⟨fun k hk => by simpa using h1 k hk, h2, h3⟩
  · rintro ⟨h1, h2, h3⟩
    exact ⟨fun k hk => by simpa using h1 k hk, h2, h3⟩

theorem mem_of_get?_eq_some (l : List Str) (j : Nat) (k : Str) (h : l.get? j = some k) :
    k ∈ l := by
  induction l generalizing j with
  | nil => cases h
  | cons a l ih =>
    cases j with
    | zero =>
      have : a = k := Option.some.inj h
      rw [this]
      exact List.mem_cons_self _ _
    | succ j => exact List.mem_cons_of_mem _ (ih j h)

theorem exists_last_index (l : List Str) (k : Str) (h : k ∈ l) :
    ∃ j, l.get? j = some k ∧ ∀ j', j < j' → l.get? j' ≠ some k := by
  induction l with
  | nil => cases h
  | cons a l ih =>
    by_cases hk : k ∈ l
    · obtain ⟨j, h1, h2⟩ := ih hk
      refine ⟨j + 1, h1, ?_⟩
      intro j' hj'
      obtain ⟨m, rfl⟩ : ∃ m, j' = m + 1 := ⟨j' - 1, by omega⟩
      exact h2 m (by omega)
    · have ha : a = k := by
        rcases List.mem_cons.1 h with h | h
        · exact h.symm
        · exact absurd h hk
      refine ⟨0, by rw [ha]; rfl, ?_⟩
      intro j' hj'
      obtain ⟨m, rfl⟩ : ∃ m, j' = m + 1 := ⟨j' - 1, by omega⟩
      intro hm
      exact hk (mem_of_get?_eq_some _ _ _ hm)

theorem buildRow_get? (fc : FloatConv) (names : List Str) (r : Record) (j : Nat) :
    (buildRow fc names r).get? j = (names.get? j).map (fun n => sprintV fc (r.get n)) := by
  unfold buildRow
  simp

/-- The row written for a record that satisfies the schema is a row the codec preserves,
and the field loop of `ReadRecord` turns it back into a record with the same keys and the
same values, a `float32` being the number the float parser gives for its text. -/
theorem buildRow_readFields (fc : FloatConv) (columns : Option ColumnMap) (names : List Str)
    (r : Record) (hs : names ≠ []) (hr : recordFits fc columns names r = true) :
    (buildRow fc names r).length = names.length ∧ buildRow fc names r ≠ [] ∧
    buildRow fc names r ≠ [[]] ∧ (∀ f ∈ buildRow fc names r, noCRLF f = true) ∧
    ∃ rec, readFields fc names columns 0 (buildRow fc names r) [] = (some rec, none) ∧
      ∀ k, (k ∈ rec.keys ↔ k ∈ r.keys) ∧
        ((∀ bits, r.get k ≠ Value.float32 bits) → rec.get k = r.get k) ∧
        (∀ bits, r.get k = Value.float32 bits →
          rec.get k = Value.float32 (fc.parse32 (trimSpace (fc.format bits))).1) := by
  obtain ⟨h1, h2, h3⟩ := (recordFits_iff fc columns names r).1 hr
  have hlen : (buildRow fc names r).length = names.length := by simp [buildRow]
  have hcell : ∀ j value, (buildRow fc names r).get? j = some value →
      ∃ n, names.get? j = some n ∧ n ∈ names ∧ value = sprintV fc (r.get n) := by
    intro j value hj
    rw [buildRow_get?] at hj
    cases hn : names.get? j with
    | none => rw [hn] at hj; cases hj
    | some n =>
      rw [hn] at hj
      exact ⟨n, rfl, mem_of_get?_eq_some _ _ _ hn, (Option.some.inj hj).symm⟩
  refine ⟨hlen, ?_, ?_, ?_, ?_⟩
  · intro h
    rw [h] at hlen
    exact hs (List.length_eq_zero.1 hlen.symm)
  · intro h
    apply h3
    cases names with
    | nil => exact absurd rfl hs
    | cons n ns =>
      cases ns with
      | cons m ms => simp [buildRow] at h
      | nil =>
        have hv : sprintV fc (r.get n) = [] := by simpa [buildRow] using h
        have := (valueFits_spec fc columns n _ (h2 n (List.mem_cons_self _ _))).2.2.2.2.2 hv
        simp [this]
  · intro f hf
    unfold buildRow at hf
    obtain ⟨n, hn, rfl⟩ := List.mem_map.1 hf
    exact (valueFits_spec fc columns n _ (h2 n hn)).2.2.2.1
  · obtain ⟨rec, hrec⟩ := readFields_ok fc names columns (buildRow fc names r) 0 []
      (by
        intro j value colName d hj hh hd
        rw [Nat.zero_add] at hh
        obtain ⟨n, hn1, hn2, rfl⟩ := hcell j value hj
        rw [hn1] at hh
        have hnc : n = colName := Option.some.inj hh
        subst hnc
        exact (valueFits_spec fc columns n _ (h2 n hn2)).2.2.1 d hd)
    refine ⟨rec, hrec, ?_⟩
    intro k
    obtain ⟨s1, s2, s3⟩ := readFields_spec fc names columns _ 0 [] rec hrec k
    have hkeys : k ∈ r.keys ↔ k ∈ names := by
      constructor
      · exact h1 k
      · intro hk
        by_contra hc
        exact (valueFits_spec fc columns k _ (h2 k hk)).2.2.2.2.1
          (Record.get_of_not_mem_keys r k hc)
    by_cases hk : k ∈ names
    · obtain ⟨j, hj1, hj2⟩ := exists_last_index names k hk
      have hrow : (buildRow fc names r).get? j = some (sprintV fc (r.get k)) := by
        rw [buildRow_get?, hj1]; rfl
      have hget : rec.get k = cellValue fc columns k (sprintV fc (r.get k)) :=
        s3 j _ hrow (by rw [Nat.zero_add]; exact hj1)
          (fun j' h1' _ => by rw [Nat.zero_add]; exact hj2 j' h1')
      obtain ⟨v1, v2, _⟩ := valueFits_spec fc columns k _ (h2 k hk)
      refine ⟨?_, ?_, ?_⟩
      · rw [s1, hkeys]
        constructor
        · intro _; exact hk
        · intro _
          refine Or.inr ⟨j, ?_, by rw [Nat.zero_add]; exact hj1⟩
          rw [hlen]
          by_contra hc
          have : names.get? j = none := List.get?_eq_none.2 (by omega)
          rw [this] at hj1
          cases hj1
      · intro hnf
        rw [hget]
        exact v1 hnf
      · intro bits hb
        rw [hget]
        exact v2 bits hb
    · have hnk : k ∉ r.keys := fun hh => hk (h1 k hh)
      have hget : rec.get k = Value.nil := by
        rw [s2 (fun j _ hh => hk (by
          rw [Nat.zero_add] at hh
          exact mem_of_get?_eq_some _ _ _ hh))]
        rfl
      refine ⟨?_, ?_, ?_⟩
      · rw [s1, hkeys]
        constructor
        · rintro (hh | ⟨j, _, hh⟩)
          · cases hh
          · rw [Nat.zero_add] at hh
            exact mem_of_get?_eq_some _ _ _ hh
        · intro hh; exact absurd hh hk
      · intro _
        rw [hget, Record.get_of_not_mem_keys r k hnk]
      · intro bits hb
        rw [Record.get_of_not_mem_keys r k hnk] at hb
        cases hb

/-! ## The loops of the reader end within their bounds -/

theorem readSlice_length (src : Str) :
    (readSlice src).1.length + (readSlice src).2.2.length = src.length := by
  induction src with
  | nil => rfl
  | cons c cs ih =>
    by_cases hc : c = '\n'
    · subst hc; rw [readSlice_newline]; simp; omega
    · rw [readSlice_cons _ _ hc]; simp; omega

theorem readLine_length (src : Str) :
    (readLine src).1.length + (readLine src).2.2.length ≤ src.length := by
  have h := readSlice_length src
  unfold readLine
  dsimp only
  have hd := List.length_dropLast (readSlice src).1
  split_ifs <;>
    (try simp only [List.length_append, List.length_take, List.length_cons,
      List.length_nil]) <;>
    omega

theorem readLine_consumes (src : Str) (h : (readLine src).2.1 = false) :
    (readLine src).2.2.length < src.length := by
  cases src with
  | nil => revert h; decide
  | cons c cs =>
    have h1 := readSlice_length (c :: cs)
    have h2 := readSlice_fst_ne_nil (c :: cs) (List.cons_ne_nil _ _)
    have h3 : (readSlice (c :: cs)).1.length ≠ 0 := by rwa [Ne, List.length_eq_zero]
    have : (readLine (c :: cs)).2.2 = (readSlice (c :: cs)).2.2 := rfl
    rw [this]
    omega

theorem nextLine_total (fuel : Nat) : ∀ (src : Str), src.length < fuel →
    ∃ line eof src1, nextLine fuel src = some (line, eof, src1) ∧
      line.length + src1.length ≤ src.length := by
  induction fuel with
  | zero => intro src h; omega
  | succ fuel ih =>
    intro src h
    rw [nextLine_succ]
    by_cases hc : (readLine src).2.1 = false ∧ (readLine src).1.length = lengthNL (readLine src).1
    · rw [if_pos hc]
      have hlt := readLine_consumes src hc.1
      obtain ⟨line, eof, src1, h1, h2⟩ := ih (readLine src).2.2 (by omega)
      exact ⟨line, eof, src1, h1, by omega⟩
    · rw [if_neg hc]
      exact ⟨_, _, _, rfl, readLine_length src⟩

theorem span_length (p : Char → Bool) (l : Str) :
    (l.span p).1.length + (l.span p).2.length = l.length := by
  rw [List.span_eq_take_drop]
  dsimp only
  rw [← List.length_append, List.takeWhile_append_dropWhile]

theorem parseRecord_total (fuel : Nat) : ∀ (mode : Option Str) (line src : Str)
    (dst : List Str), line.length + src.length < fuel →
    ∃ r, parseRecord fuel mode line src dst = some r := by
  induction fuel with
  | zero => intro mode line src dst h; omega
  | succ fuel ih =>
    intro mode line src dst h
    have htail : ∀ (l : Str), l ≠ [] → l.tail.length < l.length := by
      intro l hl
      cases l with
      | nil => exact absurd rfl hl
      | cons a t => simp
    cases mode with
    | none =>
      rw [parseRecord_field]
      have hsp := span_length (fun c => decide (c ≠ ',')) line
      by_cases h1 : line.head? ≠ some '"'
      · rw [if_pos h1]
        by_cases h2 : (line.span (fun c => decide (c ≠ ','))).2 ≠ []
        · simp only [if_pos h2]
          by_cases h3 : '"' ∈ (line.span (fun c => decide (c ≠ ','))).1
          · rw [if_pos h3]; exact ⟨_, rfl⟩
          · rw [if_neg h3]
            apply ih
            have := htail _ h2
            omega
        · simp only [if_neg h2]
          by_cases h3 : '"' ∈ line.take (line.length - lengthNL line)
          · rw [if_pos h3]; exact ⟨_, rfl⟩
          · rw [if_neg h3]; exact ⟨_, rfl⟩
      · rw [if_neg h1]
        apply ih
        have hne : line ≠ [] := by
          intro hl
          rw [hl] at h1
          exact h1 (by simp)
        have := htail _ hne
        omega
    | some buf =>
      rw [parseRecord_quoted]
      have hsp := span_length (fun c => decide (c ≠ '"')) line
      have ht : ∀ (l : Str), l.tail.length ≤ l.length := fun l => by simp
      by_cases c0 : (line.span (fun c => decide (c ≠ '"'))).2 ≠ []
      · rw [if_pos c0]
        have h1 := htail _ c0
        have h2 := ht (line.span (fun c => decide (c ≠ '"'))).2.tail
        split_ifs
        · apply ih; omega
        · apply ih; omega
        · exact ⟨_, rfl⟩
        · exact ⟨_, rfl⟩
      · rw [if_neg c0]
        by_cases c5 : line ≠ []
        · rw [if_pos c5]
          apply ih
          have := readLine_length src
          have : line.length ≠ 0 := by rwa [Ne, List.length_eq_zero]
          omega
        · rw [if_neg c5]; exact ⟨_, rfl⟩

/-- The method `Read` always returns: the bounds given to its two loops suffice. -/
theorem Read_isSome (rd : CsvReader) : ∃ r, rd.Read = some r := by
  obtain ⟨line, eof, src1, h1, h2⟩ := nextLine_total (rd.src.length + 1) rd.src (by omega)
  unfold CsvReader.Read
  rw [h1]
  dsimp only
  cases eof with
  | true => exact ⟨_, rfl⟩
  | false =>
    obtain ⟨r, hr⟩ := parseRecord_total (rd.src.length + 1) none line src1 [] (by omega)
    simp only [Bool.false_eq_true, ↓reduceIte, hr]
    split_ifs <;> exact ⟨_, rfl⟩

/-- The methods `ReadHeader` and `ReadRecord` return whenever the adapter has a reader. -/
theorem read_methods_return (fc : FloatConv) (p : Plugin) (rd : CsvReader)
    (h : p.csvReader = some rd) :
    (∃ r, ReadHeader p = some r) ∧ (∃ r, ReadRecord fc p = some r) := by
  obtain ⟨⟨⟨row, err⟩, rd1⟩, hr⟩ := Read_isSome rd
  constructor
  · unfold ReadHeader
    rw [h]
    dsimp only
    rw [hr]
    dsimp only
    cases err with
    | none => exact ⟨_, rfl⟩
    | some e => exact ⟨_, rfl⟩
  · unfold ReadRecord
    rw [h]
    dsimp only
    rw [hr]
    dsimp only
    cases err with
    | none =>
      dsimp only
      rcases readFields_result fc p.headers p.columns row 0 [] with ⟨rec, h'⟩ | ⟨c, e, d, h', _⟩
      · rw [h']; exact ⟨_, rfl⟩
      · rw [h']; exact ⟨_, rfl⟩
    | some e =>
      cases e <;> exact ⟨_, rfl⟩

/-! ## Further lemmas on the field loop of `ReadRecord` -/

theorem Record.keys_set (r : Record) (k : Str) (v : Value) :
    Record.keys (r.set k v) = k :: Record.keys (r.filter (fun e => decide (e.1 ≠ k))) := rfl

theorem Record.nodup_keys_set (r : Record) (k : Str) (v : Value)
    (h : (Record.keys r).Nodup) : (Record.keys (r.set k v)).Nodup := by
  rw [Record.keys_set, List.nodup_cons]
  constructor
  · unfold Record.keys
    intro hm
    obtain ⟨e, he, hk⟩ := List.mem_map.1 hm
    have := (List.mem_filter.1 he).2
    simp at this
    exact this hk
  · unfold Record.keys at h ⊢
    exact (List.filter_sublist r).map Prod.fst |>.nodup h

theorem Record.length_set_le (r : Record) (k : Str) (v : Value) :
    (r.set k v).length ≤ r.length + 1 := by
  unfold Record.set
  rw [List.length_cons]
  have := List.length_filter_le (fun e : Str × Value => decide (e.1 ≠ k)) r
  omega

/-- The record the loop returns has pairwise distinct keys, if the record it started with
has, and at most one entry more for every position that has both a field and a header. -/
theorem readFields_size (fc : FloatConv) (headers : List Str) (columns : Option ColumnMap)
    (row : List Str) : ∀ (i : Nat) (record rec : Record),
    readFields fc headers columns i row record = (some rec, none) →
    ((Record.keys record).Nodup → (Record.keys rec).Nodup) ∧
    rec.length ≤ record.length + min row.length (headers.length - i) := by
  induction row with
  | nil =>
    intro i record rec h
    rw [readFields_nil] at h
    have : record = rec := Option.some.inj (Prod.mk.inj h).1
    subst this
    exact ⟨fun hn => hn, by simp⟩
  | cons value row ih =>
    intro i record rec h
    cases hh : headers.get? i with
    | none =>
      rw [readFields_cons, hh] at h
      have : record = rec := Option.some.inj (Prod.mk.inj h).1
      subst this
      exact ⟨fun hn => hn, by omega⟩
    | some colName =>
      have hlt : i < headers.length := by
        by_contra hc
        have : headers.get? i = none := List.get?_eq_none.2 (by omega)
        rw [this] at hh
        cases hh
      have hstep : ∃ v, readFields fc headers columns (i + 1) row (record.set colName v)
          = (some rec, none) := by
        rw [readFields_cons, hh] at h
        dsimp only at h
        cases hl : lookupColumn columns colName with
        | none => rw [hl] at h; exact ⟨_, h⟩
        | some d =>
          rw [hl] at h
          dsimp only at h
          cases he : (parseValue fc value d).2 with
          | none => rw [he] at h; exact ⟨_, h⟩
          | some e => rw [he] at h; cases (Prod.mk.inj h).1
      obtain ⟨v, hv⟩ := hstep
      obtain ⟨i1, i2⟩ := ih (i + 1) _ rec hv
      refine ⟨fun hn => i1 (Record.nodup_keys_set record colName v hn), ?_⟩
      have := Record.length_set_le record colName v
      rw [List.length_cons]
      omega

/-! ## Lemmas on the cells `WriteRecord` builds -/

theorem fmtDigits_head (fuel : Nat) : ∀ (u : Nat) (buf : Str), u ≤ fuel → 1 ≤ u →
    (fmtDigits fuel u buf).head? ≠ some '0' := by
  induction fuel with
  | zero => intro u buf h1 h2; omega
  | succ fuel ih =>
    intro u buf h1 h2
    rw [fmtDigits_succ]
    by_cases h10 : u ≥ 10
    · rw [if_pos h10]
      exact ih (u / 10) _ (by omega) (by omega)
    · rw [if_neg h10]
      have hd : u < 10 := by omega
      intro hh
      have hc : digitChar u = '0' := by simpa using hh
      have := digitChar_toNat u hd
      rw [hc] at this
      have h0 : ('0' : Char).toNat = 48 := rfl
      omega

/-- The `%v` rendering of an unsigned integer is its numeral without leading zeros. -/
theorem fmtUint_canonical (u : Nat) : isCanonicalNumeral (fmtUint u) u = true := by
  obtain ⟨h1, h2⟩ := fmtUint_spec u
  unfold isCanonicalNumeral
  rw [Bool.and_eq_true, Bool.and_eq_true, Bool.or_eq_true, decide_eq_true_iff,
    decide_eq_true_iff, decide_eq_true_iff]
  refine ⟨⟨h1, h2⟩, ?_⟩
  by_cases hu : 1 ≤ u
  · exact Or.inl (fmtDigits_head u u [] (Nat.le_refl u) hu)
  · have : u = 0 := by omega
    subst this
    exact Or.inr rfl

theorem Record.get_filter_mem (r : Record) (order : List Str) (c : Str) (hc : c ∈ order) :
    Record.get (r.filter (fun e => decide (e.1 ∈ order))) c = Record.get r c := by
  induction r with
  | nil => rfl
  | cons e r ih =>
    obtain ⟨a, v⟩ := e
    by_cases ha : a ∈ order
    · rw [List.filter_cons_of_pos (by simpa using ha), Record.get_cons, Record.get_cons, ih]
    · have hne : a ≠ c := fun h => ha (h ▸ hc)
      rw [List.filter_cons_of_neg (by simpa using ha), Record.get_cons, if_neg hne, ih]

theorem buildRow_congr (fc : FloatConv) (order : List Str) (r1 r2 : Record)
    (h : ∀ c ∈ order, Record.get r1 c = Record.get r2 c) :
    buildRow fc order r1 = buildRow fc order r2 := by
  unfold buildRow
  apply List.map_congr_left
  intro c hc
  rw [h c hc]

/-! ## Coercion of single cells: claims C2, C3, C8, C9, C10 -/

/-- C2, as the code has it: for every string `s` and every descriptor of type string or
localized string, coercing the cell written for `s` (its `%v` rendering, which is `s`)
gives, without error, `s` with its leading and trailing white space removed; so the cell
reads back as `s` itself exactly when `s` has no leading or trailing white space. -/
theorem string_cell_roundtrip_trimmed (fc : FloatConv) (s : Str) (d : ColumnDefinition)
    (hd : d.Type_ = ColumnType.TypeString ∨ d.Type_ = ColumnType.TypeLocString) :
    parseValue fc (sprintV fc (Value.str s)) d = (Value.str (trimSpace s), none) ∧
    (parseValue fc (sprintV fc (Value.str s)) d = (Value.str s, none) ↔ trimSpace s = s) := by
  have h : parseValue fc (sprintV fc (Value.str s)) d = (Value.str (trimSpace s), none) := by
    apply parseValue_string
    rcases hd with hd | hd <;> rw [hd] <;> decide
  refine ⟨h, ?_⟩
  rw [h]
  constructor
  · intro e
    have := (Prod.mk.inj e).1
    exact Value.str.inj this
  · intro e
    rw [e]

/-- Witness of `string_cell_roundtrip_trimmed`: the string `Bob,Jr` under a string column. -/
theorem string_cell_roundtrip_trimmed_witness :
    parseValue noFloat (sprintV noFloat (Value.str ['B', 'o', 'b', ',', 'J', 'r']))
        ⟨ColumnType.TypeString⟩
      = (Value.str (trimSpace ['B', 'o', 'b', ',', 'J', 'r']), none) ∧
    (parseValue noFloat (sprintV noFloat (Value.str ['B', 'o', 'b', ',', 'J', 'r']))
        ⟨ColumnType.TypeString⟩ = (Value.str ['B', 'o', 'b', ',', 'J', 'r'], none) ↔
      trimSpace ['B', 'o', 'b', ',', 'J', 'r'] = ['B', 'o', 'b', ',', 'J', 'r']) :=
  string_cell_roundtrip_trimmed noFloat ['B', 'o', 'b', ',', 'J', 'r'] ⟨ColumnType.TypeString⟩
    (Or.inl rfl)

/-- C2, counterexample: the string made of a blank and the letter `a`, stored under a
string column, is written as that same text and coerced back to the one-letter string `a`,
not to the string that was stored. -/
theorem string_cell_roundtrip_counterexample :
    sprintV noFloat (Value.str [' ', 'a']) = [' ', 'a'] ∧
    parseValue noFloat (sprintV noFloat (Value.str [' ', 'a'])) ⟨ColumnType.TypeString⟩
      = (Value.str ['a'], none) ∧
    parseValue noFloat (sprintV noFloat (Value.str [' ', 'a'])) ⟨ColumnType.TypeString⟩
      ≠ (Value.str [' ', 'a'], none) := by
  decide

/-- C3: for every `int32` value `v`, `parseValue` under a signed-integer descriptor returns
`v` and no error on the cell written for `v`; for every `uint32` value `u`, `parseValue`
under an unsigned-integer descriptor returns `u` and no error on the cell written for `u`. -/
theorem integer_cell_roundtrip (fc : FloatConv) (v : Int) (u : Nat)
    (hv : -2147483648 ≤ v ∧ v ≤ 2147483647) (hu : u ≤ 4294967295) :
    parseValue fc (sprintV fc (Value.int32 v)) ⟨ColumnType.TypeInt⟩ = (Value.int32 v, none) ∧
    parseValue fc (sprintV fc (Value.uint32 u)) ⟨ColumnType.TypeUInt⟩
      = (Value.uint32 u, none) :=
  ⟨parseValue_int_fmtInt fc v hv, parseValue_uint_fmtUint fc u hu⟩

/-- Witness of `integer_cell_roundtrip`: the least `int32` and the greatest `uint32`. -/
theorem integer_cell_roundtrip_witness :
    parseValue noFloat (sprintV noFloat (Value.int32 (-2147483648))) ⟨ColumnType.TypeInt⟩
      = (Value.int32 (-2147483648), none) ∧
    parseValue noFloat (sprintV noFloat (Value.uint32 4294967295)) ⟨ColumnType.TypeUInt⟩
      = (Value.uint32 4294967295, none) :=
  integer_cell_roundtrip noFloat (-2147483648) 4294967295 (by decide) (by decide)

/-- C8: under a signed-integer descriptor `parseValue` returns no error exactly when the
text, trimmed of surrounding white space, is a base-10 integer (an optional sign, then one
or more decimal digits) whose value lies between -2147483648 and 2147483647; it then
returns that value as an `int32`, and for every other text it returns an error. -/
theorem signed_coercion (fc : FloatConv) (t : Str) :
    ((parseValue fc t ⟨ColumnType.TypeInt⟩).2 = none ↔
      (isDecimalInteger (trimSpace t) = true ∧ -2147483648 ≤ integerValue (trimSpace t) ∧
        integerValue (trimSpace t) ≤ 2147483647)) ∧
    ((parseValue fc t ⟨ColumnType.TypeInt⟩).2 = none →
      (parseValue fc t ⟨ColumnType.TypeInt⟩).1 = Value.int32 (integerValue (trimSpace t))) ∧
    (¬ (isDecimalInteger (trimSpace t) = true ∧ -2147483648 ≤ integerValue (trimSpace t) ∧
        integerValue (trimSpace t) ≤ 2147483647) →
      ∃ e, (parseValue fc t ⟨ColumnType.TypeInt⟩).2 = some e) := by
  rw [parseValue_int]
  obtain ⟨p1, p2⟩ := ParseInt32_spec (trimSpace t)
  refine ⟨p1, ?_, ?_⟩
  · intro h
    have h' : (ParseInt (trimSpace t) 32).2 = none := h
    show Value.int32 (toInt32 (ParseInt (trimSpace t) 32).1) = _
    have hr := p1.1 h'
    rw [p2 h', toInt32_of_range _ hr.2.1 hr.2.2]
  · intro h
    show ∃ e, (ParseInt (trimSpace t) 32).2 = some e
    cases he : (ParseInt (trimSpace t) 32).2 with
    | none => exact absurd (p1.1 he) h
    | some e => exact ⟨e, rfl⟩

/-- C9: under an unsigned-integer descriptor `parseValue` returns no error exactly when the
text, trimmed of surrounding white space, is a non-empty sequence of decimal digits whose
value is at most 4294967295; it then returns that value as a `uint32`, and for every other
text it returns an error. -/
theorem unsigned_coercion (fc : FloatConv) (t : Str) :
    ((parseValue fc t ⟨ColumnType.TypeUInt⟩).2 = none ↔
      (isDigitSeq (trimSpace t) = true ∧ decValue 0 (trimSpace t) ≤ 4294967295)) ∧
    ((parseValue fc t ⟨ColumnType.TypeUInt⟩).2 = none →
      (parseValue fc t ⟨ColumnType.TypeUInt⟩).1 = Value.uint32 (decValue 0 (trimSpace t))) ∧
    (¬ (isDigitSeq (trimSpace t) = true ∧ decValue 0 (trimSpace t) ≤ 4294967295) →
      ∃ e, (parseValue fc t ⟨ColumnType.TypeUInt⟩).2 = some e) := by
  rw [parseValue_uint]
  obtain ⟨p1, p2, _⟩ := ParseUint32_spec (trimSpace t)
  refine ⟨p1, ?_, ?_⟩
  · intro h
    have h' : (ParseUint (trimSpace t) 32).2 = none := h
    show Value.uint32 (toUInt32 (ParseUint (trimSpace t) 32).1) = _
    have hr := p1.1 h'
    rw [p2 h', toUInt32_of_range _ hr.2]
  · intro h
    show ∃ e, (ParseUint (trimSpace t) 32).2 = some e
    cases he : (ParseUint (trimSpace t) 32).2 with
    | none => exact absurd (p1.1 he) h
    | some e => exact ⟨e, rfl⟩

/-- C10: for every text `t` and every descriptor whose type is string, localized string or
any type other than signed integer, unsigned integer and floating point, `parseValue`
returns no error and the string `t` trimmed of surrounding white space; applied to that
result it returns the same string again. -/
theorem text_coercion_never_fails (fc : FloatConv) (t : Str) (d : ColumnDefinition)
    (hd : d.Type_ ≠ ColumnType.TypeInt ∧ d.Type_ ≠ ColumnType.TypeUInt ∧
      d.Type_ ≠ ColumnType.TypeFloat) :
    parseValue fc t d = (Value.str (trimSpace t), none) ∧
    parseValue fc (trimSpace t) d = (Value.str (trimSpace t), none) := by
  refine ⟨parseValue_string fc t d hd, ?_⟩
  rw [parseValue_string fc (trimSpace t) d hd, trimSpace_idem]

/-- Witness of `text_coercion_never_fails`: a padded text under a localized-string column. -/
theorem text_coercion_never_fails_witness :
    parseValue noFloat [' ', 'x', ' ', 'y', '\t'] ⟨ColumnType.TypeLocString⟩
      = (Value.str (trimSpace [' ', 'x', ' ', 'y', '\t']), none) ∧
    parseValue noFloat (trimSpace [' ', 'x', ' ', 'y', '\t']) ⟨ColumnType.TypeLocString⟩
      = (Value.str (trimSpace [' ', 'x', ' ', 'y', '\t']), none) :=
  text_coercion_never_fails noFloat [' ', 'x', ' ', 'y', '\t'] ⟨ColumnType.TypeLocString⟩
    (by decide)

/-! ## The round trip: claim C1 -/

theorem rowsText_cons (fc : FloatConv) (names : List Str) (r : Record) (rs : List Record) :
    rowsText fc names (r :: rs) = encodeRecord (buildRow fc names r) ++ rowsText fc names rs :=
  rfl

theorem readRecords_succ (fc : FloatConv) (n : Nat) (p : Plugin) :
    readRecords fc (n + 1) p =
      match ReadRecord fc p with
      | none => none
      | some (r, p1) =>
        match readRecords fc n p1 with
        | none => none
        | some (rs, p2) => some (r :: rs, p2) := rfl

/-- Reading back the rows of records that satisfy the schema: one `ReadRecord` call per
record returns a record with the same keys and values, a `float32` being the number the
float parser gives for its text, and the call after the last row returns the end-of-input
result. -/
theorem readRecords_rows (fc : FloatConv) (columns : Option ColumnMap) (names : List Str)
    (hs : names ≠ []) (records : List Record) :
    ∀ (p : Plugin),
      p.csvReader = some { src := rowsText fc names records, FieldsPerRecord := names.length } →
      p.headers = names → p.columns = columns →
      (∀ r ∈ records, recordFits fc columns names r = true) →
      ∃ results p', readRecords fc (records.length + 1) p
          = some (results.map (fun r => (some r, none)) ++ [(none, none)], p') ∧
        List.Forall₂ (fun r' r => ∀ k, (k ∈ Record.keys r' ↔ k ∈ Record.keys r) ∧
          ((∀ bits, Record.get r k ≠ Value.float32 bits) →
            Record.get r' k = Record.get r k) ∧
          (∀ bits, Record.get r k = Value.float32 bits →
            Record.get r' k = Value.float32 (fc.parse32 (trimSpace (fc.format bits))).1))
          results records := by
  induction records with
  | nil =>
    intro p hr _ _ _
    refine ⟨[], p, ?_, List.Forall₂.nil⟩
    rw [List.length_nil, Nat.zero_add, readRecords_succ, ReadRecord_exhausted fc p _ hr]
    rfl
  | cons r rs ih =>
    intro p hr hh hc hfit
    obtain ⟨b1, b2, b3, b4, rec, b5, b6⟩ := buildRow_readFields fc columns names r hs
      (hfit r (List.mem_cons_self _ _))
    rw [rowsText_cons, ← b1] at hr
    have b5' : readFields fc p.headers p.columns 0 (buildRow fc names r) []
        = (some rec, none) := by rw [hh, hc]; exact b5
    have hread := ReadRecord_encoded fc p _ _ rec hr b2 b3 b4 b5'
    obtain ⟨results, p', i1, i2⟩ := ih
      { p with csvReader := some { src := rowsText fc names rs,
                                   FieldsPerRecord := (buildRow fc names r).length },
               index := p.index + 1 }
      (by rw [b1]) hh hc (fun x hx => hfit x (List.mem_cons_of_mem _ hx))
    refine ⟨rec :: results, p', ?_, List.Forall₂.cons b6 i2⟩
    rw [List.length_cons, readRecords_succ, hread]
    dsimp only
    rw [i1]
    rfl

/-- C1, as the code has it: for every schema whose header row survives the codec and every
sequence of records that satisfy it (keys among the columns; an `int32` under a
signed-integer column, a `uint32` under an unsigned-integer column, a `float32` under a
floating-point column, a string without leading or trailing white space under a column of
any other type, any string under a column without descriptor; no string holding a carriage
return directly before a line feed; not the single empty string of a one-column schema), a
write session on a fresh adapter, whose sink is an in-memory text that accepts every write,
returns no error, and a read session over the text it produced, under the same schema,
returns the schema from `ReadHeader`, then one record per written record with the same
keys, then the end-of-input result.  Every value that is not a `float32` is read back as
the same value; a `float32` is read back as the `float32` the float parser gives for the
text `%v` renders for it.  The conversions of floating-point numbers are not modelled: the
theorem holds for any, and asks of a `float32` under a floating-point column that its text
is not empty, holds no carriage return directly before a line feed and is accepted by the
parser. -/
theorem write_read_roundtrip (fc : FloatConv) (vd : VersionDefinition)
    (columns : Option ColumnMap) (records : List Record)
    (hs : schemaFits (columnNames vd) = true)
    (hr : ∀ r ∈ records, recordFits fc columns (columnNames vd) r = true) :
    ∃ text results,
      writeSession fc (some vd) columns records
        = some (List.replicate (records.length + 2) none, text) ∧
      text = encodeRecord (columnNames vd) ++ rowsText fc (columnNames vd) records ∧
      readSession fc text (some vd) columns (records.length + 1)
        = some ((some vd, columns, none),
            results.map (fun r => (some r, none)) ++ [(none, none)]) ∧
      List.Forall₂ (fun r' r => ∀ k, (k ∈ Record.keys r' ↔ k ∈ Record.keys r) ∧
        ((∀ bits, Record.get r k ≠ Value.float32 bits) →
          Record.get r' k = Record.get r k) ∧
        (∀ bits, Record.get r k = Value.float32 bits →
          Record.get r' k = Value.float32 (fc.parse32 (trimSpace (fc.format bits))).1))
        results records := by
  have hne : columnNames vd ≠ [] := ((schemaFits_iff _).1 hs).1
  have hhead := ReadHeader_encoded
    (SetSchema (NewReader (encodeRecord (columnNames vd) ++ rowsText fc (columnNames vd) records))
      (some vd) columns)
    (columnNames vd) (rowsText fc (columnNames vd) records) rfl hs
  obtain ⟨results, p', h1, h2⟩ := readRecords_rows fc columns (columnNames vd) hne records
    { SetSchema (NewReader (encodeRecord (columnNames vd)
          ++ rowsText fc (columnNames vd) records)) (some vd) columns with
      csvReader := some { src := rowsText fc (columnNames vd) records,
                          FieldsPerRecord := (columnNames vd).length },
      headers := columnNames vd, index := 0 }
    rfl rfl rfl hr
  refine ⟨_, results, writeSession_ok fc vd columns records, rfl, ?_, h2⟩
  unfold readSession
  rw [hhead]
  dsimp only
  rw [h1]
  rfl

/-- Witness of `write_read_roundtrip`, at two inputs.  First the schema with the columns
`id` (unsigned integer) and `name` (string) and the records of Alice and of Bob,Jr: the
session writes the rows `id,name`, `1,Alice` and `2,"Bob,Jr"`, and reading them back gives
the two records again, `id` as `uint32`, then the end-of-input result.  Then the schema
with the columns `id` (signed integer) and `x` (floating point) and the records with `id`
-3 and `x` 1.5, and with `id` 7 and `x` -2: the session writes the rows `id,x`, `-3,1.5`
and `7,-2`, and reading them back gives the two records again. -/
theorem write_read_roundtrip_witness :
    ((schemaFits (columnNames ⟨[⟨['i', 'd']⟩, ⟨['n', 'a', 'm', 'e']⟩]⟩) = true ∧
      ∀ r ∈ [[(['i', 'd'], Value.uint32 1), (['n', 'a', 'm', 'e'], Value.str "Alice".toList)],
             [(['i', 'd'], Value.uint32 2), (['n', 'a', 'm', 'e'], Value.str "Bob,Jr".toList)]],
        recordFits noFloat (some [(['i', 'd'], ⟨ColumnType.TypeUInt⟩),
            (['n', 'a', 'm', 'e'], ⟨ColumnType.TypeString⟩)])
          (columnNames ⟨[⟨['i', 'd']⟩, ⟨['n', 'a', 'm', 'e']⟩]⟩) r = true) ∧
    (∃ text results,
      writeSession noFloat (some ⟨[⟨['i', 'd']⟩, ⟨['n', 'a', 'm', 'e']⟩]⟩)
          (some [(['i', 'd'], ⟨ColumnType.TypeUInt⟩),
            (['n', 'a', 'm', 'e'], ⟨ColumnType.TypeString⟩)])
          [[(['i', 'd'], Value.uint32 1), (['n', 'a', 'm', 'e'], Value.str "Alice".toList)],
           [(['i', 'd'], Value.uint32 2), (['n', 'a', 'm', 'e'], Value.str "Bob,Jr".toList)]]
        = some (List.replicate (2 + 2) none, text) ∧
      text = encodeRecord (columnNames ⟨[⟨['i', 'd']⟩, ⟨['n', 'a', 'm', 'e']⟩]⟩) ++
        rowsText noFloat (columnNames ⟨[⟨['i', 'd']⟩, ⟨['n', 'a', 'm', 'e']⟩]⟩)
          [[(['i', 'd'], Value.uint32 1), (['n', 'a', 'm', 'e'], Value.str "Alice".toList)],
           [(['i', 'd'], Value.uint32 2), (['n', 'a', 'm', 'e'], Value.str "Bob,Jr".toList)]] ∧
      readSession noFloat text (some ⟨[⟨['i', 'd']⟩, ⟨['n', 'a', 'm', 'e']⟩]⟩)
          (some [(['i', 'd'], ⟨ColumnType.TypeUInt⟩),
            (['n', 'a', 'm', 'e'], ⟨ColumnType.TypeString⟩)]) (2 + 1)
        = some ((some ⟨[⟨['i', 'd']⟩, ⟨['n', 'a', 'm', 'e']⟩]⟩,
            some [(['i', 'd'], ⟨ColumnType.TypeUInt⟩),
              (['n', 'a', 'm', 'e'], ⟨ColumnType.TypeString⟩)], none),
          results.map (fun r => (some r, none)) ++ [(none, none)]) ∧
      List.Forall₂ (fun r' r => ∀ k, (k ∈ Record.keys r' ↔ k ∈ Record.keys r) ∧
        ((∀ bits, Record.get r k ≠ Value.float32 bits) →
          Record.get r' k = Record.get r k) ∧
        (∀ bits, Record.get r k = Value.float32 bits →
          Record.get r' k
            = Value.float32 (noFloat.parse32 (trimSpace (noFloat.format bits))).1))
        results
        [[(['i', 'd'], Value.uint32 1), (['n', 'a', 'm', 'e'], Value.str "Alice".toList)],
         [(['i', 'd'], Value.uint32 2), (['n', 'a', 'm', 'e'], Value.str "Bob,Jr".toList)]]) ∧
    writeSession noFloat (some ⟨[⟨['i', 'd']⟩, ⟨['n', 'a', 'm', 'e']⟩]⟩)
        (some [(['i', 'd'], ⟨ColumnType.TypeUInt⟩),
          (['n', 'a', 'm', 'e'], ⟨ColumnType.TypeString⟩)])
        [[(['i', 'd'], Value.uint32 1), (['n', 'a', 'm', 'e'], Value.str "Alice".toList)],
         [(['i', 'd'], Value.uint32 2), (['n', 'a', 'm', 'e'], Value.str "Bob,Jr".toList)]]
      = some ([none, none, none, none], "id,name\n1,Alice\n2,\"Bob,Jr\"\n".toList) ∧
    readSession noFloat "id,name\n1,Alice\n2,\"Bob,Jr\"\n".toList
        (some ⟨[⟨['i', 'd']⟩, ⟨['n', 'a', 'm', 'e']⟩]⟩)
        (some [(['i', 'd'], ⟨ColumnType.TypeUInt⟩),
          (['n', 'a', 'm', 'e'], ⟨ColumnType.TypeString⟩)]) 3
      = some ((some ⟨[⟨['i', 'd']⟩, ⟨['n', 'a', 'm', 'e']⟩]⟩,
          some [(['i', 'd'], ⟨ColumnType.TypeUInt⟩),
            (['n', 'a', 'm', 'e'], ⟨ColumnType.TypeString⟩)], none),
        [(some [(['n', 'a', 'm', 'e'], Value.str "Alice".toList), (['i', 'd'], Value.uint32 1)],
            none),
         (some [(['n', 'a', 'm', 'e'], Value.str "Bob,Jr".toList), (['i', 'd'], Value.uint32 2)],
            none),
         (none, none)])) ∧
    ((schemaFits (columnNames ⟨[⟨['i', 'd']⟩, ⟨['x']⟩]⟩) = true ∧
      ∀ r ∈ [[(['i', 'd'], Value.int32 (-3)), (['x'], Value.float32 1069547520)],
             [(['i', 'd'], Value.int32 7), (['x'], Value.float32 3221225472)]],
        recordFits sampleFloat (some [(['i', 'd'], ⟨ColumnType.TypeInt⟩),
            (['x'], ⟨ColumnType.TypeFloat⟩)])
          (columnNames ⟨[⟨['i', 'd']⟩, ⟨['x']⟩]⟩) r = true) ∧
    (∃ text results,
      writeSession sampleFloat (some ⟨[⟨['i', 'd']⟩, ⟨['x']⟩]⟩)
          (some [(['i', 'd'], ⟨ColumnType.TypeInt⟩), (['x'], ⟨ColumnType.TypeFloat⟩)])
          [[(['i', 'd'], Value.int32 (-3)), (['x'], Value.float32 1069547520)],
           [(['i', 'd'], Value.int32 7), (['x'], Value.float32 3221225472)]]
        = some (List.replicate (2 + 2) none, text) ∧
      text = encodeRecord (columnNames ⟨[⟨['i', 'd']⟩, ⟨['x']⟩]⟩) ++
        rowsText sampleFloat (columnNames ⟨[⟨['i', 'd']⟩, ⟨['x']⟩]⟩)
          [[(['i', 'd'], Value.int32 (-3)), (['x'], Value.float32 1069547520)],
           [(['i', 'd'], Value.int32 7), (['x'], Value.float32 3221225472)]] ∧
      readSession sampleFloat text (some ⟨[⟨['i', 'd']⟩, ⟨['x']⟩]⟩)
          (some [(['i', 'd'], ⟨ColumnType.TypeInt⟩), (['x'], ⟨ColumnType.TypeFloat⟩)]) (2 + 1)
        = some ((some ⟨[⟨['i', 'd']⟩, ⟨['x']⟩]⟩,
            some [(['i', 'd'], ⟨ColumnType.TypeInt⟩), (['x'], ⟨ColumnType.TypeFloat⟩)], none),
          results.map (fun r => (some r, none)) ++ [(none, none)]) ∧
      List.Forall₂ (fun r' r => ∀ k, (k ∈ Record.keys r' ↔ k ∈ Record.keys r) ∧
        ((∀ bits, Record.get r k ≠ Value.float32 bits) →
          Record.get r' k = Record.get r k) ∧
        (∀ bits, Record.get r k = Value.float32 bits →
          Record.get r' k
            = Value.float32 (sampleFloat.parse32 (trimSpace (sampleFloat.format bits))).1))
        results
        [[(['i', 'd'], Value.int32 (-3)), (['x'], Value.float32 1069547520)],
         [(['i', 'd'], Value.int32 7), (['x'], Value.float32 3221225472)]]) ∧
    writeSession sampleFloat (some ⟨[⟨['i', 'd']⟩, ⟨['x']⟩]⟩)
        (some [(['i', 'd'], ⟨ColumnType.TypeInt⟩), (['x'], ⟨ColumnType.TypeFloat⟩)])
        [[(['i', 'd'], Value.int32 (-3)), (['x'], Value.float32 1069547520)],
         [(['i', 'd'], Value.int32 7), (['x'], Value.float32 3221225472)]]
      = some ([none, none, none, none], "id,x\n-3,1.5\n7,-2\n".toList) ∧
    readSession sampleFloat "id,x\n-3,1.5\n7,-2\n".toList (some ⟨[⟨['i', 'd']⟩, ⟨['x']⟩]⟩)
        (some [(['i', 'd'], ⟨ColumnType.TypeInt⟩), (['x'], ⟨ColumnType.TypeFloat⟩)]) 3
      = some ((some ⟨[⟨['i', 'd']⟩, ⟨['x']⟩]⟩,
          some [(['i', 'd'], ⟨ColumnType.TypeInt⟩), (['x'], ⟨ColumnType.TypeFloat⟩)], none),
        [(some [(['x'], Value.float32 1069547520), (['i', 'd'], Value.int32 (-3))], none),
         (some [(['x'], Value.float32 3221225472), (['i', 'd'], Value.int32 7)], none),
         (none, none)])) :=
  ⟨⟨⟨by decide, by decide⟩,
    write_read_roundtrip noFloat ⟨[⟨['i', 'd']⟩, ⟨['n', 'a', 'm', 'e']⟩]⟩
      (some [(['i', 'd'], ⟨ColumnType.TypeUInt⟩),
        (['n', 'a', 'm', 'e'], ⟨ColumnType.TypeString⟩)])
      [[(['i', 'd'], Value.uint32 1), (['n', 'a', 'm', 'e'], Value.str "Alice".toList)],
       [(['i', 'd'], Value.uint32 2), (['n', 'a', 'm', 'e'], Value.str "Bob,Jr".toList)]]
      (by decide) (by decide),
    rfl, rfl⟩,
   ⟨by decide, by decide⟩,
   write_read_roundtrip sampleFloat ⟨[⟨['i', 'd']⟩, ⟨['x']⟩]⟩
     (some [(['i', 'd'], ⟨ColumnType.TypeInt⟩), (['x'], ⟨ColumnType.TypeFloat⟩)])
     [[(['i', 'd'], Value.int32 (-3)), (['x'], Value.float32 1069547520)],
      [(['i', 'd'], Value.int32 7), (['x'], Value.float32 3221225472)]]
     (by decide) (by decide),
   rfl, rfl⟩

/-- C1, counterexample: under the schema with the single string column `name`, the record
whose `name` is a blank followed by the letter `a` satisfies the declared type, is written
without error as the rows `name` and `" a"`, and is read back as the record whose `name` is
the one-letter string `a`: the record read differs from the record written. -/
theorem write_read_roundtrip_counterexample :
    writeSession noFloat (some ⟨[⟨['n', 'a', 'm', 'e']⟩]⟩)
        (some [(['n', 'a', 'm', 'e'], ⟨ColumnType.TypeString⟩)])
        [[(['n', 'a', 'm', 'e'], Value.str [' ', 'a'])]]
      = some ([none, none, none], "name\n\" a\"\n".toList) ∧
    readSession noFloat "name\n\" a\"\n".toList (some ⟨[⟨['n', 'a', 'm', 'e']⟩]⟩)
        (some [(['n', 'a', 'm', 'e'], ⟨ColumnType.TypeString⟩)]) 2
      = some ((some ⟨[⟨['n', 'a', 'm', 'e']⟩]⟩,
          some [(['n', 'a', 'm', 'e'], ⟨ColumnType.TypeString⟩)], none),
        [(some [(['n', 'a', 'm', 'e'], Value.str ['a'])], none), (none, none)]) ∧
    Record.get [(['n', 'a', 'm', 'e'], Value.str ['a'])] ['n', 'a', 'm', 'e']
      ≠ Record.get [(['n', 'a', 'm', 'e'], Value.str [' ', 'a'])] ['n', 'a', 'm', 'e'] :=
  ⟨rfl, rfl, by decide⟩

/-! ## The write path: claims C4 and C5 -/

/-- C4: for every schema, `WriteHeader` hands the writer one row, the column names of the
version definition in declared order, and stores exactly that list as the emission order;
on a sink without error the row is appended to the text and no error is returned.  The row
does not depend on the column mapping, and a write session starts its text with that row
whatever the mapping and the records: two sessions with the same version definition
produce identical header rows. -/
theorem header_order_determinism (fc : FloatConv) (p : Plugin) (w : CsvWriter)
    (vd : VersionDefinition) (columns : Option ColumnMap) (hw : p.csvWriter = some w) :
    (∃ p', WriteHeader p (some vd) columns
        = some ((w.Write (vd.Definitions.map Definition.Column)).2.map PluginError.sink, p') ∧
      p'.columnOrder = vd.Definitions.map Definition.Column ∧
      p'.csvWriter = some (w.Write (vd.Definitions.map Definition.Column)).1 ∧
      (w.err = none →
        (w.Write (vd.Definitions.map Definition.Column)).2 = none ∧
        (w.Write (vd.Definitions.map Definition.Column)).1.out
          = w.out ++ encodeRecord (vd.Definitions.map Definition.Column))) ∧
    (∀ (columns1 columns2 : Option ColumnMap) (records1 records2 : List Record),
      ∃ errs1 errs2 body1 body2,
        writeSession fc (some vd) columns1 records1
          = some (errs1, encodeRecord (vd.Definitions.map Definition.Column) ++ body1) ∧
        writeSession fc (some vd) columns2 records2
          = some (errs2, encodeRecord (vd.Definitions.map Definition.Column) ++ body2)) := by
  constructor
  · refine ⟨_, WriteHeader_eq p w vd columns hw, rfl, rfl, ?_⟩
    intro he
    obtain ⟨out, err⟩ := w
    dsimp only at he
    subst he
    exact ⟨rfl, rfl⟩
  · intro columns1 columns2 records1 records2
    exact ⟨_, _, _, _, writeSession_ok fc vd columns1 records1,
      writeSession_ok fc vd columns2 records2⟩

/-- Witness of `header_order_determinism`: the fresh adapter and the schema with the
columns `id` and `name`; the header row is `id,name`. -/
theorem header_order_determinism_witness :
    New.csvWriter = some { out := [], err := none } ∧
    ((∃ p', WriteHeader New (some ⟨[⟨['i', 'd']⟩, ⟨['n', 'a', 'm', 'e']⟩]⟩) none
        = some (((CsvWriter.mk [] none).Write
            ((VersionDefinition.mk [⟨['i', 'd']⟩, ⟨['n', 'a', 'm', 'e']⟩]).Definitions.map
              Definition.Column)).2.map PluginError.sink, p') ∧
      p'.columnOrder = (VersionDefinition.mk [⟨['i', 'd']⟩, ⟨['n', 'a', 'm', 'e']⟩]).Definitions.map
          Definition.Column ∧
      p'.csvWriter = some ((CsvWriter.mk [] none).Write
          ((VersionDefinition.mk [⟨['i', 'd']⟩, ⟨['n', 'a', 'm', 'e']⟩]).Definitions.map
            Definition.Column)).1 ∧
      ((CsvWriter.mk [] none).err = none →
        ((CsvWriter.mk [] none).Write
          ((VersionDefinition.mk [⟨['i', 'd']⟩, ⟨['n', 'a', 'm', 'e']⟩]).Definitions.map
            Definition.Column)).2 = none ∧
        ((CsvWriter.mk [] none).Write
          ((VersionDefinition.mk [⟨['i', 'd']⟩, ⟨['n', 'a', 'm', 'e']⟩]).Definitions.map
            Definition.Column)).1.out
          = (CsvWriter.mk [] none).out ++ encodeRecord
            ((VersionDefinition.mk [⟨['i', 'd']⟩, ⟨['n', 'a', 'm', 'e']⟩]).Definitions.map
              Definition.Column))) ∧
    (∀ (columns1 columns2 : Option ColumnMap) (records1 records2 : List Record),
      ∃ errs1 errs2 body1 body2,
        writeSession noFloat (some ⟨[⟨['i', 'd']⟩, ⟨['n', 'a', 'm', 'e']⟩]⟩) columns1 records1
          = some (errs1, encodeRecord
            ((VersionDefinition.mk [⟨['i', 'd']⟩, ⟨['n', 'a', 'm', 'e']⟩]).Definitions.map
              Definition.Column) ++ body1) ∧
        writeSession noFloat (some ⟨[⟨['i', 'd']⟩, ⟨['n', 'a', 'm', 'e']⟩]⟩) columns2 records2
          = some (errs2, encodeRecord
            ((VersionDefinition.mk [⟨['i', 'd']⟩, ⟨['n', 'a', 'm', 'e']⟩]).Definitions.map
              Definition.Column) ++ body2))) ∧
    encodeRecord ((VersionDefinition.mk [⟨['i', 'd']⟩, ⟨['n', 'a', 'm', 'e']⟩]).Definitions.map
        Definition.Column) = "id,name\n".toList :=
  ⟨rfl, header_order_determinism noFloat New { out := [], err := none }
    ⟨[⟨['i', 'd']⟩, ⟨['n', 'a', 'm', 'e']⟩]⟩ none rfl, rfl⟩

/-- C5: for every record, whatever keys it holds, `WriteRecord` builds a row with as many
cells as the stored column order has columns, cell `i` being the `%v` rendering of the
record's value for column `i`; it leaves the stored column order unchanged; the error it
returns is the error of the sink and nothing else, so it never fails because a key is
missing; and the cell of every missing column is the fixed text `<nil>`. -/
theorem missing_key_stability (fc : FloatConv) (p : Plugin) (w : CsvWriter) (record : Record)
    (hw : p.csvWriter = some w) :
    ∃ p', WriteRecord fc p record = some (w.err.map PluginError.sink, p') ∧
      p'.columnOrder = p.columnOrder ∧
      p'.csvWriter = some (w.Write (buildRow fc p.columnOrder record)).1 ∧
      (w.err = none → (w.Write (buildRow fc p.columnOrder record)).1.out
        = w.out ++ encodeRecord (buildRow fc p.columnOrder record)) ∧
      (buildRow fc p.columnOrder record).length = p.columnOrder.length ∧
      (∀ i colName, p.columnOrder.get? i = some colName →
        (buildRow fc p.columnOrder record).get? i = some (sprintV fc (record.get colName))) ∧
      (∀ i colName, p.columnOrder.get? i = some colName → colName ∉ record.keys →
        (buildRow fc p.columnOrder record).get? i = some ['<', 'n', 'i', 'l', '>']) := by
  refine ⟨{ p with csvWriter := some (w.Write (buildRow fc p.columnOrder record)).1 },
    ?_, rfl, rfl, ?_, ?_, ?_, ?_⟩
  · rw [WriteRecord_eq fc p w record hw, CsvWriter.Write_snd]
  · intro he
    obtain ⟨out, err⟩ := w
    dsimp only at he
    subst he
    rfl
  · simp [buildRow]
  · intro i colName hi
    rw [buildRow_get?, hi]
    rfl
  · intro i colName hi hk
    rw [buildRow_get?, hi, Option.map_some', Record.get_of_not_mem_keys record colName hk]
    rfl

/-- Witness of `missing_key_stability`: after `WriteHeader` for the columns `id` and `name`,
a record that holds `name` only is written as the row `<nil>,Alice`. -/
theorem missing_key_stability_witness :
    (Plugin.mk none (some ⟨"id,name\n".toList, none⟩) [['i', 'd'], ['n', 'a', 'm', 'e']]
        none none [] 0).csvWriter = some ⟨"id,name\n".toList, none⟩ ∧
    (∃ p', WriteRecord noFloat
        (Plugin.mk none (some ⟨"id,name\n".toList, none⟩) [['i', 'd'], ['n', 'a', 'm', 'e']]
          none none [] 0)
        [(['n', 'a', 'm', 'e'], Value.str "Alice".toList)]
        = some ((CsvWriter.mk "id,name\n".toList none).err.map PluginError.sink, p') ∧
      p'.columnOrder = [['i', 'd'], ['n', 'a', 'm', 'e']] ∧
      p'.csvWriter = some ((CsvWriter.mk "id,name\n".toList none).Write
        (buildRow noFloat [['i', 'd'], ['n', 'a', 'm', 'e']]
          [(['n', 'a', 'm', 'e'], Value.str "Alice".toList)])).1 ∧
      ((CsvWriter.mk "id,name\n".toList none).err = none →
        ((CsvWriter.mk "id,name\n".toList none).Write
          (buildRow noFloat [['i', 'd'], ['n', 'a', 'm', 'e']]
            [(['n', 'a', 'm', 'e'], Value.str "Alice".toList)])).1.out
        = "id,name\n".toList ++ encodeRecord
          (buildRow noFloat [['i', 'd'], ['n', 'a', 'm', 'e']]
            [(['n', 'a', 'm', 'e'], Value.str "Alice".toList)])) ∧
      (buildRow noFloat [['i', 'd'], ['n', 'a', 'm', 'e']]
        [(['n', 'a', 'm', 'e'], Value.str "Alice".toList)]).length = 2 ∧
      (∀ i colName, [['i', 'd'], ['n', 'a', 'm', 'e']].get? i = some colName →
        (buildRow noFloat [['i', 'd'], ['n', 'a', 'm', 'e']]
          [(['n', 'a', 'm', 'e'], Value.str "Alice".toList)]).get? i
        = some (sprintV noFloat
          (Record.get [(['n', 'a', 'm', 'e'], Value.str "Alice".toList)] colName))) ∧
      (∀ i colName, [['i', 'd'], ['n', 'a', 'm', 'e']].get? i = some colName →
        colName ∉ Record.keys [(['n', 'a', 'm', 'e'], Value.str "Alice".toList)] →
        (buildRow noFloat [['i', 'd'], ['n', 'a', 'm', 'e']]
          [(['n', 'a', 'm', 'e'], Value.str "Alice".toList)]).get? i
        = some ['<', 'n', 'i', 'l', '>'])) ∧
    encodeRecord (buildRow noFloat [['i', 'd'], ['n', 'a', 'm', 'e']]
        [(['n', 'a', 'm', 'e'], Value.str "Alice".toList)]) = "<nil>,Alice\n".toList :=
  ⟨rfl, missing_key_stability noFloat
    (Plugin.mk none (some ⟨"id,name\n".toList, none⟩) [['i', 'd'], ['n', 'a', 'm', 'e']]
      none none [] 0)
    ⟨"id,name\n".toList, none⟩ [(['n', 'a', 'm', 'e'], Value.str "Alice".toList)] rfl, rfl⟩

/-! ## The read path: claims C6 and C7 -/

/-- What `ReadRecord` returns once the row the reader yields is known. -/
theorem ReadRecord_of_row (fc : FloatConv) (p : Plugin) (rd rd1 : CsvReader) (row : List Str)
    (hr : p.csvReader = some rd) (hread : rd.Read = some ((row, none), rd1)) :
    ReadRecord fc p =
      match readFields fc p.headers p.columns 0 row [] with
      | (some record, none) =>
        some ((some record, none), { p with csvReader := some rd1, index := p.index + 1 })
      | (_, e) => some ((none, e), { p with csvReader := some rd1 }) := by
  unfold ReadRecord
  rw [hr]
  dsimp only
  rw [hread]

/-- C6, the code at the failing inputs: after `ReadHeader` on a reader built by
`NewReader`, a data row with fewer fields than the header (header `a,b`, row `1`) and a
data row with more fields than the header (header `a`, row `1,2`) both make `ReadRecord`
return no record and the record-read error of the CSV reader, wrong number of fields; the
loop of `ReadRecord` alone, given the same headers and rows, returns a record for both. -/
theorem ragged_row_rejected :
    readSession noFloat "a,b\n1\n".toList none none 1
      = some ((none, none, none),
          [(none, some (PluginError.recordRead CsvError.ErrFieldCount))]) ∧
    readSession noFloat "a\n1,2\n".toList none none 1
      = some ((none, none, none),
          [(none, some (PluginError.recordRead CsvError.ErrFieldCount))]) ∧
    readFields noFloat [['a'], ['b']] none 0 [['1']] [] = (some [(['a'], Value.str ['1'])], none) ∧
    readFields noFloat [['a']] none 0 [['1'], ['2']] []
      = (some [(['a'], Value.str ['1'])], none) :=
  ⟨rfl, rfl, rfl, rfl⟩

/-- C7, as the code has it: when the reader yields a row without error, every field at a
position whose header name has no descriptor is stored under that name as a string equal
to the field text exactly as read, white space included (the field at the last position
that carries the name); a coercion error of `ReadRecord` always names a column that has a
descriptor, so no such field makes the call fail; and when no populated position has a
descriptor, as when `SetSchema` was never called, the call succeeds. -/
theorem unmapped_field_stored_raw (fc : FloatConv) (p : Plugin) (rd rd1 : CsvReader)
    (row : List Str) (hr : p.csvReader = some rd)
    (hread : rd.Read = some ((row, none), rd1)) :
    (∀ rec p', ReadRecord fc p = some ((some rec, none), p') →
      ∀ i k value, row.get? i = some value → p.headers.get? i = some k →
        lookupColumn p.columns k = none →
        (∀ j, i < j → j < row.length → p.headers.get? j ≠ some k) →
        rec.get k = Value.str value) ∧
    (∀ res k e p', ReadRecord fc p = some ((res, some (PluginError.parseColumn k e)), p') →
      ∃ d, lookupColumn p.columns k = some d) ∧
    ((∀ i k, i < row.length → p.headers.get? i = some k → lookupColumn p.columns k = none) →
      ∃ rec, ReadRecord fc p
        = some ((some rec, none), { p with csvReader := some rd1, index := p.index + 1 })) := by
  rw [ReadRecord_of_row fc p rd rd1 row hr hread]
  refine ⟨?_, ?_, ?_⟩
  · intro rec p' h i k value hi hk hl hlast
    rcases readFields_result fc p.headers p.columns row 0 [] with ⟨rec', h'⟩ | ⟨c, e, d, h', _⟩
    · rw [h'] at h
      dsimp only at h
      have hrec : rec' = rec := by
        have := (Prod.mk.inj (Option.some.inj h)).1
        exact Option.some.inj (Prod.mk.inj this).1
      subst hrec
      obtain ⟨_, _, s3⟩ := readFields_spec fc p.headers p.columns row 0 [] rec' h' k
      rw [s3 i value hi (by rw [Nat.zero_add]; exact hk)
        (fun j h1 h2 => by rw [Nat.zero_add]; exact hlast j h1 h2)]
      unfold cellValue
      rw [hl]
    · rw [h'] at h
      dsimp only at h
      have := (Prod.mk.inj (Option.some.inj h)).1
      cases (Prod.mk.inj this).1
  · intro res k e p' h
    rcases readFields_result fc p.headers p.columns row 0 [] with ⟨rec', h'⟩ | ⟨c, e', d, h', hd⟩
    · rw [h'] at h
      dsimp only at h
      have := (Prod.mk.inj (Option.some.inj h)).1
      cases (Prod.mk.inj this).2
    · rw [h'] at h
      dsimp only at h
      have := (Prod.mk.inj (Prod.mk.inj (Option.some.inj h)).1).2
      have hc : c = k := by
        have := Option.some.inj this
        injection this
      rw [← hc]
      exact ⟨d, hd⟩
  · intro hno
    obtain ⟨rec, hrec⟩ := readFields_ok fc p.headers p.columns row 0 []
      (by
        intro j value colName d hj hh hd
        rw [Nat.zero_add] at hh
        have hlt : j < row.length := by
          by_contra hc
          have : row.get? j = none := List.get?_eq_none.2 (by omega)
          rw [this] at hj
          cases hj
        rw [hno j colName hlt hh] at hd
        cases hd)
    exact ⟨rec, by rw [hrec]⟩

/-- Witness of `unmapped_field_stored_raw`: the adapter that has read the header `a` and
whose source holds the row of the padded field ` x `, with no schema set; the record read
holds the padded text. -/
theorem unmapped_field_stored_raw_witness :
    ((Plugin.mk (some ⟨" x \n".toList, 1⟩) none [] none none [['a']] 0).csvReader
        = some ⟨" x \n".toList, 1⟩ ∧
      (CsvReader.mk " x \n".toList 1).Read = some (([" x ".toList], none), ⟨[], 1⟩)) ∧
    ((∀ rec p', ReadRecord noFloat (Plugin.mk (some ⟨" x \n".toList, 1⟩) none [] none none
          [['a']] 0) = some ((some rec, none), p') →
      ∀ i k value, [" x ".toList].get? i = some value → [['a']].get? i = some k →
        lookupColumn none k = none →
        (∀ j, i < j → j < [" x ".toList].length → [['a']].get? j ≠ some k) →
        rec.get k = Value.str value) ∧
    (∀ res k e p', ReadRecord noFloat (Plugin.mk (some ⟨" x \n".toList, 1⟩) none [] none none
          [['a']] 0) = some ((res, some (PluginError.parseColumn k e)), p') →
      ∃ d, lookupColumn none k = some d) ∧
    ((∀ i k, i < [" x ".toList].length → [['a']].get? i = some k → lookupColumn none k = none) →
      ∃ rec, ReadRecord noFloat (Plugin.mk (some ⟨" x \n".toList, 1⟩) none [] none none
          [['a']] 0)
        = some ((some rec, none),
          Plugin.mk (some ⟨[], 1⟩) none [] none none [['a']] (0 + 1)))) ∧
    ReadRecord noFloat (Plugin.mk (some ⟨" x \n".toList, 1⟩) none [] none none [['a']] 0)
      = some ((some [(['a'], Value.str [' ', 'x', ' '])], none),
          Plugin.mk (some ⟨[], 1⟩) none [] none none [['a']] 1) :=
  ⟨⟨rfl, rfl⟩,
    unmapped_field_stored_raw noFloat
      (Plugin.mk (some ⟨" x \n".toList, 1⟩) none [] none none [['a']] 0)
      ⟨" x \n".toList, 1⟩ ⟨[], 1⟩ [" x ".toList] rfl rfl,
    rfl⟩

/-- C7, counterexample: with no schema set, the header `a` and the row of the padded field
` x ` are read as the record whose `a` is the padded text, blanks included, which is not
the trimmed text `x`. -/
theorem unmapped_field_counterexample :
    readSession noFloat "a\n x \n".toList none none 1
      = some ((none, none, none), [(some [(['a'], Value.str [' ', 'x', ' '])], none)]) ∧
    trimSpace [' ', 'x', ' '] = ['x'] ∧
    Value.str [' ', 'x', ' '] ≠ Value.str (trimSpace [' ', 'x', ' ']) :=
  ⟨rfl, rfl, by decide⟩

/-! ## Lemmas on the end of input -/

theorem readSlice_eof (src : Str) (h : (readSlice src).2.1 = true) :
    (readSlice src).2.2 = [] := by
  induction src with
  | nil => rfl
  | cons c cs ih =>
    by_cases hc : c = '\n'
    · subst hc
      rw [readSlice_newline] at h
      cases h
    · rw [readSlice_cons _ _ hc] at h ⊢
      exact ih h

theorem readLine_eof (src : Str) (h : (readLine src).2.1 = true) :
    (readLine src).2.2 = [] := by
  have h2 : (readLine src).2.2 = (readSlice src).2.2 := rfl
  rw [h2]
  apply readSlice_eof
  have h1 : (readLine src).2.1
      = (if (decide ((readSlice src).1 ≠ []) && (readSlice src).2.1) = true then false
         else (readSlice src).2.1) := rfl
  rw [h1] at h
  split_ifs at h
  exact h

theorem nextLine_eof (fuel : Nat) : ∀ (src line src1 : Str),
    nextLine fuel src = some (line, true, src1) → src1 = [] := by
  induction fuel with
  | zero => intro src line src1 h; cases h
  | succ fuel ih =>
    intro src line src1 h
    rw [nextLine_succ] at h
    split_ifs at h with hc
    · exact ih _ _ _ h
    · have h1 := Option.some.inj h
      have e1 : (readLine src).2.1 = true := by rw [h1]
      have e2 : (readLine src).2.2 = src1 := by rw [h1]
      rw [← e2]
      exact readLine_eof src e1

theorem parseRecord_err_ne_EOF (fuel : Nat) : ∀ (mode : Option Str) (line src : Str)
    (dst : List Str) (r : Parsed), parseRecord fuel mode line src dst = some r →
    r.err ≠ some CsvError.EOF := by
  induction fuel with
  | zero => intro mode line src dst r h; cases h
  | succ fuel ih =>
    intro mode line src dst r h
    cases mode with
    | none =>
      rw [parseRecord_field] at h
      split_ifs at h
      all_goals first
        | exact ih _ _ _ _ _ h
        | (cases h; exact fun hh => by cases hh)
    | some buf =>
      rw [parseRecord_quoted] at h
      split_ifs at h
      all_goals first
        | exact ih _ _ _ _ _ h
        | (cases h; exact fun hh => by cases hh)

/-- The shape of every result of `Read`: either the end of input, with no record and the
source exhausted, or the outcome of the field loop, checked against `FieldsPerRecord`. -/
theorem Read_cases (rd : CsvReader) (row : List Str) (err : Option CsvError)
    (rd1 : CsvReader) (h : rd.Read = some ((row, err), rd1)) :
    (err = some CsvError.EOF ∧ row = [] ∧ rd1 = { rd with src := [] }) ∨
    (err ≠ some CsvError.EOF ∧
      rd1.FieldsPerRecord = (if rd.FieldsPerRecord = 0 then (row.length : Int)
        else rd.FieldsPerRecord)) := by
  unfold CsvReader.Read at h
  cases hn : nextLine (rd.src.length + 1) rd.src with
  | none => rw [hn] at h; cases h
  | some t =>
    obtain ⟨line, eof, src1⟩ := t
    rw [hn] at h
    dsimp only at h
    cases eof with
    | true =>
      have hs := nextLine_eof _ _ _ _ hn
      subst hs
      simp only [↓reduceIte] at h
      have h1 := Option.some.inj h
      left
      refine ⟨?_, ?_, ?_⟩
      · exact ((Prod.mk.inj (Prod.mk.inj h1).1).2).symm
      · exact ((Prod.mk.inj (Prod.mk.inj h1).1).1).symm
      · exact ((Prod.mk.inj h1).2).symm
    | false =>
      simp only [Bool.false_eq_true, ↓reduceIte] at h
      cases hp : parseRecord (rd.src.length + 1) none line src1 [] with
      | none => rw [hp] at h; cases h
      | some pr =>
        have hne := parseRecord_err_ne_EOF _ _ _ _ _ _ hp
        rw [hp] at h
        dsimp only at h
        right
        by_cases hpos : rd.FieldsPerRecord > 0
        · have h0 : rd.FieldsPerRecord ≠ 0 := by omega
          rw [if_pos hpos] at h
          rw [if_neg h0]
          split_ifs at h
          · have h1 := Option.some.inj h
            refine ⟨?_, ?_⟩
            · rw [← (Prod.mk.inj (Prod.mk.inj h1).1).2]
              exact fun hh => by cases hh
            · rw [← (Prod.mk.inj h1).2]
          · have h1 := Option.some.inj h
            refine ⟨?_, ?_⟩
            · rw [← (Prod.mk.inj (Prod.mk.inj h1).1).2]
              exact hne
            · rw [← (Prod.mk.inj h1).2]
        · rw [if_neg hpos] at h
          by_cases h0 : rd.FieldsPerRecord = 0
          · rw [if_pos h0] at h
            rw [if_pos h0]
            have h1 := Option.some.inj h
            refine ⟨?_, ?_⟩
            · rw [← (Prod.mk.inj (Prod.mk.inj h1).1).2]
              exact hne
            · rw [← (Prod.mk.inj h1).2, ← (Prod.mk.inj (Prod.mk.inj h1).1).1]
          · rw [if_neg h0] at h
            rw [if_neg h0]
            have h1 := Option.some.inj h
            refine ⟨?_, ?_⟩
            · rw [← (Prod.mk.inj (Prod.mk.inj h1).1).2]
              exact hne
            · rw [← (Prod.mk.inj h1).2]

theorem readRecords_exhausted (fc : FloatConv) (n : Nat) (p : Plugin) (k : Int)
    (hr : p.csvReader = some { src := [], FieldsPerRecord := k }) :
    readRecords fc n p = some (List.replicate n (none, none), p) := by
  induction n with
  | zero => rfl
  | succ n ih =>
    rw [readRecords_succ, ReadRecord_exhausted fc p k hr]
    dsimp only
    rw [ih]
    rfl

/-! ## Lemmas on coercion failures -/

theorem parseValue_reject_numeric (fc : FloatConv) (value : Str) (d : ColumnDefinition)
    (h : (parseValue fc value d).2 ≠ none) :
    d.Type_ = ColumnType.TypeInt ∨ d.Type_ = ColumnType.TypeUInt ∨
      d.Type_ = ColumnType.TypeFloat := by
  by_contra hc
  rw [not_or, not_or] at hc
  rw [parseValue_string fc value d hc] at h
  exact h rfl

/-- When some field that has a header and a descriptor is rejected by `parseValue`, the
loop returns no record and the coercion error of the leftmost such field, under the name of
its column. -/
theorem readFields_first_reject (fc : FloatConv) (headers : List Str)
    (columns : Option ColumnMap) (row : List Str) : ∀ (i : Nat) (record : Record),
    (∃ j value k d, row.get? j = some value ∧ headers.get? (i + j) = some k ∧
      lookupColumn columns k = some d ∧ (parseValue fc value d).2 ≠ none) →
    ∃ j value k d e, row.get? j = some value ∧ headers.get? (i + j) = some k ∧
      lookupColumn columns k = some d ∧ (parseValue fc value d).2 = some e ∧
      (∀ j' v' k' d', j' < j → row.get? j' = some v' → headers.get? (i + j') = some k' →
        lookupColumn columns k' = some d' → (parseValue fc v' d').2 = none) ∧
      readFields fc headers columns i row record
        = (none, some (PluginError.parseColumn k e)) := by
  induction row with
  | nil =>
    intro i record h
    obtain ⟨j, value, k, d, h1, _⟩ := h
    cases h1
  | cons value row ih =>
    intro i record h
    obtain ⟨j, vj, kj, dj, h1, h2, h3, h4⟩ := h
    cases hh : headers.get? i with
    | none =>
      have : headers.get? (i + j) = none := by
        rw [List.get?_eq_none] at hh ⊢
        omega
      rw [this] at h2
      cases h2
    | some colName =>
      have hrej : ∀ (d0 : ColumnDefinition) (e0 : NumError),
          lookupColumn columns colName = some d0 → (parseValue fc value d0).2 = some e0 →
          ∃ j value' k d e, (value :: row).get? j = some value' ∧
            headers.get? (i + j) = some k ∧ lookupColumn columns k = some d ∧
            (parseValue fc value' d).2 = some e ∧
            (∀ j' v' k' d', j' < j → (value :: row).get? j' = some v' →
              headers.get? (i + j') = some k' → lookupColumn columns k' = some d' →
              (parseValue fc v' d').2 = none) ∧
            readFields fc headers columns i (value :: row) record
              = (none, some (PluginError.parseColumn k e)) := by
        intro d0 e0 hl he
        refine ⟨0, value, colName, d0, e0, rfl, hh, hl, he,
          fun j' _ _ _ hlt => absurd hlt (Nat.not_lt_zero _), ?_⟩
        rw [readFields_cons, hh]
        dsimp only
        rw [hl]
        dsimp only
        rw [he]
      have hacc : (∀ d0, lookupColumn columns colName = some d0 →
          (parseValue fc value d0).2 = none) →
          ∃ j value' k d e, (value :: row).get? j = some value' ∧
            headers.get? (i + j) = some k ∧ lookupColumn columns k = some d ∧
            (parseValue fc value' d).2 = some e ∧
            (∀ j' v' k' d', j' < j → (value :: row).get? j' = some v' →
              headers.get? (i + j') = some k' → lookupColumn columns k' = some d' →
              (parseValue fc v' d').2 = none) ∧
            readFields fc headers columns i (value :: row) record
              = (none, some (PluginError.parseColumn k e)) := by
        intro hok
        have hj : j ≠ 0 := by
          intro h0
          subst h0
          have hv : value = vj := Option.some.inj h1
          subst hv
          rw [Nat.add_zero, hh] at h2
          have hk : colName = kj := Option.some.inj h2
          subst hk
          exact h4 (hok dj h3)
        obtain ⟨m, rfl⟩ : ∃ m, j = m + 1 := ⟨j - 1, by omega⟩
        have shift : ∀ n, i + 1 + n = i + (n + 1) := fun n => by omega
        obtain ⟨j0, v0, k0, d0, e0, g1, g2, g3, g4, g5, g6⟩ := ih (i + 1)
          (record.set colName (cellValue fc columns colName value))
          ⟨m, vj, kj, dj, h1, by rw [shift]; exact h2, h3, h4⟩
        refine ⟨j0 + 1, v0, k0, d0, e0, g1, by rw [← shift]; exact g2, g3, g4, ?_, ?_⟩
        · intro j' v' k' d' hlt hv' hk' hd'
          cases j' with
          | zero =>
            have hv : value = v' := Option.some.inj hv'
            subst hv
            rw [Nat.add_zero, hh] at hk'
            have hk : colName = k' := Option.some.inj hk'
            subst hk
            exact hok d' hd'
          | succ n =>
            exact g5 n v' k' d' (by omega) hv' (by rw [shift]; exact hk') hd'
        · rw [readFields_step fc headers columns i value row record colName hh hok]
          exact g6
      cases hl : lookupColumn columns colName with
      | none => exact hacc (fun d0 hd0 => by rw [hl] at hd0; cases hd0)
      | some d0 =>
        cases he : (parseValue fc value d0).2 with
        | none =>
          exact hacc (fun d1 hd1 => by
            rw [hl] at hd1
            have := Option.some.inj hd1
            subst this
            exact he)
        | some e0 => exact hrej d0 e0 hl he

theorem readFields_no_headers (fc : FloatConv) (columns : Option ColumnMap) (row : List Str)
    (i : Nat) (record : Record) :
    readFields fc [] columns i row record = (some record, none) := by
  cases row with
  | nil => exact readFields_nil _ _ _ _ _
  | cons v row => rw [readFields_cons]; rfl

/-- The text `<nil>`, which `WriteRecord` writes for a missing value, is rejected under a
signed-integer and under an unsigned-integer descriptor. -/
theorem parseValue_nil_text (fc : FloatConv) :
    (parseValue fc ['<', 'n', 'i', 'l', '>'] ⟨ColumnType.TypeInt⟩).2
      = some NumError.errSyntax ∧
    (parseValue fc ['<', 'n', 'i', 'l', '>'] ⟨ColumnType.TypeUInt⟩).2
      = some NumError.errSyntax ∧
    (parseValue fc ['<', 'n', 'i', 'l', '>'] ⟨ColumnType.TypeFloat⟩).2
      = (fc.parse32 ['<', 'n', 'i', 'l', '>']).2 :=
  ⟨rfl, rfl, rfl⟩

/-! ## Claims C15, C17 and C18 -/

/-- C15: for every record and every column of the stored order, the cell `WriteRecord`
builds is, for an `int32` or `uint32` value, its base-10 numeral without leading zeros,
with a single minus sign before it for a negative value, no plus sign, and the single
digit zero for zero; for a string value it is the string itself, unchanged. -/
theorem write_formatting (fc : FloatConv) (p : Plugin) (w : CsvWriter) (record : Record)
    (i : Nat) (colName : Str) (hw : p.csvWriter = some w)
    (hi : p.columnOrder.get? i = some colName) :
    (∃ e p', WriteRecord fc p record = some (e, p') ∧
      p'.csvWriter = some (w.Write (buildRow fc p.columnOrder record)).1) ∧
    (∀ v, Record.get record colName = Value.int32 v →
      ∃ s, isCanonicalNumeral s v.natAbs = true ∧
        (buildRow fc p.columnOrder record).get? i = some (if v < 0 then '-' :: s else s) ∧
        (v = 0 → s = ['0'])) ∧
    (∀ u, Record.get record colName = Value.uint32 u →
      ∃ s, isCanonicalNumeral s u = true ∧
        (buildRow fc p.columnOrder record).get? i = some s ∧ (u = 0 → s = ['0'])) ∧
    (∀ s, Record.get record colName = Value.str s →
      (buildRow fc p.columnOrder record).get? i = some s) := by
  refine ⟨⟨_, _, WriteRecord_eq fc p w record hw, rfl⟩, ?_, ?_, ?_⟩
  · intro v hv
    rw [buildRow_get?, hi, Option.map_some', hv]
    show ∃ s, _ ∧ some (fmtInt v) = _ ∧ _
    unfold fmtInt
    by_cases hneg : v < 0
    · refine ⟨fmtUint (-v).toNat, ?_, by rw [if_pos hneg, if_pos hneg], fun h0 => by omega⟩
      have : (-v).toNat = v.natAbs := by omega
      rw [this]
      exact fmtUint_canonical _
    · refine ⟨fmtUint v.toNat, ?_, by rw [if_neg hneg, if_neg hneg], fun h0 => by
        rw [h0]; rfl⟩
      have : v.toNat = v.natAbs := by omega
      rw [this]
      exact fmtUint_canonical _
  · intro u hu
    rw [buildRow_get?, hi, Option.map_some', hu]
    exact ⟨fmtUint u, fmtUint_canonical u, rfl, fun h0 => by rw [h0]; rfl⟩
  · intro s hs
    rw [buildRow_get?, hi, Option.map_some', hs]
    rfl

/-- Witness of `write_formatting`: the record with `id` minus seven and `name` Alice under
the stored order `id`, `name`; the cell of `id` is the text `-7`. -/
theorem write_formatting_witness :
    ((Plugin.mk none (some ⟨[], none⟩) [['i', 'd'], ['n', 'a', 'm', 'e']]
        none none [] 0).csvWriter = some ⟨[], none⟩ ∧
      [['i', 'd'], ['n', 'a', 'm', 'e']].get? 0 = some ['i', 'd']) ∧
    ((∃ e p', WriteRecord noFloat
        (Plugin.mk none (some ⟨[], none⟩) [['i', 'd'], ['n', 'a', 'm', 'e']] none none [] 0)
        [(['i', 'd'], Value.int32 (-7)), (['n', 'a', 'm', 'e'], Value.str "Alice".toList)]
        = some (e, p') ∧
      p'.csvWriter = some ((CsvWriter.mk [] none).Write
        (buildRow noFloat [['i', 'd'], ['n', 'a', 'm', 'e']]
          [(['i', 'd'], Value.int32 (-7)),
           (['n', 'a', 'm', 'e'], Value.str "Alice".toList)])).1) ∧
    (∀ v, Record.get [(['i', 'd'], Value.int32 (-7)),
          (['n', 'a', 'm', 'e'], Value.str "Alice".toList)] ['i', 'd'] = Value.int32 v →
      ∃ s, isCanonicalNumeral s v.natAbs = true ∧
        (buildRow noFloat [['i', 'd'], ['n', 'a', 'm', 'e']]
          [(['i', 'd'], Value.int32 (-7)),
           (['n', 'a', 'm', 'e'], Value.str "Alice".toList)]).get? 0
          = some (if v < 0 then '-' :: s else s) ∧
        (v = 0 → s = ['0'])) ∧
    (∀ u, Record.get [(['i', 'd'], Value.int32 (-7)),
          (['n', 'a', 'm', 'e'], Value.str "Alice".toList)] ['i', 'd'] = Value.uint32 u →
      ∃ s, isCanonicalNumeral s u = true ∧
        (buildRow noFloat [['i', 'd'], ['n', 'a', 'm', 'e']]
          [(['i', 'd'], Value.int32 (-7)),
           (['n', 'a', 'm', 'e'], Value.str "Alice".toList)]).get? 0 = some s ∧
        (u = 0 → s = ['0'])) ∧
    (∀ s, Record.get [(['i', 'd'], Value.int32 (-7)),
          (['n', 'a', 'm', 'e'], Value.str "Alice".toList)] ['i', 'd'] = Value.str s →
      (buildRow noFloat [['i', 'd'], ['n', 'a', 'm', 'e']]
        [(['i', 'd'], Value.int32 (-7)),
         (['n', 'a', 'm', 'e'], Value.str "Alice".toList)]).get? 0 = some s)) ∧
    buildRow noFloat [['i', 'd'], ['n', 'a', 'm', 'e']]
        [(['i', 'd'], Value.int32 (-7)), (['n', 'a', 'm', 'e'], Value.str "Alice".toList)]
      = ["-7".toList, "Alice".toList] :=
  ⟨⟨rfl, rfl⟩,
    write_formatting noFloat
      (Plugin.mk none (some ⟨[], none⟩) [['i', 'd'], ['n', 'a', 'm', 'e']] none none [] 0)
      ⟨[], none⟩
      [(['i', 'd'], Value.int32 (-7)), (['n', 'a', 'm', 'e'], Value.str "Alice".toList)]
      0 ['i', 'd'] rfl rfl,
    rfl⟩

/-- C17: for every stored column order and every two records that hold equal values for
every column of that order, a key absent from a record counting as the `nil` value,
`WriteRecord` builds the same row and gives the same result, whatever other keys the
records hold; and the row built for a record is the row built for the record with every
key outside the column order removed, so no such key reaches the output. -/
theorem write_ignores_foreign_keys (fc : FloatConv) (p : Plugin) (r1 r2 : Record)
    (h : ∀ c ∈ p.columnOrder, Record.get r1 c = Record.get r2 c) :
    buildRow fc p.columnOrder r1 = buildRow fc p.columnOrder r2 ∧
    WriteRecord fc p r1 = WriteRecord fc p r2 ∧
    (∀ r : Record,
      buildRow fc p.columnOrder (r.filter (fun e => decide (e.1 ∈ p.columnOrder)))
        = buildRow fc p.columnOrder r) := by
  have hrow := buildRow_congr fc p.columnOrder r1 r2 h
  refine ⟨hrow, ?_, ?_⟩
  · unfold WriteRecord
    rw [hrow]
  · intro r
    exact buildRow_congr fc p.columnOrder _ r
      (fun c hc => Record.get_filter_mem r p.columnOrder c hc)

/-- Witness of `write_ignores_foreign_keys`: under the stored order `id`, `name`, a record
and the same record with the further key `x` are written as the same row. -/
theorem write_ignores_foreign_keys_witness :
    (∀ c ∈ (Plugin.mk none (some ⟨[], none⟩) [['i', 'd'], ['n', 'a', 'm', 'e']]
          none none [] 0).columnOrder,
      Record.get [(['i', 'd'], Value.uint32 1), (['n', 'a', 'm', 'e'], Value.str ['A'])] c
        = Record.get [(['x'], Value.str ['s']), (['i', 'd'], Value.uint32 1),
            (['n', 'a', 'm', 'e'], Value.str ['A'])] c) ∧
    (buildRow noFloat [['i', 'd'], ['n', 'a', 'm', 'e']]
        [(['i', 'd'], Value.uint32 1), (['n', 'a', 'm', 'e'], Value.str ['A'])]
      = buildRow noFloat [['i', 'd'], ['n', 'a', 'm', 'e']]
        [(['x'], Value.str ['s']), (['i', 'd'], Value.uint32 1),
          (['n', 'a', 'm', 'e'], Value.str ['A'])] ∧
    WriteRecord noFloat
        (Plugin.mk none (some ⟨[], none⟩) [['i', 'd'], ['n', 'a', 'm', 'e']] none none [] 0)
        [(['i', 'd'], Value.uint32 1), (['n', 'a', 'm', 'e'], Value.str ['A'])]
      = WriteRecord noFloat
        (Plugin.mk none (some ⟨[], none⟩) [['i', 'd'], ['n', 'a', 'm', 'e']] none none [] 0)
        [(['x'], Value.str ['s']), (['i', 'd'], Value.uint32 1),
          (['n', 'a', 'm', 'e'], Value.str ['A'])] ∧
    (∀ r : Record,
      buildRow noFloat [['i', 'd'], ['n', 'a', 'm', 'e']]
          (r.filter (fun e => decide (e.1 ∈ [['i', 'd'], ['n', 'a', 'm', 'e']])))
        = buildRow noFloat [['i', 'd'], ['n', 'a', 'm', 'e']] r)) :=
  ⟨by decide,
    write_ignores_foreign_keys noFloat
      (Plugin.mk none (some ⟨[], none⟩) [['i', 'd'], ['n', 'a', 'm', 'e']] none none [] 0)
      [(['i', 'd'], Value.uint32 1), (['n', 'a', 'm', 'e'], Value.str ['A'])]
      [(['x'], Value.str ['s']), (['i', 'd'], Value.uint32 1),
        (['n', 'a', 'm', 'e'], Value.str ['A'])]
      (by decide)⟩

/-- C18: when the reader yields a row and `ReadRecord` succeeds on it, the keys of the
returned record are exactly the header names at the positions below the lesser of the
header length and the row length; the keys are pairwise distinct, so the record has at
most that many entries; and a name that occurs at several of those positions holds the
value stored for the field at the last such position. -/
theorem read_record_key_set (fc : FloatConv) (p p' : Plugin) (rd rd1 : CsvReader)
    (row : List Str) (rec : Record) (hr : p.csvReader = some rd)
    (hread : rd.Read = some ((row, none), rd1))
    (hok : ReadRecord fc p = some ((some rec, none), p')) :
    (∀ k, k ∈ Record.keys rec ↔
      ∃ j, j < min p.headers.length row.length ∧ p.headers.get? j = some k) ∧
    (Record.keys rec).Nodup ∧
    rec.length ≤ min p.headers.length row.length ∧
    (∀ j k value, row.get? j = some value → p.headers.get? j = some k →
      (∀ j', j < j' → j' < row.length → p.headers.get? j' ≠ some k) →
      Record.get rec k = cellValue fc p.columns k value) := by
  rw [ReadRecord_of_row fc p rd rd1 row hr hread] at hok
  have hf : readFields fc p.headers p.columns 0 row [] = (some rec, none) := by
    rcases readFields_result fc p.headers p.columns row 0 [] with ⟨rec', h'⟩ | ⟨c, e, d, h', _⟩
    · rw [h'] at hok
      dsimp only at hok
      have := (Prod.mk.inj (Prod.mk.inj (Option.some.inj hok)).1).1
      rw [h', ← this]
    · rw [h'] at hok
      dsimp only at hok
      have := (Prod.mk.inj (Prod.mk.inj (Option.some.inj hok)).1).1
      cases this
  obtain ⟨z1, z2⟩ := readFields_size fc p.headers p.columns row 0 [] rec hf
  refine ⟨?_, z1 List.nodup_nil, ?_, ?_⟩
  · intro k
    obtain ⟨s1, _, _⟩ := readFields_spec fc p.headers p.columns row 0 [] rec hf k
    rw [s1]
    constructor
    · rintro (hh | ⟨j, hj, hk⟩)
      · cases hh
      · rw [Nat.zero_add] at hk
        refine ⟨j, ?_, hk⟩
        have : j < p.headers.length := by
          by_contra hc
          have : p.headers.get? j = none := List.get?_eq_none.2 (by omega)
          rw [this] at hk
          cases hk
        exact Nat.lt_min.2 ⟨this, hj⟩
    · rintro ⟨j, hj, hk⟩
      exact Or.inr ⟨j, (Nat.lt_min.1 hj).2, by rw [Nat.zero_add]; exact hk⟩
  · have : ([] : Record).length = 0 := rfl
    rw [this, Nat.zero_add, Nat.sub_zero, Nat.min_comm] at z2
    exact z2
  · intro j k value hj hk hlast
    obtain ⟨_, _, s3⟩ := readFields_spec fc p.headers p.columns row 0 [] rec hf k
    exact s3 j value hj (by rw [Nat.zero_add]; exact hk)
      (fun j' h1 h2 => by rw [Nat.zero_add]; exact hlast j' h1 h2)

/-- Witness of `read_record_key_set`: the retained header `a`, `b`, `a` and the row
`1`, `2`, `3` with no schema set; the record holds `a` as `3` and `b` as `2`. -/
theorem read_record_key_set_witness :
    ((Plugin.mk (some ⟨"1,2,3\n".toList, 3⟩) none [] none none [['a'], ['b'], ['a']] 0).csvReader
        = some ⟨"1,2,3\n".toList, 3⟩ ∧
      (CsvReader.mk "1,2,3\n".toList 3).Read
        = some (([['1'], ['2'], ['3']], none), ⟨[], 3⟩) ∧
      ReadRecord noFloat
          (Plugin.mk (some ⟨"1,2,3\n".toList, 3⟩) none [] none none [['a'], ['b'], ['a']] 0)
        = some ((some [(['a'], Value.str ['3']), (['b'], Value.str ['2'])], none),
            Plugin.mk (some ⟨[], 3⟩) none [] none none [['a'], ['b'], ['a']] 1)) ∧
    ((∀ k, k ∈ Record.keys [(['a'], Value.str ['3']), (['b'], Value.str ['2'])] ↔
      ∃ j, j < min [['a'], ['b'], ['a']].length [['1'], ['2'], ['3']].length ∧
        [['a'], ['b'], ['a']].get? j = some k) ∧
    (Record.keys [(['a'], Value.str ['3']), (['b'], Value.str ['2'])]).Nodup ∧
    [(['a'], Value.str ['3']), (['b'], Value.str ['2'])].length
      ≤ min [['a'], ['b'], ['a']].length [['1'], ['2'], ['3']].length ∧
    (∀ j k value, [['1'], ['2'], ['3']].get? j = some value →
      [['a'], ['b'], ['a']].get? j = some k →
      (∀ j', j < j' → j' < [['1'], ['2'], ['3']].length →
        [['a'], ['b'], ['a']].get? j' ≠ some k) →
      Record.get [(['a'], Value.str ['3']), (['b'], Value.str ['2'])] k
        = cellValue noFloat none k value)) :=
  ⟨⟨rfl, rfl, rfl⟩,
    read_record_key_set noFloat
      (Plugin.mk (some ⟨"1,2,3\n".toList, 3⟩) none [] none none [['a'], ['b'], ['a']] 0)
      (Plugin.mk (some ⟨[], 3⟩) none [] none none [['a'], ['b'], ['a']] 1)
      ⟨"1,2,3\n".toList, 3⟩ ⟨[], 3⟩ [['1'], ['2'], ['3']]
      [(['a'], Value.str ['3']), (['b'], Value.str ['2'])] rfl rfl rfl⟩

/-! ## Claims C13 and C14 -/

/-- C13: when the reader reports the end of input, `ReadRecord` returns the end-of-input
result, no record and no error, and changes neither the retained header, nor the schema,
nor the column mapping, nor the row counter; the source is then exhausted, and every later
call of `ReadRecord` returns the same result again and changes nothing. -/
theorem end_of_input_sentinel (fc : FloatConv) (p : Plugin) (rd rd1 : CsvReader)
    (row : List Str) (hr : p.csvReader = some rd)
    (hread : rd.Read = some ((row, some CsvError.EOF), rd1)) :
    ReadRecord fc p = some ((none, none), { p with csvReader := some rd1 }) ∧
    rd1 = { rd with src := [] } ∧
    (∀ n, readRecords fc n { p with csvReader := some rd1 }
      = some (List.replicate n (none, none), { p with csvReader := some rd1 })) := by
  have hrd1 : rd1 = { rd with src := [] } := by
    rcases Read_cases rd row _ rd1 hread with ⟨_, _, h⟩ | ⟨h, _⟩
    · exact h
    · exact absurd rfl h
  refine ⟨?_, hrd1, ?_⟩
  · unfold ReadRecord
    rw [hr]
    dsimp only
    rw [hread]
  · intro n
    exact readRecords_exhausted fc n _ rd.FieldsPerRecord (by rw [hrd1])

/-- Witness of `end_of_input_sentinel`: the adapter that has read the header `a` and whose
source holds nothing but two empty lines. -/
theorem end_of_input_sentinel_witness :
    ((Plugin.mk (some ⟨"\n\n".toList, 1⟩) none [] none none [['a']] 4).csvReader
        = some ⟨"\n\n".toList, 1⟩ ∧
      (CsvReader.mk "\n\n".toList 1).Read = some (([], some CsvError.EOF), ⟨[], 1⟩)) ∧
    (ReadRecord noFloat (Plugin.mk (some ⟨"\n\n".toList, 1⟩) none [] none none [['a']] 4)
      = some ((none, none), Plugin.mk (some ⟨[], 1⟩) none [] none none [['a']] 4) ∧
    (CsvReader.mk [] 1) = { (CsvReader.mk "\n\n".toList 1) with src := [] } ∧
    (∀ n, readRecords noFloat n (Plugin.mk (some ⟨[], 1⟩) none [] none none [['a']] 4)
      = some (List.replicate n (none, none),
          Plugin.mk (some ⟨[], 1⟩) none [] none none [['a']] 4))) :=
  ⟨⟨rfl, rfl⟩,
    end_of_input_sentinel noFloat
      (Plugin.mk (some ⟨"\n\n".toList, 1⟩) none [] none none [['a']] 4)
      ⟨"\n\n".toList, 1⟩ ⟨[], 1⟩ [] rfl rfl⟩

/-- C14, as the code has it: when the reader yields a first row, `ReadHeader` retains its
fields in positional order as the column names, resets the row counter to zero, and returns
without error the schema and the column mapping the adapter holds at the call, leaving them
unchanged; these are the ones stored by the last call of `SetSchema` or of `WriteHeader`,
and `nil` for both on an adapter as constructed.  On a source that starts with an emitted
header row it consumes exactly that row.  When the reader yields an error, the end of input
before any header among them, it returns that error with `nil` schema and `nil` mapping and
leaves the retained header and the row counter unchanged. -/
theorem read_header_contract (p : Plugin) (rd : CsvReader) (hr : p.csvReader = some rd) :
    (∀ headers rd1, rd.Read = some ((headers, none), rd1) →
      ReadHeader p = some ((p.versionDef, p.columns, none),
        { p with csvReader := some rd1, headers := headers, index := 0 })) ∧
    (∀ names rest, schemaFits names = true → rd.src = encodeRecord names ++ rest →
      rd.FieldsPerRecord = 0 →
      ReadHeader p = some ((p.versionDef, p.columns, none),
        { p with csvReader := some { src := rest, FieldsPerRecord := names.length },
                 headers := names, index := 0 })) ∧
    (∀ row e rd1, rd.Read = some ((row, some e), rd1) →
      ReadHeader p = some ((none, none, some (PluginError.headerRead e)),
        { p with csvReader := some rd1 })) ∧
    (rd.src = [] →
      ReadHeader p = some ((none, none, some (PluginError.headerRead CsvError.EOF)), p)) ∧
    (∀ (q : Plugin) vd cols, (SetSchema q vd cols).versionDef = vd ∧
      (SetSchema q vd cols).columns = cols ∧ (SetSchema q vd cols).csvReader = q.csvReader) ∧
    (∀ (q q' : Plugin) vd cols e, WriteHeader q vd cols = some (e, q') →
      q'.versionDef = vd ∧ q'.columns = cols ∧ q'.csvReader = q.csvReader) ∧
    (∀ text, (NewReader text).versionDef = none ∧ (NewReader text).columns = none ∧
      (NewConverter text).versionDef = none ∧ (NewConverter text).columns = none) := by
  refine ⟨?_, ?_, ?_, ?_, fun q vd cols => ⟨rfl, rfl, rfl⟩, ?_, fun text => ⟨rfl, rfl, rfl, rfl⟩⟩
  · intro headers rd1 h
    unfold ReadHeader
    rw [hr]
    dsimp only
    rw [h]
  · intro names rest hs hsrc hf
    have hrd : rd = { src := encodeRecord names ++ rest, FieldsPerRecord := 0 } := by
      obtain ⟨s, f⟩ := rd
      dsimp only at hsrc hf
      rw [hsrc, hf]
    rw [hrd] at hr
    exact ReadHeader_encoded p names rest hr hs
  · intro row e rd1 h
    unfold ReadHeader
    rw [hr]
    dsimp only
    rw [h]
  · intro hsrc
    unfold ReadHeader
    rw [hr]
    dsimp only
    rw [Read_empty rd hsrc]
    dsimp only
    rw [← hr]
  · intro q q' vd cols e h
    unfold WriteHeader at h
    cases vd with
    | none => cases h
    | some v =>
      cases hw : q.csvWriter with
      | none => rw [hw] at h; cases h
      | some w =>
        rw [hw] at h
        dsimp only at h
        have := (Prod.mk.inj (Option.some.inj h)).2
        rw [← this]
        exact ⟨rfl, rfl, rfl⟩

/-- Witness of `read_header_contract`: the reader over the text `id,name` and one data row,
with a schema set by `SetSchema`. -/
theorem read_header_contract_witness :
    (SetSchema (NewReader "id,name\n1,x\n".toList) (some ⟨[⟨['i', 'd']⟩]⟩) none).csvReader
      = some ⟨"id,name\n1,x\n".toList, 0⟩ ∧
    ReadHeader (SetSchema (NewReader "id,name\n1,x\n".toList) (some ⟨[⟨['i', 'd']⟩]⟩) none)
      = some ((some ⟨[⟨['i', 'd']⟩]⟩, none, none),
          Plugin.mk (some ⟨"1,x\n".toList, 2⟩) none [] (some ⟨[⟨['i', 'd']⟩]⟩) none
            [['i', 'd'], ['n', 'a', 'm', 'e']] 0) ∧
    (∀ headers rd1, (CsvReader.mk "id,name\n1,x\n".toList 0).Read
        = some ((headers, none), rd1) →
      ReadHeader (SetSchema (NewReader "id,name\n1,x\n".toList) (some ⟨[⟨['i', 'd']⟩]⟩) none)
        = some (((SetSchema (NewReader "id,name\n1,x\n".toList)
              (some ⟨[⟨['i', 'd']⟩]⟩) none).versionDef,
            (SetSchema (NewReader "id,name\n1,x\n".toList)
              (some ⟨[⟨['i', 'd']⟩]⟩) none).columns, none),
          { SetSchema (NewReader "id,name\n1,x\n".toList) (some ⟨[⟨['i', 'd']⟩]⟩) none with
            csvReader := some rd1, headers := headers, index := 0 })) :=
  ⟨rfl, rfl,
    (read_header_contract
      (SetSchema (NewReader "id,name\n1,x\n".toList) (some ⟨[⟨['i', 'd']⟩]⟩) none)
      ⟨"id,name\n1,x\n".toList, 0⟩ rfl).1⟩

/-- C14, counterexample: on a converter over the text `a`, on which `SetSchema` was never
called, `WriteHeader` with a schema and a column mapping followed by `ReadHeader` returns
that schema and that mapping, not `nil` for both. -/
theorem read_header_counterexample :
    (match WriteHeader (NewConverter "a\n".toList) (some ⟨[⟨['a']⟩]⟩)
        (some [(['a'], ⟨ColumnType.TypeInt⟩)]) with
      | some (_, p) => (ReadHeader p).map Prod.fst
      | none => none)
      = some (some ⟨[⟨['a']⟩]⟩, some [(['a'], ⟨ColumnType.TypeInt⟩)], none) ∧
    (some (VersionDefinition.mk [⟨['a']⟩]) ≠ none) :=
  ⟨rfl, by decide⟩

/-! ## Claims C11 and C16 -/

/-- C11: when the reader yields a row in which some position that has both a header and a
field carries a header name with a numeric descriptor and a field that `parseValue`
rejects, `ReadRecord` returns no record and a coercion error; the error names the column of
the leftmost such position and carries the error of that field; the row is consumed and the
row counter, with the rest of the adapter, is left as it was. -/
theorem malformed_numeric_hard_failure (fc : FloatConv) (p : Plugin) (rd rd1 : CsvReader)
    (row : List Str) (hr : p.csvReader = some rd)
    (hread : rd.Read = some ((row, none), rd1))
    (hex : ∃ i value k d, row.get? i = some value ∧ p.headers.get? i = some k ∧
      lookupColumn p.columns k = some d ∧
      (d.Type_ = ColumnType.TypeInt ∨ d.Type_ = ColumnType.TypeUInt ∨
        d.Type_ = ColumnType.TypeFloat) ∧
      (parseValue fc value d).2 ≠ none) :
    ∃ i value k d e, row.get? i = some value ∧ p.headers.get? i = some k ∧
      lookupColumn p.columns k = some d ∧
      (d.Type_ = ColumnType.TypeInt ∨ d.Type_ = ColumnType.TypeUInt ∨
        d.Type_ = ColumnType.TypeFloat) ∧
      (parseValue fc value d).2 = some e ∧
      (∀ j v' k' d', j < i → row.get? j = some v' → p.headers.get? j = some k' →
        lookupColumn p.columns k' = some d' → (parseValue fc v' d').2 = none) ∧
      ReadRecord fc p = some ((none, some (PluginError.parseColumn k e)),
        { p with csvReader := some rd1 }) ∧
      ({ p with csvReader := some rd1 } : Plugin).index = p.index := by
  obtain ⟨i0, v0, k0, d0, a1, a2, a3, _, a5⟩ := hex
  obtain ⟨i, value, k, d, e, b1, b2, b3, b4, b5, b6⟩ :=
    readFields_first_reject fc p.headers p.columns row 0 []
      ⟨i0, v0, k0, d0, a1, by rw [Nat.zero_add]; exact a2, a3, a5⟩
  rw [Nat.zero_add] at b2
  refine ⟨i, value, k, d, e, b1, b2, b3,
    parseValue_reject_numeric fc value d (by rw [b4]; exact fun h => by cases h), b4, ?_, ?_,
    rfl⟩
  · intro j v' k' d' hlt h1 h2 h3
    exact b5 j v' k' d' hlt h1 (by rw [Nat.zero_add]; exact h2) h3
  · rw [ReadRecord_of_row fc p rd rd1 row hr hread, b6]

/-- Witness of `malformed_numeric_hard_failure`: header `a`, `b`, both declared signed
integer, and the row `1,x`; the error names `b`. -/
theorem malformed_numeric_hard_failure_witness :
    ((Plugin.mk (some ⟨"1,x\n".toList, 2⟩) none [] none
        (some [(['a'], ⟨ColumnType.TypeInt⟩), (['b'], ⟨ColumnType.TypeInt⟩)])
        [['a'], ['b']] 0).csvReader = some ⟨"1,x\n".toList, 2⟩ ∧
      (CsvReader.mk "1,x\n".toList 2).Read = some (([['1'], ['x']], none), ⟨[], 2⟩)) ∧
    (∃ i value k d e, [['1'], ['x']].get? i = some value ∧
      [['a'], ['b']].get? i = some k ∧
      lookupColumn (some [(['a'], ⟨ColumnType.TypeInt⟩), (['b'], ⟨ColumnType.TypeInt⟩)]) k
        = some d ∧
      (d.Type_ = ColumnType.TypeInt ∨ d.Type_ = ColumnType.TypeUInt ∨
        d.Type_ = ColumnType.TypeFloat) ∧
      (parseValue noFloat value d).2 = some e ∧
      (∀ j v' k' d', j < i → [['1'], ['x']].get? j = some v' →
        [['a'], ['b']].get? j = some k' →
        lookupColumn (some [(['a'], ⟨ColumnType.TypeInt⟩), (['b'], ⟨ColumnType.TypeInt⟩)]) k'
          = some d' →
        (parseValue noFloat v' d').2 = none) ∧
      ReadRecord noFloat (Plugin.mk (some ⟨"1,x\n".toList, 2⟩) none [] none
          (some [(['a'], ⟨ColumnType.TypeInt⟩), (['b'], ⟨ColumnType.TypeInt⟩)])
          [['a'], ['b']] 0)
        = some ((none, some (PluginError.parseColumn k e)),
            Plugin.mk (some ⟨[], 2⟩) none [] none
              (some [(['a'], ⟨ColumnType.TypeInt⟩), (['b'], ⟨ColumnType.TypeInt⟩)])
              [['a'], ['b']] 0) ∧
      (Plugin.mk (some ⟨[], 2⟩) none [] none
          (some [(['a'], ⟨ColumnType.TypeInt⟩), (['b'], ⟨ColumnType.TypeInt⟩)])
          [['a'], ['b']] 0).index = 0) ∧
    ReadRecord noFloat (Plugin.mk (some ⟨"1,x\n".toList, 2⟩) none [] none
        (some [(['a'], ⟨ColumnType.TypeInt⟩), (['b'], ⟨ColumnType.TypeInt⟩)])
        [['a'], ['b']] 0)
      = some ((none, some (PluginError.parseColumn ['b'] NumError.errSyntax)),
          Plugin.mk (some ⟨[], 2⟩) none [] none
            (some [(['a'], ⟨ColumnType.TypeInt⟩), (['b'], ⟨ColumnType.TypeInt⟩)])
            [['a'], ['b']] 0) :=
  ⟨⟨rfl, rfl⟩,
    malformed_numeric_hard_failure noFloat
      (Plugin.mk (some ⟨"1,x\n".toList, 2⟩) none [] none
        (some [(['a'], ⟨ColumnType.TypeInt⟩), (['b'], ⟨ColumnType.TypeInt⟩)])
        [['a'], ['b']] 0)
      ⟨"1,x\n".toList, 2⟩ ⟨[], 2⟩ [['1'], ['x']] rfl rfl
      ⟨1, ['x'], ['b'], ⟨ColumnType.TypeInt⟩, rfl, rfl, rfl, Or.inl rfl, by decide⟩,
    rfl⟩

theorem exists_get?_of_mem (l : List Str) (k : Str) (h : k ∈ l) : ∃ j, l.get? j = some k := by
  obtain ⟨j, hj, _⟩ := exists_last_index l k h
  exact ⟨j, hj⟩

/-- C16, as the code has it: under a schema that declares the column `c` signed integer or
unsigned integer, or floating point with a float parser that rejects the text `<nil>`, the
row `WriteRecord` builds for a record without key `c`, when the reader yields it back under
the same header and column mapping, makes `ReadRecord` return no record and a coercion
error.  The error names the column of the leftmost rejected cell, which stands at or before
every position of `c`; it names `c` itself when no cell before the first position of `c`
is rejected. -/
theorem missing_numeric_column_fails (fc : FloatConv) (p : Plugin) (rd rd1 : CsvReader)
    (record : Record) (c : Str) (d : ColumnDefinition) (hr : p.csvReader = some rd)
    (hread : rd.Read = some ((buildRow fc p.headers record, none), rd1))
    (hc : c ∈ p.headers) (hmiss : c ∉ Record.keys record)
    (hd : lookupColumn p.columns c = some d)
    (hnum : d.Type_ = ColumnType.TypeInt ∨ d.Type_ = ColumnType.TypeUInt ∨
      (d.Type_ = ColumnType.TypeFloat ∧ (fc.parse32 ['<', 'n', 'i', 'l', '>']).2 ≠ none)) :
    ∃ i k e,
      ReadRecord fc p = some ((none, some (PluginError.parseColumn k e)),
        { p with csvReader := some rd1 }) ∧
      p.headers.get? i = some k ∧
      (∀ j0, p.headers.get? j0 = some c → i ≤ j0) ∧
      ((∀ j v' k' d', (∀ j0, p.headers.get? j0 = some c → j < j0) →
          (buildRow fc p.headers record).get? j = some v' → p.headers.get? j = some k' →
          lookupColumn p.columns k' = some d' → (parseValue fc v' d').2 = none) →
        k = c) := by
  have hcell : ∀ j0, p.headers.get? j0 = some c →
      (buildRow fc p.headers record).get? j0 = some ['<', 'n', 'i', 'l', '>'] := by
    intro j0 hj0
    rw [buildRow_get?, hj0, Option.map_some', Record.get_of_not_mem_keys record c hmiss]
    rfl
  have hrej : (parseValue fc ['<', 'n', 'i', 'l', '>'] d).2 ≠ none := by
    obtain ⟨n1, n2, n3⟩ := parseValue_nil_text fc
    obtain ⟨ty⟩ := d
    rcases hnum with h | h | ⟨h, hf⟩
    · dsimp only at h; subst h; rw [n1]; exact fun hh => by cases hh
    · dsimp only at h; subst h; rw [n2]; exact fun hh => by cases hh
    · dsimp only at h; subst h; rw [n3]; exact hf
  obtain ⟨jc, hjc⟩ := exists_get?_of_mem p.headers c hc
  obtain ⟨i, value, k, d1, e, b1, b2, b3, b4, b5, b6⟩ :=
    readFields_first_reject fc p.headers p.columns (buildRow fc p.headers record) 0 []
      ⟨jc, _, c, d, hcell jc hjc, by rw [Nat.zero_add]; exact hjc, hd, hrej⟩
  rw [Nat.zero_add] at b2
  have hle : ∀ j0, p.headers.get? j0 = some c → i ≤ j0 := by
    intro j0 hj0
    by_contra hlt
    have := b5 j0 _ c d (by omega) (hcell j0 hj0) (by rw [Nat.zero_add]; exact hj0) hd
    exact hrej this
  refine ⟨i, k, e, ?_, b2, hle, ?_⟩
  · rw [ReadRecord_of_row fc p rd rd1 _ hr hread, b6]
  · intro hacc
    by_contra hk
    have hbefore : ∀ j0, p.headers.get? j0 = some c → i < j0 := by
      intro j0 hj0
      have h1 := hle j0 hj0
      rcases Nat.lt_or_eq_of_le h1 with h2 | h2
      · exact h2
      · subst h2
        rw [b2] at hj0
        exact absurd (Option.some.inj hj0) hk
    have := hacc i value k d1 hbefore b1 b2 b3
    rw [this] at b4
    cases b4

/-- Witness of `missing_numeric_column_fails`: header `id`, `name` with `id` declared
unsigned integer, and the row written for a record that holds `name` only. -/
theorem missing_numeric_column_fails_witness :
    ((Plugin.mk (some ⟨"<nil>,Al\n".toList, 2⟩) none [] none
        (some [(['i', 'd'], ⟨ColumnType.TypeUInt⟩)]) [['i', 'd'], ['n', 'a', 'm', 'e']]
        0).csvReader = some ⟨"<nil>,Al\n".toList, 2⟩ ∧
      (CsvReader.mk "<nil>,Al\n".toList 2).Read
        = some ((buildRow noFloat [['i', 'd'], ['n', 'a', 'm', 'e']]
            [(['n', 'a', 'm', 'e'], Value.str ['A', 'l'])], none), ⟨[], 2⟩) ∧
      ['i', 'd'] ∈ [['i', 'd'], ['n', 'a', 'm', 'e']] ∧
      ['i', 'd'] ∉ Record.keys [(['n', 'a', 'm', 'e'], Value.str ['A', 'l'])] ∧
      lookupColumn (some [(['i', 'd'], ⟨ColumnType.TypeUInt⟩)]) ['i', 'd']
        = some ⟨ColumnType.TypeUInt⟩) ∧
    (∃ i k e,
      ReadRecord noFloat (Plugin.mk (some ⟨"<nil>,Al\n".toList, 2⟩) none [] none
          (some [(['i', 'd'], ⟨ColumnType.TypeUInt⟩)]) [['i', 'd'], ['n', 'a', 'm', 'e']] 0)
        = some ((none, some (PluginError.parseColumn k e)),
            Plugin.mk (some ⟨[], 2⟩) none [] none
              (some [(['i', 'd'], ⟨ColumnType.TypeUInt⟩)])
              [['i', 'd'], ['n', 'a', 'm', 'e']] 0) ∧
      [['i', 'd'], ['n', 'a', 'm', 'e']].get? i = some k ∧
      (∀ j0, [['i', 'd'], ['n', 'a', 'm', 'e']].get? j0 = some ['i', 'd'] → i ≤ j0) ∧
      ((∀ j v' k' d', (∀ j0, [['i', 'd'], ['n', 'a', 'm', 'e']].get? j0 = some ['i', 'd'] →
            j < j0) →
          (buildRow noFloat [['i', 'd'], ['n', 'a', 'm', 'e']]
            [(['n', 'a', 'm', 'e'], Value.str ['A', 'l'])]).get? j = some v' →
          [['i', 'd'], ['n', 'a', 'm', 'e']].get? j = some k' →
          lookupColumn (some [(['i', 'd'], ⟨ColumnType.TypeUInt⟩)]) k' = some d' →
          (parseValue noFloat v' d').2 = none) →
        k = ['i', 'd'])) ∧
    ReadRecord noFloat (Plugin.mk (some ⟨"<nil>,Al\n".toList, 2⟩) none [] none
        (some [(['i', 'd'], ⟨ColumnType.TypeUInt⟩)]) [['i', 'd'], ['n', 'a', 'm', 'e']] 0)
      = some ((none, some (PluginError.parseColumn ['i', 'd'] NumError.errSyntax)),
          Plugin.mk (some ⟨[], 2⟩) none [] none
            (some [(['i', 'd'], ⟨ColumnType.TypeUInt⟩)])
            [['i', 'd'], ['n', 'a', 'm', 'e']] 0) :=
  ⟨⟨rfl, rfl, by decide, by decide, rfl⟩,
    missing_numeric_column_fails noFloat
      (Plugin.mk (some ⟨"<nil>,Al\n".toList, 2⟩) none [] none
        (some [(['i', 'd'], ⟨ColumnType.TypeUInt⟩)]) [['i', 'd'], ['n', 'a', 'm', 'e']] 0)
      ⟨"<nil>,Al\n".toList, 2⟩ ⟨[], 2⟩ [(['n', 'a', 'm', 'e'], Value.str ['A', 'l'])]
      ['i', 'd'] ⟨ColumnType.TypeUInt⟩ rfl rfl (by decide) (by decide) rfl (Or.inr (Or.inl rfl)),
    rfl⟩

/-- C16, counterexample: under the schema with the columns `a` and `b`, both declared
signed integer, the record without any key is written as the row `<nil>,<nil>`; reading it
back fails with a coercion error that names `a`, so for the missing column `b` the error is
not an error for that column. -/
theorem missing_numeric_column_counterexample :
    writeSession noFloat (some ⟨[⟨['a']⟩, ⟨['b']⟩]⟩)
        (some [(['a'], ⟨ColumnType.TypeInt⟩), (['b'], ⟨ColumnType.TypeInt⟩)]) [[]]
      = some ([none, none, none], "a,b\n<nil>,<nil>\n".toList) ∧
    readSession noFloat "a,b\n<nil>,<nil>\n".toList (some ⟨[⟨['a']⟩, ⟨['b']⟩]⟩)
        (some [(['a'], ⟨ColumnType.TypeInt⟩), (['b'], ⟨ColumnType.TypeInt⟩)]) 1
      = some ((some ⟨[⟨['a']⟩, ⟨['b']⟩]⟩,
          some [(['a'], ⟨ColumnType.TypeInt⟩), (['b'], ⟨ColumnType.TypeInt⟩)], none),
        [(none, some (PluginError.parseColumn ['a'] NumError.errSyntax))]) ∧
    ['b'] ∉ Record.keys [] ∧
    lookupColumn (some [(['a'], ⟨ColumnType.TypeInt⟩), (['b'], ⟨ColumnType.TypeInt⟩)]) ['b']
      = some ⟨ColumnType.TypeInt⟩ ∧
    PluginError.parseColumn ['a'] NumError.errSyntax
      ≠ PluginError.parseColumn ['b'] NumError.errSyntax :=
  ⟨rfl, rfl, by decide, rfl, by decide⟩

/-! ## The field count of the reader on the states the adapter can be in -/

/-- What a call of `Read` does to `FieldsPerRecord`: it stays non-negative, a positive
count is kept, and a row returned without error leaves a positive count. -/
theorem Read_fieldsPerRecord (rd : CsvReader) (row : List Str) (err : Option CsvError)
    (rd1 : CsvReader) (h : rd.Read = some ((row, err), rd1)) (h0 : 0 ≤ rd.FieldsPerRecord) :
    0 ≤ rd1.FieldsPerRecord ∧
    (0 < rd.FieldsPerRecord → rd1.FieldsPerRecord = rd.FieldsPerRecord) ∧
    (err = none → row ≠ [] → 0 < rd1.FieldsPerRecord) := by
  rcases Read_cases rd row err rd1 h with ⟨h1, _, h3⟩ | ⟨_, h3⟩
  · subst h3
    exact ⟨h0, fun _ => rfl, fun he => by rw [he] at h1; cases h1⟩
  · rw [h3]
    by_cases hz : rd.FieldsPerRecord = 0
    · rw [if_pos hz]
      refine ⟨by omega, fun hp => by omega, fun _ hne => ?_⟩
      have : row.length ≠ 0 := by rwa [Ne, List.length_eq_zero]
      omega
    · rw [if_neg hz]
      exact ⟨h0, fun _ => rfl, fun _ _ => by omega⟩

/-- On every adapter a caller can hold the reader has a non-negative `FieldsPerRecord`,
and a positive one once a header is retained: the header row was returned by the reader,
which set the count at its first row. -/
theorem Reachable.fieldsPerRecord_pos (fc : FloatConv) (p : Plugin) (h : Reachable fc p) :
    ∀ rd, p.csvReader = some rd →
      0 ≤ rd.FieldsPerRecord ∧ (p.headers ≠ [] → 0 < rd.FieldsPerRecord) := by
  induction h with
  | new => intro rd h; cases h
  | newReader reader =>
    intro rd h
    have h1 : (⟨reader, 0⟩ : CsvReader) = rd := Option.some.inj h
    subst h1
    exact ⟨Int.le_refl _, fun hne => absurd rfl hne⟩
  | newConverter reader =>
    intro rd h
    have h1 : (⟨reader, 0⟩ : CsvReader) = rd := Option.some.inj h
    subst h1
    exact ⟨Int.le_refl _, fun hne => absurd rfl hne⟩
  | setSchema p vd cols _ ih => exact ih
  | writeHeader p vd cols e p' _ hw ih =>
    unfold WriteHeader at hw
    cases vd with
    | none => cases hw
    | some v =>
      cases hcw : p.csvWriter with
      | none => rw [hcw] at hw; cases hw
      | some w =>
        rw [hcw] at hw
        have h1 := (Prod.mk.inj (Option.some.inj hw)).2
        subst h1
        exact ih
  | writeRecord p record e p' _ hw ih =>
    unfold WriteRecord at hw
    cases hcw : p.csvWriter with
    | none => rw [hcw] at hw; cases hw
    | some w =>
      rw [hcw] at hw
      have h1 := (Prod.mk.inj (Option.some.inj hw)).2
      subst h1
      exact ih
  | writeFooter p e p' _ hw ih =>
    unfold WriteFooter at hw
    cases hcw : p.csvWriter with
    | none => rw [hcw] at hw; cases hw
    | some w =>
      rw [hcw] at hw
      have h1 := (Prod.mk.inj (Option.some.inj hw)).2
      subst h1
      exact ih
  | readHeader p r p' _ hh ih =>
    unfold ReadHeader at hh
    cases hcr : p.csvReader with
    | none => rw [hcr] at hh; cases hh
    | some rd0 =>
      rw [hcr] at hh
      dsimp only at hh
      cases hrd : rd0.Read with
      | none => rw [hrd] at hh; cases hh
      | some t =>
        obtain ⟨⟨row, err⟩, rd1⟩ := t
        rw [hrd] at hh
        dsimp only at hh
        obtain ⟨i0, ipos⟩ := ih rd0 hcr
        obtain ⟨c1, c2, c3⟩ := Read_fieldsPerRecord rd0 row err rd1 hrd i0
        cases err with
        | some e0 =>
          dsimp only at hh
          have h1 := (Prod.mk.inj (Option.some.inj hh)).2
          subst h1
          intro rd hrd'
          have hrd'' : rd1 = rd := Option.some.inj hrd'
          subst hrd''
          refine ⟨c1, fun hne => ?_⟩
          have hpos := ipos hne
          rw [c2 hpos]
          exact hpos
        | none =>
          dsimp only at hh
          have h1 := (Prod.mk.inj (Option.some.inj hh)).2
          subst h1
          intro rd hrd'
          have hrd'' : rd1 = rd := Option.some.inj hrd'
          subst hrd''
          exact ⟨c1, fun hne => c3 rfl hne⟩
  | readRecord p r p' _ hh ih =>
    unfold ReadRecord at hh
    cases hcr : p.csvReader with
    | none => rw [hcr] at hh; cases hh
    | some rd0 =>
      rw [hcr] at hh
      dsimp only at hh
      cases hrd : rd0.Read with
      | none => rw [hrd] at hh; cases hh
      | some t =>
        obtain ⟨⟨row, err⟩, rd1⟩ := t
        rw [hrd] at hh
        dsimp only at hh
        obtain ⟨i0, ipos⟩ := ih rd0 hcr
        obtain ⟨c1, c2, c3⟩ := Read_fieldsPerRecord rd0 row err rd1 hrd i0
        have key : p'.csvReader = some rd1 ∧ p'.headers = p.headers := by
          cases err with
          | some e0 =>
            cases e0 <;>
            · dsimp only at hh
              have h1 := (Prod.mk.inj (Option.some.inj hh)).2
              subst h1
              exact ⟨rfl, rfl⟩
          | none =>
            dsimp only at hh
            split at hh <;>
            · have h1 := (Prod.mk.inj (Option.some.inj hh)).2
              subst h1
              exact ⟨rfl, rfl⟩
        intro rd hrd'
        rw [key.1] at hrd'
        have hrd'' : rd1 = rd := Option.some.inj hrd'
        subst hrd''
        refine ⟨c1, fun hne => ?_⟩
        rw [key.2] at hne
        have hpos := ipos hne
        rw [c2 hpos]
        exact hpos
  | close p _ ih => exact ih

/-! ## What a call of `Read` consumes -/

theorem readSlice_rest (src : Str) : src = (readSlice src).1 ++ (readSlice src).2.2 := by
  induction src with
  | nil => rfl
  | cons c cs ih =>
    by_cases hc : c = '\n'
    · subst hc
      rw [readSlice_newline]
      rfl
    · rw [readSlice_cons _ _ hc]
      show c :: cs = c :: ((readSlice cs).1 ++ (readSlice cs).2.2)
      rw [← ih]

theorem readLine_suffix (src : Str) : ∃ c, src = c ++ (readLine src).2.2 :=
  ⟨(readSlice src).1, readSlice_rest src⟩

theorem nextLine_suffix (fuel : Nat) : ∀ (src : Str) (r : Str × Bool × Str),
    nextLine fuel src = some r → ∃ c, src = c ++ r.2.2 := by
  induction fuel with
  | zero => intro src r h; cases h
  | succ fuel ih =>
    intro src r h
    rw [nextLine_succ] at h
    split_ifs at h
    · obtain ⟨c, hc⟩ := ih _ _ h
      obtain ⟨c0, hc0⟩ := readLine_suffix src
      exact ⟨c0 ++ c, by rw [List.append_assoc, ← hc, ← hc0]⟩
    · have h1 := Option.some.inj h
      subst h1
      exact readLine_suffix src

theorem parseRecord_suffix (fuel : Nat) : ∀ (mode : Option Str) (line src : Str)
    (dst : List Str) (r : Parsed), parseRecord fuel mode line src dst = some r →
    ∃ c, src = c ++ r.src := by
  induction fuel with
  | zero => intro mode line src dst r h; cases h
  | succ fuel ih =>
    intro mode line src dst r h
    cases mode with
    | none =>
      rw [parseRecord_field] at h
      split_ifs at h
      all_goals first
        | exact ih _ _ _ _ _ h
        | (cases h; exact ⟨[], rfl⟩)
    | some buf =>
      rw [parseRecord_quoted] at h
      split_ifs at h
      all_goals first
        | exact ih _ _ _ _ _ h
        | (cases h; exact ⟨[], rfl⟩)
        | (obtain ⟨c, hc⟩ := ih _ _ _ _ _ h
           obtain ⟨c0, hc0⟩ := readLine_suffix src
           exact ⟨c0 ++ c, by rw [List.append_assoc, ← hc, ← hc0]⟩)

/-- The source after a call of `Read` is what the source was, less a stretch at its
front. -/
theorem Read_suffix (rd : CsvReader) (row : List Str) (err : Option CsvError)
    (rd1 : CsvReader) (h : rd.Read = some ((row, err), rd1)) :
    ∃ c, rd.src = c ++ rd1.src := by
  unfold CsvReader.Read at h
  cases hn : nextLine (rd.src.length + 1) rd.src with
  | none => rw [hn] at h; cases h
  | some t =>
    obtain ⟨line, eof, src1⟩ := t
    obtain ⟨c1, hc1⟩ := nextLine_suffix _ _ _ hn
    rw [hn] at h
    dsimp only at h hc1
    cases eof with
    | true =>
      simp only [↓reduceIte] at h
      have h1 := (Prod.mk.inj (Option.some.inj h)).2
      subst h1
      exact ⟨c1, hc1⟩
    | false =>
      simp only [Bool.false_eq_true, ↓reduceIte] at h
      cases hp : parseRecord (rd.src.length + 1) none line src1 [] with
      | none => rw [hp] at h; cases h
      | some pr =>
        obtain ⟨c2, hc2⟩ := parseRecord_suffix _ _ _ _ _ _ hp
        rw [hp] at h
        dsimp only at h
        have hs : rd1.src = pr.src := by
          split_ifs at h <;>
          · have h1 := (Prod.mk.inj (Option.some.inj h)).2
            subst h1
            rfl
        exact ⟨c1 ++ c2, by rw [hs, List.append_assoc, ← hc2, ← hc1]⟩

/-! ## Claim C12 -/

/-- C12: on every adapter a caller can hold, a `ReadRecord` call that fails with a coercion
error returns no record, made one call of the reader, which returned one row without error,
and leaves the adapter as it was but for the source of the reader, which is the source as
that one call left it, a rest of the source before the call: the retained header, the
schema, the column-type mapping, the row counter and the field count of the reader are
unchanged.  When the source started with the text of a row as the writer emits it, that
row is the one consumed and the source left is the text after it.  So the adapter after the
failure is the adapter the same calls would have led to had the malformed row not been in
the input, and the next `ReadRecord` call returns what it returns there. -/
theorem coercion_failure_isolation (fc : FloatConv) (p p' : Plugin) (res : Option Record)
    (k : Str) (e : NumError) (hreach : Reachable fc p)
    (hfail : ReadRecord fc p = some ((res, some (PluginError.parseColumn k e)), p')) :
    res = none ∧
    p'.headers = p.headers ∧ p'.versionDef = p.versionDef ∧ p'.columns = p.columns ∧
    p'.index = p.index ∧
    ∃ rd row src1, p.csvReader = some rd ∧
      rd.Read = some ((row, none), { rd with src := src1 }) ∧
      (∃ c, rd.src = c ++ src1) ∧
      p' = { p with csvReader := some { rd with src := src1 } } ∧
      (∀ bad rest, bad ≠ [] → bad ≠ [[]] → (∀ f ∈ bad, noCRLF f = true) →
        rd.src = encodeRecord bad ++ rest → row = bad ∧ src1 = rest) ∧
      ReadRecord fc p' = ReadRecord fc { p with csvReader := some { rd with src := src1 } } := by
  have hinv := Reachable.fieldsPerRecord_pos fc p hreach
  unfold ReadRecord at hfail
  cases hcr : p.csvReader with
  | none => rw [hcr] at hfail; cases hfail
  | some rd =>
    rw [hcr] at hfail
    dsimp only at hfail
    cases hrd : rd.Read with
    | none => rw [hrd] at hfail; cases hfail
    | some t =>
      obtain ⟨⟨row, err⟩, rd1⟩ := t
      rw [hrd] at hfail
      dsimp only at hfail
      cases err with
      | some e0 =>
        cases e0 <;>
        · dsimp only at hfail
          have h1 := (Prod.mk.inj (Prod.mk.inj (Option.some.inj hfail)).1).2
          cases h1
      | none =>
        dsimp only at hfail
        have hne : p.headers ≠ [] := by
          intro h0
          rw [h0, readFields_no_headers] at hfail
          have h1 := (Prod.mk.inj (Prod.mk.inj (Option.some.inj hfail)).1).2
          cases h1
        obtain ⟨i0, ipos⟩ := hinv rd hcr
        have hfp := (Read_fieldsPerRecord rd row none rd1 hrd i0).2.1 (ipos hne)
        have hrd1 : rd1 = { rd with src := rd1.src } := by
          obtain ⟨s1, f1⟩ := rd1
          dsimp only at hfp
          subst hfp
          rfl
        have hres : res = none ∧ p' = { p with csvReader := some rd1 } := by
          split at hfail
          · have h1 := (Prod.mk.inj (Prod.mk.inj (Option.some.inj hfail)).1).2
            cases h1
          · have h1 := Prod.mk.inj (Option.some.inj hfail)
            exact ⟨((Prod.mk.inj h1.1).1).symm, h1.2.symm⟩
        obtain ⟨hres1, hres2⟩ := hres
        subst hres2
        refine ⟨hres1, rfl, rfl, rfl, rfl, rd, row, rd1.src, rfl, ?_, ?_, ?_, ?_, ?_⟩
        · rw [← hrd1]; exact hrd
        · exact Read_suffix rd row none rd1 hrd
        · rw [← hrd1]
        · intro bad rest b1 b2 b3 hsrc
          have h2 := Read_encodeRecord rd bad rest b1 b2 b3 hsrc
          rw [hrd] at h2
          have h3 := Prod.mk.inj (Option.some.inj h2)
          refine ⟨(Prod.mk.inj h3.1).1, ?_⟩
          rw [h3.2]
        · rw [← hrd1]

/-- Witness of `coercion_failure_isolation`: the source `a`, `x`, `1` (one field a row)
read under a schema that declares `a` signed integer.  The adapter is the one after
`NewReader`, `SetSchema` and `ReadHeader`; `ReadRecord` fails on the row `x`, and the next
call returns the record of the row `1`, as it does on the source `a`, `1`. -/
theorem coercion_failure_isolation_witness :
    (Reachable noFloat (Plugin.mk (some ⟨"x\n1\n".toList, 1⟩) none [] (some ⟨[⟨['a']⟩]⟩)
        (some [(['a'], ⟨ColumnType.TypeInt⟩)]) [['a']] 0) ∧
      ReadRecord noFloat (Plugin.mk (some ⟨"x\n1\n".toList, 1⟩) none [] (some ⟨[⟨['a']⟩]⟩)
          (some [(['a'], ⟨ColumnType.TypeInt⟩)]) [['a']] 0)
        = some ((none, some (PluginError.parseColumn ['a'] NumError.errSyntax)),
            Plugin.mk (some ⟨"1\n".toList, 1⟩) none [] (some ⟨[⟨['a']⟩]⟩)
              (some [(['a'], ⟨ColumnType.TypeInt⟩)]) [['a']] 0)) ∧
    ((none : Option Record) = none ∧
      (Plugin.mk (some ⟨"1\n".toList, 1⟩) none [] (some ⟨[⟨['a']⟩]⟩)
        (some [(['a'], ⟨ColumnType.TypeInt⟩)]) [['a']] 0).headers = [['a']] ∧
      (Plugin.mk (some ⟨"1\n".toList, 1⟩) none [] (some ⟨[⟨['a']⟩]⟩)
        (some [(['a'], ⟨ColumnType.TypeInt⟩)]) [['a']] 0).versionDef = some ⟨[⟨['a']⟩]⟩ ∧
      (Plugin.mk (some ⟨"1\n".toList, 1⟩) none [] (some ⟨[⟨['a']⟩]⟩)
        (some [(['a'], ⟨ColumnType.TypeInt⟩)]) [['a']] 0).columns
        = some [(['a'], ⟨ColumnType.TypeInt⟩)] ∧
      (Plugin.mk (some ⟨"1\n".toList, 1⟩) none [] (some ⟨[⟨['a']⟩]⟩)
        (some [(['a'], ⟨ColumnType.TypeInt⟩)]) [['a']] 0).index = 0 ∧
      ∃ rd row src1,
        (Plugin.mk (some ⟨"x\n1\n".toList, 1⟩) none [] (some ⟨[⟨['a']⟩]⟩)
          (some [(['a'], ⟨ColumnType.TypeInt⟩)]) [['a']] 0).csvReader = some rd ∧
        rd.Read = some ((row, none), { rd with src := src1 }) ∧
        (∃ c, rd.src = c ++ src1) ∧
        Plugin.mk (some ⟨"1\n".toList, 1⟩) none [] (some ⟨[⟨['a']⟩]⟩)
            (some [(['a'], ⟨ColumnType.TypeInt⟩)]) [['a']] 0
          = { (Plugin.mk (some ⟨"x\n1\n".toList, 1⟩) none [] (some ⟨[⟨['a']⟩]⟩)
                (some [(['a'], ⟨ColumnType.TypeInt⟩)]) [['a']] 0) with
              csvReader := some { rd with src := src1 } } ∧
        (∀ bad rest, bad ≠ [] → bad ≠ [[]] → (∀ f ∈ bad, noCRLF f = true) →
          rd.src = encodeRecord bad ++ rest → row = bad ∧ src1 = rest) ∧
        ReadRecord noFloat (Plugin.mk (some ⟨"1\n".toList, 1⟩) none [] (some ⟨[⟨['a']⟩]⟩)
            (some [(['a'], ⟨ColumnType.TypeInt⟩)]) [['a']] 0)
          = ReadRecord noFloat
              { (Plugin.mk (some ⟨"x\n1\n".toList, 1⟩) none [] (some ⟨[⟨['a']⟩]⟩)
                  (some [(['a'], ⟨ColumnType.TypeInt⟩)]) [['a']] 0) with
                csvReader := some { rd with src := src1 } }) ∧
    (ReadHeader (SetSchema (NewReader "a\nx\n1\n".toList) (some ⟨[⟨['a']⟩]⟩)
        (some [(['a'], ⟨ColumnType.TypeInt⟩)]))
      = some ((some ⟨[⟨['a']⟩]⟩, some [(['a'], ⟨ColumnType.TypeInt⟩)], none),
          Plugin.mk (some ⟨"x\n1\n".toList, 1⟩) none [] (some ⟨[⟨['a']⟩]⟩)
            (some [(['a'], ⟨ColumnType.TypeInt⟩)]) [['a']] 0) ∧
      ReadHeader (SetSchema (NewReader "a\n1\n".toList) (some ⟨[⟨['a']⟩]⟩)
        (some [(['a'], ⟨ColumnType.TypeInt⟩)]))
      = some ((some ⟨[⟨['a']⟩]⟩, some [(['a'], ⟨ColumnType.TypeInt⟩)], none),
          Plugin.mk (some ⟨"1\n".toList, 1⟩) none [] (some ⟨[⟨['a']⟩]⟩)
            (some [(['a'], ⟨ColumnType.TypeInt⟩)]) [['a']] 0) ∧
      ReadRecord noFloat (Plugin.mk (some ⟨"1\n".toList, 1⟩) none [] (some ⟨[⟨['a']⟩]⟩)
          (some [(['a'], ⟨ColumnType.TypeInt⟩)]) [['a']] 0)
        = some ((some [(['a'], Value.int32 1)], none),
            Plugin.mk (some ⟨[], 1⟩) none [] (some ⟨[⟨['a']⟩]⟩)
              (some [(['a'], ⟨ColumnType.TypeInt⟩)]) [['a']] 1)) :=
  ⟨⟨Reachable.readHeader _ _ _
      (Reachable.setSchema _ (some ⟨[⟨['a']⟩]⟩) (some [(['a'], ⟨ColumnType.TypeInt⟩)])
        (Reachable.newReader "a\nx\n1\n".toList)) rfl, rfl⟩,
    coercion_failure_isolation noFloat
      (Plugin.mk (some ⟨"x\n1\n".toList, 1⟩) none [] (some ⟨[⟨['a']⟩]⟩)
        (some [(['a'], ⟨ColumnType.TypeInt⟩)]) [['a']] 0)
      (Plugin.mk (some ⟨"1\n".toList, 1⟩) none [] (some ⟨[⟨['a']⟩]⟩)
        (some [(['a'], ⟨ColumnType.TypeInt⟩)]) [['a']] 0)
      none ['a'] NumError.errSyntax
      (Reachable.readHeader _ _ _
        (Reachable.setSchema _ (some ⟨[⟨['a']⟩]⟩) (some [(['a'], ⟨ColumnType.TypeInt⟩)])
          (Reachable.newReader "a\nx\n1\n".toList)) rfl)
      rfl,
    ⟨rfl, rfl, rfl⟩⟩

end CsvPlugin
